import Mathlib

/-!
Accusyn: data indexing (`generateData`) and chord derivation (`generatePathGenomeView`).

A shallow embedding of `src/generateData.js` and `src/generateGenomeView.js`.

Modelling conventions.

* A JavaScript object used as a dictionary is an association list `Dict V` holding the own
  properties in insertion order; `d[k]` on an own property is `Dict.get?`, `d[k] = v` is
  `Dict.set`, and `k in d` is `Dict.has`, which is also true for the names a plain object
  inherits from `Object.prototype` (`objectPrototypeNames`).  `Object.keys` is
  `Dict.objectKeys` (array-index keys first, ascending).  The objects inherited under those
  names are not part of the state: what a write does to them (for `__proto__`, to the
  prototype chain) is not represented.
* Coordinates are the integer-valued doubles `parseInt` returns (`NaN` is not represented);
  minimum and maximum are exact, while a sum or a difference is the exact result rounded to
  the nearest double (`roundDouble`), which changes it only beyond 53 binary digits.
* A `TypeError` (a property read on `undefined`, a call of `.push` on a value that has none)
  is the `none` result of an `Option`-valued function.
* Calls to the setters of `src/variables/*` and to the rendering collaborators are recorded,
  in order, in a trace of `Effect`s.
* Helpers imported from modules that are not among the sources (`sortGffKeys`,
  `partitionGffKeys`, `lookForBlocksPositions`, `fixSourceTargetCollinearity`, the palettes)
  are parameters; the versions modelled from the specification serve in the examples.
-/

set_option autoImplicit false

namespace Accusyn

/-! ## Dictionaries -/

/-- A string-keyed JavaScript object: own properties in insertion order. -/
abbrev Dict (V : Type) := List (String × V)

/-- The property names a plain object inherits from `Object.prototype`. -/
def objectPrototypeNames : List String :=
  ["constructor", "hasOwnProperty", "isPrototypeOf", "propertyIsEnumerable", "toLocaleString",
   "toString", "valueOf", "__proto__", "__defineGetter__", "__defineSetter__",
   "__lookupGetter__", "__lookupSetter__"]

namespace Dict

variable {V : Type}

/-- Read of the own property `d[k]`; `none` when `k` is not an own property (JavaScript
then yields the inherited value for an inherited name, `undefined` otherwise). -/
def get? : Dict V → String → Option V
  | [], _ => none
  | (k', v) :: rest, k => if k' = k then some v else get? rest k

/-- The own-property test `d.hasOwnProperty(k)`. -/
def hasOwn (d : Dict V) (k : String) : Bool := (d.get? k).isSome

/-- Property write `d[k] = v`: an existing property keeps its place, a new one goes last. -/
def set : Dict V → String → V → Dict V
  | [], k, v => [(k, v)]
  | (k', v') :: rest, k, v => if k' = k then (k', v) :: rest else (k', v') :: set rest k v

/-- The test `k in d`: true for an own property and for a name inherited from
`Object.prototype`. -/
def has (d : Dict V) (k : String) : Bool := d.hasOwn k || decide (k ∈ objectPrototypeNames)

/-- Own property names in insertion order. -/
def keys (d : Dict V) : List String := d.map Prod.fst

end Dict

/-! ## Collinearity records and the block / connection indexer -/

/-- One parsed row of the collinearity file. -/
structure CollinearityRecord where
  block : String
  connection : String
  connectionSource : String
  connectionTarget : String
  sourceChromosome : String
  targetChromosome : String
  score : String
  eValueBlock : String
  eValueConnection : String
  isFlipped : Bool
  deriving DecidableEq, Repr

/-- One connection entry stored in a block (`blockDictionary[block][i]`). -/
structure Connection where
  connection : String
  connectionSource : String
  connectionTarget : String
  sourceChromosome : String
  targetChromosome : String
  score : String
  eValue : String
  eValueConnection : String
  isFlipped : Bool
  deriving DecidableEq, Repr

/-- The aggregate attached to a block by `lookForBlocksPositions`. -/
structure BlockPositions where
  blockLength : Nat
  minSource : Int
  maxSource : Int
  minTarget : Int
  maxTarget : Int
  deriving DecidableEq, Repr

/-- A value of `blockDictionary`: the array of connection entries together with its
`blockPositions` property (`none` until it is attached). -/
structure Block where
  entries : List Connection
  blockPositions : Option BlockPositions
  deriving DecidableEq, Repr

/-- An element of `connectionDictionary[chromosome]`. -/
structure ConnectionEntry where
  blockIDs : List String
  connection : String
  connectionAmount : Nat
  deriving DecidableEq, Repr

/-- The object literal pushed onto `blockDictionary[currentBlock]` (lines 229-241). -/
def toConnection (r : CollinearityRecord) : Connection :=
  { connection := r.connection
    connectionSource := r.connectionSource
    connectionTarget := r.connectionTarget
    sourceChromosome := r.sourceChromosome
    targetChromosome := r.targetChromosome
    score := r.score
    eValue := r.eValueBlock
    eValueConnection := r.eValueConnection
    isFlipped := r.isFlipped }

/-- The lodash call `find(list, ['connection', id])`. -/
def findConnection (l : List ConnectionEntry) (id : String) : Option ConnectionEntry :=
  l.find? (fun e => decide (e.connection = id))

/-- The lodash call `findIndex(list, ['connection', id])` (used only after `find` succeeded). -/
def findIndexConnection (l : List ConnectionEntry) (id : String) : Nat :=
  l.findIdx (fun e => decide (e.connection = id))

/-- The statement `if (blockIDs.indexOf(block) === -1) blockIDs.push(block)`. -/
def pushIfAbsent (blockIDs : List String) (block : String) : List String :=
  if block ∈ blockIDs then blockIDs else blockIDs ++ [block]

/-- Lines 256-273: the update of `connectionDictionary[sourceID]` for a row. -/
def updateSourceSide (l : List ConnectionEntry) (targetID currentBlock : String) :
    List ConnectionEntry :=
  match findConnection l targetID with
  | none => l ++ [{ blockIDs := [currentBlock], connection := targetID, connectionAmount := 1 }]
  | some _ =>
    l.modify
      (fun e => { e with connectionAmount := e.connectionAmount + 1
                         blockIDs := pushIfAbsent e.blockIDs currentBlock })
      (findIndexConnection l targetID)

/-- Lines 275-295: the update of `connectionDictionary[targetID]` for a row; the amount is
incremented only when `targetID != entry.connection`. -/
def updateTargetSide (l : List ConnectionEntry) (sourceID targetID currentBlock : String) :
    List ConnectionEntry :=
  match findConnection l sourceID with
  | none => l ++ [{ blockIDs := [currentBlock], connection := sourceID, connectionAmount := 1 }]
  | some _ =>
    l.modify
      (fun e => { e with
                    connectionAmount :=
                      if targetID ≠ e.connection then e.connectionAmount + 1
                      else e.connectionAmount
                    blockIDs := pushIfAbsent e.blockIDs currentBlock })
      (findIndexConnection l sourceID)

/-- The arrays `connectionDictionary[id]`, read after the key has been created. -/
def connectionsOf (cd : Dict (List ConnectionEntry)) (id : String) : List ConnectionEntry :=
  (cd.get? id).getD []

/-- The two dictionaries built by the loop of lines 219-296. -/
structure IndexState where
  blockDictionary : Dict Block
  connectionDictionary : Dict (List ConnectionEntry)
  deriving DecidableEq, Repr

/-- One iteration of the loop of lines 221-296.  The result `none` is the `TypeError` raised
by `.push` on a value that is not an array: for an identifier inherited from
`Object.prototype` the test `in` is true, no array is created, and what is read under that
name (a function, or the prototype itself) has no `push`; `find` returns `undefined` on it. -/
def indexRecord (s : IndexState) (r : CollinearityRecord) : Option IndexState :=
  let currentBlock := r.block
  let bd₀ := if s.blockDictionary.has currentBlock then s.blockDictionary
             else s.blockDictionary.set currentBlock { entries := [], blockPositions := none }
  match bd₀.get? currentBlock with
  | none => none
  | some b =>
    let bd := bd₀.set currentBlock { b with entries := b.entries ++ [toConnection r] }
    let sourceID := r.sourceChromosome
    let targetID := r.targetChromosome
    let cd₀ := s.connectionDictionary
    let cd₁ := if cd₀.has sourceID then cd₀ else cd₀.set sourceID []
    let cd₂ := if cd₁.has targetID then cd₁ else cd₁.set targetID []
    match cd₂.get? sourceID with
    | none => none
    | some sourceList =>
      let cd₃ := cd₂.set sourceID (updateSourceSide sourceList targetID currentBlock)
      match cd₃.get? targetID with
      | none => none
      | some targetList =>
        some { blockDictionary := bd
               connectionDictionary :=
                 cd₃.set targetID (updateTargetSide targetList sourceID targetID currentBlock) }

/-- The loop of lines 221-296 from a given state; it stops at the first iteration that
raises. -/
def indexLoop : IndexState → List CollinearityRecord → Option IndexState
  | s, [] => some s
  | s, r :: rest =>
    match indexRecord s r with
    | none => none
    | some s' => indexLoop s' rest

/-- The whole loop of lines 219-296 over the collinearity input, from the two empty
dictionaries; `none` when an iteration raises. -/
def indexCollinearity (collinearity : List CollinearityRecord) : Option IndexState :=
  indexLoop { blockDictionary := [], connectionDictionary := [] } collinearity

/-- The three identifiers of a row are ordinary names, none inherited from
`Object.prototype`. -/
def CollinearityRecord.ordinary (r : CollinearityRecord) : Bool :=
  !decide (r.block ∈ objectPrototypeNames) &&
  !decide (r.sourceChromosome ∈ objectPrototypeNames) &&
  !decide (r.targetChromosome ∈ objectPrototypeNames)

/-- The iteration of lines 221-296 read on own properties alone: it is what `indexRecord`
returns whenever it returns (`indexRecord_eq_some`). -/
def indexRow (s : IndexState) (r : CollinearityRecord) : IndexState :=
  let currentBlock := r.block
  let bd₀ := if s.blockDictionary.hasOwn currentBlock then s.blockDictionary
             else s.blockDictionary.set currentBlock { entries := [], blockPositions := none }
  let bd := match bd₀.get? currentBlock with
            | some b => bd₀.set currentBlock { b with entries := b.entries ++ [toConnection r] }
            | none => bd₀
  let sourceID := r.sourceChromosome
  let targetID := r.targetChromosome
  let cd₀ := s.connectionDictionary
  let cd₁ := if cd₀.hasOwn sourceID then cd₀ else cd₀.set sourceID []
  let cd₂ := if cd₁.hasOwn targetID then cd₁ else cd₁.set targetID []
  let cd₃ := cd₂.set sourceID (updateSourceSide (connectionsOf cd₂ sourceID) targetID currentBlock)
  let cd₄ := cd₃.set targetID
    (updateTargetSide (connectionsOf cd₃ targetID) sourceID targetID currentBlock)
  { blockDictionary := bd, connectionDictionary := cd₄ }

/-- The iterations `indexRow` over a whole input: the index of a run that does not raise
(`indexCollinearity_eq_some`). -/
def indexRows (collinearity : List CollinearityRecord) : IndexState :=
  collinearity.foldl indexRow { blockDictionary := [], connectionDictionary := [] }

/-- The example rows of the specification: block `b1`, `Chr1` to `Chr2`. -/
def exampleRow (connection : String) : CollinearityRecord :=
  { block := "b1", connection := connection, connectionSource := "g1", connectionTarget := "g2",
    sourceChromosome := "Chr1", targetChromosome := "Chr2", score := "100",
    eValueBlock := "0", eValueConnection := "0", isFlipped := false }

/-! ## Gene records and the position indexer (lines 120-175) -/

/-- One parsed record of the gene-annotation (GFF) file; `start` and `end_` are the values
`parseInt` returns, `none` stands for a field that is `undefined`. -/
structure GffRecord where
  chromosomeID : String
  start : Int
  end_ : Int
  attributes : Option String
  geneID : Option String
  deriving DecidableEq, Repr

/-- A value of `geneDictionary`. -/
structure GenePosition where
  start : Int
  end_ : Int
  deriving DecidableEq, Repr

/-- A value of `gffPositionDictionary`; `color` and `tag` are `none` until they are assigned. -/
structure ChromosomeEntry where
  start : Int
  end_ : Int
  color : Option String
  tag : Option String
  deriving DecidableEq, Repr

/-- The constant `Number.MAX_SAFE_INTEGER`. -/
def MAX_SAFE_INTEGER : Int := 9007199254740991

/-- The number of binary digits of `n`, counted in at most `fuel` halvings. -/
def binaryDigits : Nat → Nat → Nat
  | 0, _ => 0
  | fuel + 1, n => if n = 0 then 0 else binaryDigits fuel (n / 2) + 1

/-- The double nearest to an integer, ties going to the even significand, for magnitudes
below `2^1024`: an integer of at most 53 binary digits is a double, a longer one keeps its 53
leading digits.  The sum or difference of two integer-valued doubles is `roundDouble` of the
exact result. -/
def roundDouble (x : Int) : Int :=
  let m := x.natAbs
  let digits := binaryDigits 1024 m
  if digits ≤ 53 then x
  else
    let unit := 2 ^ (digits - 53)
    let q := m / unit
    let r := m % unit
    let q' := if unit < 2 * r ∨ (2 * r = unit ∧ q % 2 = 1) then q + 1 else q
    x.sign * ((q' * unit : Nat) : Int)

/-- The call `s.split(sep)` for a separator of one character, on the characters of `s`. -/
def splitChar (sep : Char) : List Char → List (List Char)
  | [] => [[]]
  | c :: cs =>
    if c = sep then [] :: splitChar sep cs
    else
      match splitChar sep cs with
      | [] => [[c]]
      | part :: parts => (c :: part) :: parts

/-- The expression `attributes.split(';')[0].split('=')[1]`; a missing second part is the
property name `undefined`. -/
def attributesGene (attributes : String) : String :=
  match splitChar '=' ((splitChar ';' attributes.data).headD []) with
  | _ :: v :: _ => String.mk v
  | _ => "undefined"

/-- Lines 167-169: the key under which a record enters `geneDictionary`. -/
def currentGene (g : GffRecord) : String :=
  match g.attributes with
  | some a =>
    if a ≠ "" then attributesGene a
    else match g.geneID with
      | some id => if id ≠ "" then id else g.chromosomeID
      | none => g.chromosomeID
  | none =>
    match g.geneID with
    | some id => if id ≠ "" then id else g.chromosomeID
    | none => g.chromosomeID

/-- The dictionaries built by the loop of lines 127-175. -/
structure PositionState where
  geneDictionary : Dict GenePosition
  gffPositionDictionary : Dict ChromosomeEntry
  minStartChromosomesDictionary : Dict Int
  maxEndChromosomesDictionary : Dict Int
  deriving DecidableEq, Repr

/-- One iteration of the loop of lines 128-175.  For a chromosome whose name is inherited
from `Object.prototype` the tests `in` are true: no entry is created, the writes of lines
159-163 land on the inherited object, and `gffPositionDictionary` keeps its own properties.
(Under such a name JavaScript stores `NaN` in the two helper dictionaries, where the model
keeps the running fold; the value is read only into that inherited object.) -/
def indexGene (s : PositionState) (g : GffRecord) : PositionState :=
  let currentChromosomeID := g.chromosomeID
  let start := g.start
  let end_ := g.end_
  let min₀ := if s.minStartChromosomesDictionary.has currentChromosomeID
              then s.minStartChromosomesDictionary
              else s.minStartChromosomesDictionary.set currentChromosomeID MAX_SAFE_INTEGER
  let min₁ := min₀.set currentChromosomeID
    (min ((min₀.get? currentChromosomeID).getD MAX_SAFE_INTEGER) start)
  let max₀ := if s.maxEndChromosomesDictionary.has currentChromosomeID
              then s.maxEndChromosomesDictionary
              else s.maxEndChromosomesDictionary.set currentChromosomeID 0
  let max₁ := max₀.set currentChromosomeID
    (max ((max₀.get? currentChromosomeID).getD 0) end_)
  let newStart := (min₁.get? currentChromosomeID).getD MAX_SAFE_INTEGER
  let newEnd := (max₁.get? currentChromosomeID).getD 0
  let gffD := match s.gffPositionDictionary.get? currentChromosomeID with
    | some e => s.gffPositionDictionary.set currentChromosomeID
        { e with start := newStart, end_ := newEnd }
    | none =>
      if s.gffPositionDictionary.has currentChromosomeID then s.gffPositionDictionary
      else s.gffPositionDictionary.set currentChromosomeID
        { start := newStart, end_ := newEnd, color := none, tag := none }
  { geneDictionary := s.geneDictionary.set (currentGene g) { start := start, end_ := end_ }
    gffPositionDictionary := gffD
    minStartChromosomesDictionary := min₁
    maxEndChromosomesDictionary := max₁ }

/-- The whole loop of lines 127-175 over the gene input. -/
def indexGenes (gff : List GffRecord) : PositionState :=
  gff.foldl indexGene
    { geneDictionary := [], gffPositionDictionary := [],
      minStartChromosomesDictionary := [], maxEndChromosomesDictionary := [] }

/-- The example gene input of the specification. -/
def exampleGenes : List GffRecord :=
  [{ chromosomeID := "Chr1", start := 10, end_ := 50, attributes := none, geneID := some "g1" },
   { chromosomeID := "Chr1", start := 100, end_ := 200, attributes := none,
     geneID := some "g2" }]

/-! ## `Object.keys` -/

/-- The number denoted by a list of decimal digits. -/
def digitsValue (cs : List Char) : Nat :=
  cs.foldl (fun n c => 10 * n + (c.toNat - 48)) 0

/-- The array index a property name denotes, if it is a canonical numeric string below
`2^32 - 1`; such properties are enumerated first, in ascending order. -/
def arrayIndex? (k : String) : Option Nat :=
  match k.data with
  | [] => none
  | c :: cs =>
    if (c :: cs).all Char.isDigit && (c != '0' || cs.isEmpty) &&
        decide (digitsValue (c :: cs) < 4294967295)
    then some (digitsValue (c :: cs)) else none

namespace Dict

/-- The call `Object.keys(d)`: array-index keys in ascending numeric order, then the other
keys in insertion order. -/
def objectKeys {V : Type} (d : Dict V) : List String :=
  let indexed := d.keys.filterMap (fun k => (arrayIndex? k).map (fun n => (n, k)))
  (indexed.insertionSort (fun a b => a.1 ≤ b.1)).map Prod.snd ++
    d.keys.filter (fun k => (arrayIndex? k).isNone)

end Dict

/-! ## Colours, partitions and block aggregation (lines 180-214 and 298-326) -/

/-- A d3 ordinal scale whose domain is `[0 .. n-1]`: the colour of index `i` is
`range[i % range.length]`, `undefined` for an empty range. -/
def scaleOrdinal (range : List String) (i : Nat) : Option String :=
  range[i % range.length]?

/-- Lines 188-193: the loop assigning a colour to every sorted key and summing the ends;
`none` when a key is not in the dictionary. -/
def assignColors (colors : Nat → Option String) :
    List String → Nat → Int → Dict ChromosomeEntry → Option (Int × Dict ChromosomeEntry)
  | [], _, totalChrEnd, d => some (totalChrEnd, d)
  | k :: ks, i, totalChrEnd, d =>
    match d.get? k with
    | none => none
    | some e =>
      assignColors colors ks (i + 1) (roundDouble (totalChrEnd + e.end_))
        (d.set k { e with color := colors i })

/-- Lines 199-202: the inner loop tagging every chromosome of one partition. -/
def assignTag (tag : String) : List String → Dict ChromosomeEntry → Option (Dict ChromosomeEntry)
  | [], d => some d
  | c :: cs, d =>
    match d.get? c with
    | none => none
    | some e => assignTag tag cs (d.set c { e with tag := some tag })

/-- Lines 198-203: the loop over the partitions. -/
def assignTags (gffPartitionedDictionary : Dict (List String)) :
    List String → Dict ChromosomeEntry → Option (Dict ChromosomeEntry)
  | [], d => some d
  | p :: ps, d =>
    match gffPartitionedDictionary.get? p with
    | none => none
    | some members =>
      match assignTag p members d with
      | none => none
      | some d' => assignTags gffPartitionedDictionary ps d'

/-- Modelled from the spec: `lookForBlocksPositions` of `src/helpers` (not among the sources).
It reads the gene positions of every connection of the block and returns the least start and
the greatest end on each side together with the number of connections; it fails (`none`) when
the block or a referenced gene identifier is absent. -/
def lookForBlocksPositions (blockDictionary : Dict Block) (geneDictionary : Dict GenePosition)
    (block : String) : Option BlockPositions :=
  match blockDictionary.get? block with
  | none => none
  | some b =>
    match b.entries.mapM (fun e => geneDictionary.get? e.connectionSource),
          b.entries.mapM (fun e => geneDictionary.get? e.connectionTarget) with
    | some sources, some targets =>
      some { blockLength := b.entries.length
             minSource := sources.foldl (fun m g => min m g.start) MAX_SAFE_INTEGER
             maxSource := sources.foldl (fun m g => max m g.end_) 0
             minTarget := targets.foldl (fun m g => min m g.start) MAX_SAFE_INTEGER
             maxTarget := targets.foldl (fun m g => max m g.end_) 0 }
    | _, _ => none

/-- The state of the `try` block of lines 307-326 when it is left. -/
structure Aggregation where
  maxBlockSize : Nat
  blockDictionary : Dict Block
  failed : Bool
  deriving DecidableEq, Repr

/-- The loop of lines 309-314; `lookup` is the collaborator `lookForBlocksPositions`, whose
exception (`none`) leaves the loop at once. -/
def aggregateBlocks
    (lookup : Dict Block → Dict GenePosition → String → Option BlockPositions)
    (geneDictionary : Dict GenePosition) :
    List String → Nat → Dict Block → Aggregation
  | [], maxBlockSize, bd => { maxBlockSize := maxBlockSize, blockDictionary := bd, failed := false }
  | k :: ks, maxBlockSize, bd =>
    match bd.get? k with
    | none => { maxBlockSize := maxBlockSize, blockDictionary := bd, failed := true }
    | some b =>
      let maxBlockSize' := max maxBlockSize b.entries.length
      match lookup bd geneDictionary k with
      | none => { maxBlockSize := maxBlockSize', blockDictionary := bd, failed := true }
      | some p =>
        aggregateBlocks lookup geneDictionary ks maxBlockSize'
          (bd.set k { b with blockPositions := some p })

/-! ## `generateData` -/

/-- The collaborators of `generateData` that are not among the sources. -/
structure Collaborators where
  /-- The palette `CATEGORICAL_COLOR_SCALES['Light 1']`. -/
  defaultPalette : List String
  sortGffKeys : List String → List String
  /-- Returns `gffPartitionedDictionary` and `partitionedGffKeys`. -/
  partitionGffKeys : List String → Dict (List String) × List String
  convertToMinimumWindowSize : Int → Int
  generateAdditionalTracks : List String → List String
  lookForBlocksPositions : Dict Block → Dict GenePosition → String → Option BlockPositions

/-- The calls by which `generateData` changes the stored variables or the page, in the order
of the source. -/
inductive Effect where
  | resetAllVariables
  | setGeneDictionary (d : Dict GenePosition)
  | setGenomeWindowSize (size : Int)
  | setGffDictionary (d : Dict ChromosomeEntry)
  | setCurrentChromosomeOrder (order : List String)
  | setDefaultChromosomeOrder (order : List String)
  | setAdditionalTrackArray (tracks : List String)
  | renderReactAlert (message color : String) (timeout : Nat)
  | setBlockDictionary (d : Dict Block)
  /-- Lines 331-1390: the panels, controls and handlers of the page are built. -/
  | buildControls
  | updateFilter (shouldUpdatePath : Bool) (value : Int)
  | generateGenomeView
  /-- Lines 1398-1445: the modals are rendered and the page is displayed. -/
  | showPage
  deriving DecidableEq, Repr

/-- The outcome of a call: the effects in order, and whether an uncaught `TypeError` ended it. -/
structure Run where
  trace : List Effect
  threw : Bool
  deriving DecidableEq, Repr

/-- The text of the alert of lines 319-323. -/
def incompatibleMessage : String :=
  "The GFF file is not compatible with the MCScanX collinearity file. Please, try again!"

/-- The effects of lines 205-217, after the position dictionary is complete. -/
def commitChromosomes (env : Collaborators) (totalChrEnd : Int) (d : Dict ChromosomeEntry)
    (gffKeys : List String) (additionalTrack : Option (List String)) : List Effect :=
  [Effect.setGenomeWindowSize (env.convertToMinimumWindowSize totalChrEnd),
   Effect.setGffDictionary d,
   Effect.setCurrentChromosomeOrder gffKeys,
   Effect.setDefaultChromosomeOrder gffKeys] ++
  (match additionalTrack with
   | some t => [Effect.setAdditionalTrackArray (env.generateAdditionalTracks t)]
   | none => [])

/-- Lines 180-203: the keys are sorted, every sorted key receives its ordinal colour and every
member of a partition its tag; the result is the sorted keys, the sum of the ends and the
completed dictionary, `none` when a key handed back by a collaborator is not in the
dictionary. -/
def colorChromosomes (env : Collaborators) (d : Dict ChromosomeEntry) :
    Option (List String × Int × Dict ChromosomeEntry) :=
  let gffKeys := env.sortGffKeys d.objectKeys
  match assignColors (scaleOrdinal env.defaultPalette) gffKeys 0 0 d with
  | none => none
  | some (totalChrEnd, colored) =>
    match assignTags (env.partitionGffKeys gffKeys).1 (env.partitionGffKeys gffKeys).2
        colored with
    | none => none
    | some tagged => some (gffKeys, totalChrEnd, tagged)

/-- The state of the `try` block of lines 307-326 for the index the collinearity loop has
built. -/
def aggregation (env : Collaborators) (gff : List GffRecord) (index : IndexState) :
    Aggregation :=
  aggregateBlocks env.lookForBlocksPositions (indexGenes gff).geneDictionary
    index.blockDictionary.objectKeys 0 index.blockDictionary

/-- The function `generateData(gff, collinearity, additionalTrack)`; an argument that is
`null` or `undefined` is `none`. -/
def generateData (env : Collaborators) (gff : Option (List GffRecord))
    (collinearity : Option (List CollinearityRecord)) (additionalTrack : Option (List String)) :
    Run :=
  match gff, collinearity with
  | some gff, some collinearity =>
    let positions := indexGenes gff
    let t₁ := [Effect.resetAllVariables, Effect.setGeneDictionary positions.geneDictionary]
    match colorChromosomes env positions.gffPositionDictionary with
    | none => { trace := t₁, threw := true }
    | some (gffKeys, totalChrEnd, gffPositionDictionary) =>
      let t₂ := t₁ ++
        commitChromosomes env totalChrEnd gffPositionDictionary gffKeys additionalTrack
      match indexCollinearity collinearity with
      | none => { trace := t₂, threw := true }
      | some index =>
        let result := aggregation env gff index
        if result.failed then
          { trace := t₂ ++ [Effect.renderReactAlert incompatibleMessage "danger" 15000],
            threw := false }
        else
          { trace := t₂ ++ [Effect.setBlockDictionary result.blockDictionary,
                            Effect.buildControls, Effect.updateFilter false 1,
                            Effect.generateGenomeView, Effect.showPage],
            threw := false }
  | _, _ => { trace := [], threw := false }

/-- Stand-ins for the collaborators, used in the examples: the default palette has two
colours, all chromosomes form one partition, and `lookForBlocksPositions` is the function
modelled above. -/
def exampleCollaborators : Collaborators :=
  { defaultPalette := ["#8dd3c7", "#ffffb3"]
    sortGffKeys := fun ks => ks.insertionSort (fun a b => a ≤ b)
    partitionGffKeys := fun ks => ([("All", ks)], ["All"])
    convertToMinimumWindowSize := fun n => n
    generateAdditionalTracks := fun t => t
    lookForBlocksPositions := lookForBlocksPositions }

/-- A collinearity input whose only row refers to the gene `gX`, absent from `exampleGenes`. -/
def incompatibleRows : List CollinearityRecord :=
  [{ block := "b1", connection := "0", connectionSource := "gX", connectionTarget := "g2",
     sourceChromosome := "Chr1", targetChromosome := "Chr1", score := "100",
     eValueBlock := "0", eValueConnection := "0", isFlipped := false }]

/-- A collinearity input compatible with `exampleGenes`. -/
def compatibleRows : List CollinearityRecord :=
  [{ block := "b1", connection := "0", connectionSource := "g1", connectionTarget := "g2",
     sourceChromosome := "Chr1", targetChromosome := "Chr1", score := "100",
     eValueBlock := "0", eValueConnection := "0", isFlipped := false }]

/-- The effect is a user alert. -/
def Effect.isAlert : Effect → Bool
  | Effect.renderReactAlert _ _ _ => true
  | _ => false

/-- The effect sets the block dictionary. -/
def Effect.isSetBlockDictionary : Effect → Bool
  | Effect.setBlockDictionary _ => true
  | _ => false

/-! ## `generatePathGenomeView` -/

/-- The object `source.value` of a chord. -/
structure ChordValue where
  id : String
  length : Nat
  deriving DecidableEq, Repr

/-- The object `source` of a chord. -/
structure ChordSource where
  id : String
  start : Int
  end_ : Int
  value : ChordValue
  deriving DecidableEq, Repr

/-- The object `target` of a chord. -/
structure ChordTarget where
  id : String
  start : Int
  end_ : Int
  deriving DecidableEq, Repr

/-- An element of `dataChords`. -/
structure Chord where
  source : ChordSource
  target : ChordTarget
  deriving DecidableEq, Repr

/-- The result of `fixSourceTargetCollinearity`. -/
structure SourceTarget where
  source : String
  target : String
  deriving DecidableEq, Repr

/-- A coordinate range `{start, end}`. -/
structure Positions where
  start : Int
  end_ : Int
  deriving DecidableEq, Repr

/-- The variables `generatePathGenomeView` reads. -/
structure ViewState where
  blockKeys : List String
  blockDictionary : Dict Block
  gffPositionDictionary : Dict ChromosomeEntry
  selectedCheckbox : List String
  showAllChromosomes : Bool
  filterSelect : String
  filterValue : Int
  currentFlippedChromosomes : List String
  currentSelectedBlock : Option Chord

/-- Lines 42-52: the identifiers looked for. -/
def lookID (selectedCheckbox : List String) : List String :=
  if selectedCheckbox.length = 1 then selectedCheckbox.head?.toList else selectedCheckbox

/-- Lines 64-76: the inclusion decision for a block with the given source and target. -/
def inclusion (st : ViewState) (sourceID targetID : String) : Bool :=
  let oneToMany := decide (st.selectedCheckbox.length = 1)
  let ids := lookID st.selectedCheckbox
  if oneToMany then
    if st.showAllChromosomes then (decide (sourceID ∈ ids) || decide (targetID ∈ ids))
    else (decide (sourceID ∈ ids) && decide (targetID ∈ ids))
  else (decide (sourceID ∈ ids) && decide (targetID ∈ ids))

/-- Lines 79-82: the filter condition on the number of entries of a block. -/
def filterCondition (st : ViewState) (length : Nat) : Bool :=
  (decide (st.filterSelect = "At Least") && decide ((length : Int) ≥ st.filterValue)) ||
  (decide (st.filterSelect = "At Most") && decide ((length : Int) ≤ st.filterValue))

/-- Lines 103-110 (and 113-118): the mirror of a range on a chromosome ending at `chrEnd`:
`newStart = chrEnd - end`, `newEnd = chrEnd - start`, each a subtraction of doubles. -/
def flipPositions (chrEnd : Int) (p : Positions) : Positions :=
  let tmpStart := p.start
  { start := roundDouble (chrEnd - p.end_), end_ := roundDouble (chrEnd - tmpStart) }

/-- Lines 105-118 for one side: the range is mirrored when the chromosome is flipped;
`none` when a flipped chromosome has no entry in `gffPositionDictionary`. -/
def displayPositions (st : ViewState) (id : String) (p : Positions) : Option Positions :=
  if id ∈ st.currentFlippedChromosomes then
    match st.gffPositionDictionary.get? id with
    | some e => some (flipPositions e.end_ p)
    | none => none
  else some p

/-- The body of the loop of lines 54-142 for an unvisited block: `none` is a `TypeError`,
`some none` a block that is skipped, `some (some c)` the chord pushed. -/
def deriveChord (fixSourceTargetCollinearity : Connection → SourceTarget) (st : ViewState)
    (currentBlock : String) : Option (Option Chord) :=
  match st.blockDictionary.get? currentBlock with
  | none => none
  | some b =>
    match b.entries.head? with
    | none => none
    | some first =>
      let IDs := fixSourceTargetCollinearity first
      let sourceID := IDs.source
      let targetID := IDs.target
      let shouldAddDataChord :=
        inclusion st sourceID targetID && filterCondition st b.entries.length
      if shouldAddDataChord then
        match b.blockPositions with
        | none => none
        | some blockPositions =>
          match displayPositions st sourceID
                  { start := blockPositions.minSource, end_ := blockPositions.maxSource },
                displayPositions st targetID
                  { start := blockPositions.minTarget, end_ := blockPositions.maxTarget } with
          | some sourcePositions, some targetPositions =>
            some (some
              { source := { id := sourceID, start := sourcePositions.start,
                            end_ := sourcePositions.end_,
                            value := { id := currentBlock,
                                       length := blockPositions.blockLength } }
                target := { id := targetID, start := targetPositions.start,
                            end_ := targetPositions.end_ } })
          | _, _ => none
      else some none

/-- What `generatePathGenomeView` computes before rendering. -/
structure PathResult where
  dataChords : List Chord
  foundCurrentSelectedBlock : Bool
  deriving DecidableEq, Repr

/-- The loop of lines 54-142; `visited` lists the blocks whose flag is `true`. -/
def chordLoop (fixSourceTargetCollinearity : Connection → SourceTarget) (st : ViewState) :
    List String → List String → PathResult → Option PathResult
  | [], _, acc => some acc
  | currentBlock :: rest, visited, acc =>
    if currentBlock ∈ visited then chordLoop fixSourceTargetCollinearity st rest visited acc
    else
      match deriveChord fixSourceTargetCollinearity st currentBlock with
      | none => none
      | some none =>
        chordLoop fixSourceTargetCollinearity st rest (currentBlock :: visited) acc
      | some (some chord) =>
        chordLoop fixSourceTargetCollinearity st rest (currentBlock :: visited)
          { dataChords := acc.dataChords ++ [chord]
            foundCurrentSelectedBlock :=
              if some chord = st.currentSelectedBlock then true
              else acc.foundCurrentSelectedBlock }

/-- The function `generatePathGenomeView` up to line 142: `dataChords` is emptied and rebuilt;
`none` when the derivation ends in a `TypeError`. -/
def generatePathGenomeView (fixSourceTargetCollinearity : Connection → SourceTarget)
    (st : ViewState) : Option PathResult :=
  chordLoop fixSourceTargetCollinearity st st.blockKeys []
    { dataChords := [], foundCurrentSelectedBlock := false }

/-- Modelled from the spec: `fixSourceTargetCollinearity` (not among the sources) resolves the
canonical source and target chromosome identifiers of a block from its first connection
entry; here they are the entry's own source and target chromosome. -/
def fixSourceTargetCollinearity (c : Connection) : SourceTarget :=
  { source := c.sourceChromosome, target := c.targetChromosome }

/-- The block can be read by the loop: it is in the dictionary, has a first entry and has
its `blockPositions`. -/
def ViewState.blockReady (st : ViewState) (k : String) : Bool :=
  match st.blockDictionary.get? k with
  | some b => !b.entries.isEmpty && b.blockPositions.isSome
  | none => false

/-- The state `generateData` leaves behind: every key of `blockKeys` is a readable block and
every flipped chromosome has an entry in the position dictionary. -/
def ViewState.WellFormed (st : ViewState) : Prop :=
  (∀ k ∈ st.blockKeys, st.blockReady k = true) ∧
  (∀ c ∈ st.currentFlippedChromosomes, (st.gffPositionDictionary.get? c).isSome = true)

/-- A view of the block of the comment at lines 96-101: source range 20-28, target range 1-13,
both chromosomes ending at 28. -/
def exampleView (selectedCheckbox flipped : List String) (showAll : Bool)
    (filterSelect : String) (filterValue : Int) : ViewState :=
  { blockKeys := ["b1"]
    blockDictionary :=
      [("b1", { entries := [toConnection (exampleRow "0"), toConnection (exampleRow "1")]
                blockPositions := some { blockLength := 2, minSource := 20, maxSource := 28,
                                         minTarget := 1, maxTarget := 13 } })]
    gffPositionDictionary :=
      [("Chr1", { start := 0, end_ := 28, color := none, tag := none }),
       ("Chr2", { start := 0, end_ := 28, color := none, tag := none })]
    selectedCheckbox := selectedCheckbox
    showAllChromosomes := showAll
    filterSelect := filterSelect
    filterValue := filterValue
    currentFlippedChromosomes := flipped
    currentSelectedBlock := none }

/-! ## Specification-side descriptions of the connection index -/

/-- A row connects `A` and `B`, in either direction. -/
def connects (A B : String) (r : CollinearityRecord) : Bool :=
  (decide (r.sourceChromosome = A) && decide (r.targetChromosome = B)) ||
  (decide (r.sourceChromosome = B) && decide (r.targetChromosome = A))

/-- The rows of the input connecting `A` and `B`, in input order. -/
def rowsBetween (A B : String) (rows : List CollinearityRecord) : List CollinearityRecord :=
  rows.filter (connects A B)

/-- The identifiers of a list in order of first occurrence, without repetition. -/
def firstOccurrences (ids : List String) : List String :=
  ids.foldl pushIfAbsent []

/-- What one row connecting the pair does to the entry of `A` for `B`. -/
def bumpEntry (old : Option ConnectionEntry) (B block : String) : ConnectionEntry :=
  match old with
  | none => { blockIDs := [block], connection := B, connectionAmount := 1 }
  | some e => { blockIDs := pushIfAbsent e.blockIDs block, connection := B,
                connectionAmount := e.connectionAmount + 1 }

/-- What the target-side update of a row with source `s` and target `t` does to the entry
of `t` for `s`. -/
def bumpTarget (old : Option ConnectionEntry) (s t block : String) : ConnectionEntry :=
  match old with
  | none => { blockIDs := [block], connection := s, connectionAmount := 1 }
  | some e => { blockIDs := pushIfAbsent e.blockIDs block, connection := s,
                connectionAmount := if t ≠ s then e.connectionAmount + 1
                                    else e.connectionAmount }

/-- The entry of `A` for `B` described from the input rows: absent when no row connects them,
otherwise the blocks in order of first occurrence and the number of connecting rows. -/
def expectedEntry (rows : List CollinearityRecord) (A B : String) : Option ConnectionEntry :=
  match rowsBetween A B rows with
  | [] => none
  | r :: rest =>
    some { blockIDs := firstOccurrences ((r :: rest).map (fun x => x.block)), connection := B,
           connectionAmount := (r :: rest).length }

/-- The entry of `connectionDictionary[A]` whose `connection` is `B`. -/
def entryFor (cd : Dict (List ConnectionEntry)) (A B : String) : Option ConnectionEntry :=
  findConnection (connectionsOf cd A) B

/-- The running minimum of the starts, from the sentinel. -/
def foldMinStart (rows : List GffRecord) : Int :=
  rows.foldl (fun m g => min m g.start) MAX_SAFE_INTEGER

/-- The running maximum of the ends, from the sentinel. -/
def foldMaxEnd (rows : List GffRecord) : Int :=
  rows.foldl (fun m g => max m g.end_) 0

/-- The gene records lying on a chromosome. -/
def genesOn (c : String) (gff : List GffRecord) : List GffRecord :=
  gff.filter (fun g => decide (g.chromosomeID = c))

/-- The coordinates of a chromosome entry. -/
def ChromosomeEntry.range (e : ChromosomeEntry) : Int × Int := (e.start, e.end_)

/-! ## `generateGenomeView`: the layout of lines 211-233 -/

/-- An element of `dataChromosomes`. -/
structure ChromosomeDescriptor where
  len : Int
  color : Option String
  label : String
  id : String
  deriving DecidableEq, Repr

/-- The loop of lines 214-233 from index `i`; `colors` is the ordinal colour scale; `none`
when a key of `gffKeys` has no entry in `gffPositionDictionary`. -/
def layoutLoop (colors : Nat → Option String) (st : ViewState) :
    List String → Nat → List ChromosomeDescriptor → Option (List ChromosomeDescriptor)
  | [], _, acc => some acc
  | key :: rest, i, acc =>
    match st.gffPositionDictionary.get? key with
    | none => none
    | some e =>
      let currentObj : ChromosomeDescriptor :=
        { len := e.end_, color := colors i, label := key, id := key }
      if st.showAllChromosomes then
        layoutLoop colors st rest (i + 1) (acc ++ [currentObj])
      else if key ∈ st.selectedCheckbox then
        layoutLoop colors st rest (i + 1) (acc ++ [currentObj])
      else layoutLoop colors st rest (i + 1) acc

/-- What `generateGenomeView` hands to the renderer: the layout, and the result of the call
of `generatePathGenomeView` that ends it (`none` when that call raises). -/
structure GenomeView where
  dataChromosomes : List ChromosomeDescriptor
  paths : Option PathResult
  deriving DecidableEq, Repr

/-- The function `generateGenomeView` of `src/generateGenomeView.js`: `dataChromosomes` is
emptied and rebuilt from `gffKeys`, then the paths are generated. -/
def generateGenomeView (fixSourceTargetCollinearity : Connection → SourceTarget)
    (colors : Nat → Option String) (gffKeys : List String) (st : ViewState) :
    Option GenomeView :=
  match layoutLoop colors st gffKeys 0 [] with
  | none => none
  | some dataChromosomes =>
    some { dataChromosomes := dataChromosomes
           paths := generatePathGenomeView fixSourceTargetCollinearity st }

/-- Lines 1224-1234 of `generateData.js`, in the click handler of the select-all buttons:
the show-all checkbox is checked when every chromosome checkbox or none is selected, and is
left as it is otherwise; `chrBoxes` is the number of chromosome checkboxes. -/
def selectAllShowAll (chrBoxes : Nat) (selectedCheckboxes : List String) (showAll : Bool) :
    Bool :=
  if decide (chrBoxes = selectedCheckboxes.length) || decide (selectedCheckboxes.length = 0)
  then true else showAll

/-- The palette used in the examples, as an ordinal scale. -/
def exampleColors : Nat → Option String := scaleOrdinal ["#8dd3c7", "#ffffb3"]

/-! ## Specification-side descriptions of the chord derivation -/

/-- The keys for which the loop of lines 54-142 enters its body: those not yet visited, each
at its first occurrence. -/
def unvisitedKeys : List String → List String → List String
  | [], _ => []
  | k :: ks, visited =>
    if k ∈ visited then unvisitedKeys ks visited else k :: unvisitedKeys ks (k :: visited)

/-- The chord a block contributes, if any. -/
def chordOf (fixSourceTargetCollinearity : Connection → SourceTarget) (st : ViewState)
    (k : String) : Option Chord :=
  (deriveChord fixSourceTargetCollinearity st k).join

/-- A gene input in which the identifier `g1` occurs twice and one record has neither
attributes nor a `geneID`. -/
def repeatedGenes : List GffRecord :=
  [{ chromosomeID := "Chr1", start := 10, end_ := 50, attributes := none, geneID := some "g1" },
   { chromosomeID := "Chr2", start := 7, end_ := 9, attributes := none, geneID := none },
   { chromosomeID := "Chr1", start := 100, end_ := 200, attributes := none,
     geneID := some "g1" }]

/-- A gene input whose only record has its start after its end. -/
def reversedGenes : List GffRecord :=
  [{ chromosomeID := "Chr1", start := 100, end_ := 50, attributes := none,
     geneID := some "g1" }]

/-- A collinearity input compatible with `exampleGenes`: two rows of block `b1` and one row
of block `b2`. -/
def mixedRows : List CollinearityRecord :=
  compatibleRows ++ compatibleRows ++ [{ exampleRow "0" with block := "b2" }]

/-! ## Handlers and stored variables around the derivation -/

/-- Lines 255-278 of `generateGenomeView.js`, the `click.chr` handler: the clicked identifier
is removed from `currentFlippedChromosomes` at the position `indexOf` finds it, or pushed
when `indexOf` returns -1. -/
def clickChromosome (currentFlippedChromosomes : List String) (currentId : String) :
    List String :=
  let currentPosition := currentFlippedChromosomes.indexOf currentId
  if currentId ∈ currentFlippedChromosomes then
    currentFlippedChromosomes.eraseIdx currentPosition
  else currentFlippedChromosomes ++ [currentId]

/-- The variables `generatePathGenomeView` reads together with `dataChords`, which it
writes. -/
structure PathState where
  view : ViewState
  dataChords : List Chord

/-- The function `generatePathGenomeView` as a change of the stored variables: line 33
empties `dataChords`, the loop refills it, and no other stored variable is assigned. -/
def generatePathGenomeViewRun (fixSourceTargetCollinearity : Connection → SourceTarget)
    (s : PathState) : Option PathState :=
  match generatePathGenomeView fixSourceTargetCollinearity s.view with
  | none => none
  | some out => some { view := s.view, dataChords := out.dataChords }

/-- Lines 590-594 of `generateData.js`, the loop of the default branch of the palette
handler: the chromosome at index `i` of `gffKeys` receives the colour `colors(i)`; `none`
when a key has no entry. -/
def recolor (colors : Nat → Option String) :
    List String → Nat → Dict ChromosomeEntry → Option (Dict ChromosomeEntry)
  | [], _, d => some d
  | k :: ks, i, d =>
    match d.get? k with
    | none => none
    | some e => recolor colors ks (i + 1) (d.set k { e with color := colors i })

/-- The default (per-chromosome) branch of the palette handler (lines 568-598) for the
chosen palette: the scale gets the default domain, the loop recolours the dictionary, and
the result is what `setGffDictionary` receives. -/
def changePaletteDefault (palette : List String) (gffKeys : List String)
    (gffPositionDictionary : Dict ChromosomeEntry) : Option (Dict ChromosomeEntry) :=
  recolor (scaleOrdinal palette) gffKeys 0 gffPositionDictionary

/-- The non-colour fields of a chromosome entry. -/
def ChromosomeEntry.frame (e : ChromosomeEntry) : Int × Int × Option String :=
  (e.start, e.end_, e.tag)

/-- The view state after `generateData` has loaded the inputs, for a given selection, flipped
list, show-all flag and filter; a run whose collinearity loop raises stores no block. -/
def loadedView (env : Collaborators) (gff : List GffRecord)
    (collinearity : List CollinearityRecord) (selectedCheckbox flipped : List String)
    (showAll : Bool) (filterSelect : String) (filterValue : Int) : ViewState :=
  { blockKeys :=
      match indexCollinearity collinearity with
      | some index => index.blockDictionary.objectKeys
      | none => []
    blockDictionary :=
      match indexCollinearity collinearity with
      | some index => (aggregation env gff index).blockDictionary
      | none => []
    gffPositionDictionary :=
      match colorChromosomes env (indexGenes gff).gffPositionDictionary with
      | some (_, _, d) => d
      | none => (indexGenes gff).gffPositionDictionary
    selectedCheckbox := selectedCheckbox
    showAllChromosomes := showAll
    filterSelect := filterSelect
    filterValue := filterValue
    currentFlippedChromosomes := flipped
    currentSelectedBlock := none }

/-- A collinearity input compatible with `exampleGenes` whose first row belongs to block `2`
and whose second row belongs to block `1`. -/
def numberedRows : List CollinearityRecord :=
  [{ block := "2", connection := "0", connectionSource := "g1", connectionTarget := "g2",
     sourceChromosome := "Chr1", targetChromosome := "Chr1", score := "100",
     eValueBlock := "0", eValueConnection := "0", isFlipped := false },
   { block := "1", connection := "0", connectionSource := "g2", connectionTarget := "g1",
     sourceChromosome := "Chr1", targetChromosome := "Chr1", score := "100",
     eValueBlock := "0", eValueConnection := "0", isFlipped := false }]

/-- The chord of block `b1` of the example view when nothing is flipped. -/
def exampleChord : Chord :=
  { source := { id := "Chr1", start := 20, end_ := 28, value := { id := "b1", length := 2 } }
    target := { id := "Chr2", start := 1, end_ := 13 } }

/-- The order of `Object.keys` on the block identifiers of an input whose blocks are listed
in `blocks`: array indices in ascending numeric order, then the other identifiers in order
of first occurrence. -/
def keyOrder (blocks : List String) (x y : String) : Prop :=
  match arrayIndex? x, arrayIndex? y with
  | some n, some m => n ≤ m
  | some _, none => True
  | none, some _ => False
  | none, none => blocks.indexOf x < blocks.indexOf y

/-- The index the loop of lines 219-296 builds from the two example rows. -/
def exampleIndex : IndexState :=
  { blockDictionary :=
      [("b1", { entries := [toConnection (exampleRow "0"), toConnection (exampleRow "1")]
                blockPositions := none })]
    connectionDictionary :=
      [("Chr1", [{ blockIDs := ["b1"], connection := "Chr2", connectionAmount := 2 }]),
       ("Chr2", [{ blockIDs := ["b1"], connection := "Chr1", connectionAmount := 2 }])] }

/-- Two rows of block `b1` whose source and target are both `Chr1`. -/
def selfRows : List CollinearityRecord :=
  [{ exampleRow "0" with targetChromosome := "Chr1" },
   { exampleRow "1" with targetChromosome := "Chr1" }]

/-- A gene input with one gene on a chromosome called `constructor` and one on `Chr1`. -/
def inheritedNameGenes : List GffRecord :=
  [{ chromosomeID := "constructor", start := 10, end_ := 50, attributes := none,
     geneID := some "g1" },
   { chromosomeID := "Chr1", start := 100, end_ := 200, attributes := none,
     geneID := some "g2" }]

/-- The test `Number.isSafeInteger` on an integer: its magnitude is at most `2^53 - 1`. -/
def safeInteger (x : Int) : Bool :=
  decide (-MAX_SAFE_INTEGER ≤ x) && decide (x ≤ MAX_SAFE_INTEGER)

/-- The value is an integer from 0 to `Number.MAX_SAFE_INTEGER`. -/
def safeCoordinate (x : Int) : Bool := decide (0 ≤ x) && decide (x ≤ MAX_SAFE_INTEGER)

/-- Every chromosome end and every block aggregate of the state is an integer from 0 to
`Number.MAX_SAFE_INTEGER`. -/
def ViewState.safeCoordinates (st : ViewState) : Bool :=
  st.blockDictionary.all (fun kb =>
    match kb.2.blockPositions with
    | some bp =>
      safeCoordinate bp.minSource && safeCoordinate bp.maxSource &&
        safeCoordinate bp.minTarget && safeCoordinate bp.maxTarget
    | none => true) &&
  st.gffPositionDictionary.all (fun ce => safeCoordinate ce.2.end_)

/-- A view of one block from `Chr1` (range 1 to 3) to `Chr2` (range 1 to 13) in which `Chr1`
ends at `2^53 + 2` and is flipped. -/
def largeView : ViewState :=
  { blockKeys := ["b1"]
    blockDictionary :=
      [("b1", { entries := [toConnection (exampleRow "0"), toConnection (exampleRow "1")]
                blockPositions := some { blockLength := 2, minSource := 1, maxSource := 3,
                                         minTarget := 1, maxTarget := 13 } })]
    gffPositionDictionary :=
      [("Chr1", { start := 0, end_ := 9007199254740994, color := none, tag := none }),
       ("Chr2", { start := 0, end_ := 28, color := none, tag := none })]
    selectedCheckbox := ["Chr1", "Chr2"]
    showAllChromosomes := true
    filterSelect := "At Least"
    filterValue := 1
    currentFlippedChromosomes := ["Chr1"]
    currentSelectedBlock := none }

/-- A gff3 gene input: two records of the gene `gene1`, identified by their attributes. -/
def gff3Genes : List GffRecord :=
  [{ chromosomeID := "Chr1", start := 10, end_ := 50, attributes := some "ID=gene1;Name=x",
     geneID := none },
   { chromosomeID := "Chr1", start := 100, end_ := 200, attributes := some "ID=gene1",
     geneID := none }]

/-- A collinearity input whose first block `a` has one row, referring to the gene `gX` that
is absent from `exampleGenes`, and whose second block `b` has two rows. -/
def failingRows : List CollinearityRecord :=
  [{ block := "a", connection := "0", connectionSource := "gX", connectionTarget := "g2",
     sourceChromosome := "Chr1", targetChromosome := "Chr1", score := "100",
     eValueBlock := "0", eValueConnection := "0", isFlipped := false },
   { block := "b", connection := "0", connectionSource := "g1", connectionTarget := "g2",
     sourceChromosome := "Chr1", targetChromosome := "Chr1", score := "100",
     eValueBlock := "0", eValueConnection := "0", isFlipped := false },
   { block := "b", connection := "1", connectionSource := "g2", connectionTarget := "g1",
     sourceChromosome := "Chr1", targetChromosome := "Chr1", score := "100",
     eValueBlock := "0", eValueConnection := "0", isFlipped := false }]

/-! ## Lemmas on dictionaries -/

namespace Dict

variable {V : Type}

theorem get?_set (d : Dict V) (k : String) (v : V) (k' : String) :
    (d.set k v).get? k' = if k = k' then some v else d.get? k' := by
  induction d with
  | nil =>
    by_cases h : k = k' <;> simp [set, get?, h]
  | cons p rest ih =>
    obtain ⟨a, b⟩ := p
    by_cases h1 : a = k
    · subst h1
      by_cases h2 : a = k' <;> simp [set, get?, h2]
    · by_cases h2 : a = k'
      · subst h2
        have : ¬ k = a := fun h => h1 h.symm
        simp [set, get?, h1, this]
      · simp [set, get?, h1, h2, ih]

theorem get?_set_self (d : Dict V) (k : String) (v : V) : (d.set k v).get? k = some v := by
  simp [get?_set]

theorem mem_keys_iff (d : Dict V) (k : String) : k ∈ d.keys ↔ (d.get? k).isSome = true := by
  induction d with
  | nil => simp [keys, get?]
  | cons p rest ih =>
    obtain ⟨a, b⟩ := p
    by_cases h : a = k
    · simp [keys, get?, h]
    · have h' : ¬ k = a := fun e => h e.symm
      simpa [keys, get?, h, h'] using ih

theorem keys_set (d : Dict V) (k : String) (v : V) :
    (d.set k v).keys = if k ∈ d.keys then d.keys else d.keys ++ [k] := by
  induction d with
  | nil => simp [set, keys]
  | cons p rest ih =>
    obtain ⟨a, b⟩ := p
    by_cases h : a = k
    · subst h
      simp [set, keys]
    · have h' : ¬ k = a := fun e => h e.symm
      have ih' := ih
      simp only [keys] at ih'
      by_cases hk : k ∈ rest.map Prod.fst
      · simp [set, keys, h, h', hk] at ih' ⊢
        exact ih'
      · simp [set, keys, h, h', hk] at ih' ⊢
        exact ih'

end Dict

/-! ## Lemmas on the connection lists -/

theorem findConnection_modify (f : ConnectionEntry → ConnectionEntry)
    (hf : ∀ e, (f e).connection = e.connection) (l : List ConnectionEntry) (k k' : String) :
    findConnection (l.modify f (findIndexConnection l k)) k' =
      if k' = k then (findConnection l k).map f else findConnection l k' := by
  induction l with
  | nil => simp [findConnection, findIndexConnection]
  | cons a l ih =>
    simp only [findConnection, findIndexConnection] at ih ⊢
    by_cases ha : a.connection = k
    · by_cases hk : k' = k
      · subst hk
        simp [List.findIdx_cons, ha, List.find?_cons, hf]
      · have hne : ¬ k = k' := fun h => hk h.symm
        simp [List.findIdx_cons, ha, List.find?_cons, hf, hk, hne]
    · by_cases hk : k' = k
      · subst hk
        simp only [List.findIdx_cons, ha, decide_False, cond_false, List.modify_succ_cons,
          List.find?_cons, if_true]
        simpa using ih
      · by_cases hak : a.connection = k'
        · simp [List.findIdx_cons, ha, List.find?_cons, hk, hak]
        · simp only [List.findIdx_cons, ha, decide_False, cond_false, List.modify_succ_cons,
            List.find?_cons, hak, hk, if_false]
          simpa [hk] using ih

theorem map_connection_modify (f : ConnectionEntry → ConnectionEntry)
    (hf : ∀ e, (f e).connection = e.connection) (l : List ConnectionEntry) (i : Nat) :
    (l.modify f i).map (fun e => e.connection) = l.map (fun e => e.connection) := by
  induction l generalizing i with
  | nil => simp
  | cons a l ih =>
    cases i with
    | zero => simp [hf]
    | succ n => simp [ih]

theorem findConnection_some_connection {l : List ConnectionEntry} {k : String}
    {e : ConnectionEntry} (h : findConnection l k = some e) : e.connection = k := by
  have := List.find?_some h
  simpa using this

theorem pushIfAbsent_idem (ids : List String) (b : String) :
    pushIfAbsent (pushIfAbsent ids b) b = pushIfAbsent ids b := by
  unfold pushIfAbsent
  by_cases h : b ∈ ids <;> simp [h]

theorem mem_pushIfAbsent (ids : List String) (b x : String) :
    x ∈ pushIfAbsent ids b ↔ x ∈ ids ∨ x = b := by
  unfold pushIfAbsent
  by_cases h : b ∈ ids
  · simp only [h, if_true]
    constructor
    · exact Or.inl
    · rintro (h1 | h1)
      · exact h1
      · exact h1 ▸ h
  · simp [h]

theorem findConnection_updateSourceSide (l : List ConnectionEntry) (t b B : String) :
    findConnection (updateSourceSide l t b) B =
      if B = t then some (bumpEntry (findConnection l t) t b) else findConnection l B := by
  unfold updateSourceSide
  cases h : findConnection l t with
  | none =>
    by_cases hB : B = t
    · subst hB
      simp only [findConnection] at h
      simp [findConnection, List.find?_append, h, bumpEntry]
    · have hB' : ¬ t = B := fun e => hB e.symm
      simp [findConnection, List.find?_append, hB, hB']
  | some e =>
    have he := findConnection_some_connection h
    simp only []
    rw [findConnection_modify
      (fun e => { e with connectionAmount := e.connectionAmount + 1
                         blockIDs := pushIfAbsent e.blockIDs b }) (fun _ => rfl)]
    by_cases hB : B = t
    · simp [hB, h, bumpEntry, he]
    · simp [hB]

theorem findConnection_updateTargetSide (l : List ConnectionEntry) (s t b B : String) :
    findConnection (updateTargetSide l s t b) B =
      if B = s then some (bumpTarget (findConnection l s) s t b) else findConnection l B := by
  unfold updateTargetSide
  cases h : findConnection l s with
  | none =>
    by_cases hB : B = s
    · subst hB
      simp only [findConnection] at h
      simp [findConnection, List.find?_append, h, bumpTarget]
    · have hB' : ¬ s = B := fun e => hB e.symm
      simp [findConnection, List.find?_append, hB, hB']
  | some e =>
    have he := findConnection_some_connection h
    simp only []
    rw [findConnection_modify
      (fun e => { e with
                    connectionAmount :=
                      if t ≠ e.connection then e.connectionAmount + 1
                      else e.connectionAmount
                    blockIDs := pushIfAbsent e.blockIDs b }) (fun _ => rfl)]
    by_cases hB : B = s
    · simp [hB, h, bumpTarget, he]
    · simp [hB]

theorem connectionsOf_set (cd : Dict (List ConnectionEntry)) (k : String)
    (v : List ConnectionEntry) (A : String) :
    connectionsOf (cd.set k v) A = if k = A then v else connectionsOf cd A := by
  unfold connectionsOf
  rw [Dict.get?_set]
  by_cases h : k = A <;> simp [h]

theorem connectionsOf_ensure (cd : Dict (List ConnectionEntry)) (k A : String) :
    connectionsOf (if cd.hasOwn k then cd else cd.set k []) A = connectionsOf cd A := by
  by_cases h : cd.hasOwn k = true
  · simp [h]
  · simp only [h, Bool.false_eq_true, if_false]
    rw [connectionsOf_set]
    by_cases hk : k = A
    · subst hk
      simp only [Dict.hasOwn, Bool.not_eq_true, Option.not_isSome, Option.isNone_iff_eq_none] at h
      simp [connectionsOf, h]
    · simp [hk]

theorem connectionsOf_indexRow (st : IndexState) (r : CollinearityRecord) (A : String) :
    connectionsOf (indexRow st r).connectionDictionary A =
      if r.targetChromosome = A then
        updateTargetSide
          (if r.sourceChromosome = r.targetChromosome then
            updateSourceSide (connectionsOf st.connectionDictionary r.sourceChromosome)
              r.targetChromosome r.block
           else connectionsOf st.connectionDictionary r.targetChromosome)
          r.sourceChromosome r.targetChromosome r.block
      else if r.sourceChromosome = A then
        updateSourceSide (connectionsOf st.connectionDictionary r.sourceChromosome)
          r.targetChromosome r.block
      else connectionsOf st.connectionDictionary A := by
  simp only [indexRow, connectionsOf_set, connectionsOf_ensure]

theorem entryFor_indexRow (st : IndexState) (r : CollinearityRecord) (A B : String) :
    entryFor (indexRow st r).connectionDictionary A B =
      if connects A B r = true then
        some (bumpEntry (entryFor st.connectionDictionary A B) B r.block)
      else entryFor st.connectionDictionary A B := by
  unfold entryFor
  rw [connectionsOf_indexRow]
  by_cases hA : r.targetChromosome = A
  · subst hA
    by_cases hst : r.sourceChromosome = r.targetChromosome
    · simp only [hst, if_true]
      simp only [findConnection_updateTargetSide, findConnection_updateSourceSide]
      by_cases hB : B = r.targetChromosome
      · subst hB
        simp only [if_true]
        have hc : connects r.targetChromosome r.targetChromosome r = true := by
          simp [connects, hst]
        simp only [hc, if_true]
        cases h : findConnection (connectionsOf st.connectionDictionary r.targetChromosome)
            r.targetChromosome with
        | none => simp [bumpTarget, bumpEntry, pushIfAbsent]
        | some e => simp [bumpTarget, bumpEntry, pushIfAbsent_idem]
      · have hc : connects r.targetChromosome B r = false := by
          have hB' : ¬ r.targetChromosome = B := fun e => hB e.symm
          simp [connects, hst, hB']
        simp [hB, hc]
    · simp only [hst, if_true, if_false]
      rw [findConnection_updateTargetSide]
      by_cases hB : B = r.sourceChromosome
      · subst hB
        have hc : connects r.targetChromosome r.sourceChromosome r = true := by
          simp [connects]
        have hts : ¬ r.targetChromosome = r.sourceChromosome := fun e => hst e.symm
        simp only [hc, if_true]
        cases h : findConnection (connectionsOf st.connectionDictionary r.targetChromosome)
            r.sourceChromosome with
        | none => simp [bumpTarget, bumpEntry]
        | some e => simp [bumpTarget, bumpEntry, hts]
      · have hc : connects r.targetChromosome B r = false := by
          have hB' : ¬ r.sourceChromosome = B := fun e => hB e.symm
          simp [connects, hst, hB']
        simp [hB, hc]
  · simp only [hA, if_false]
    by_cases hs : r.sourceChromosome = A
    · subst hs
      simp only [if_true]
      rw [findConnection_updateSourceSide]
      by_cases hB : B = r.targetChromosome
      · subst hB
        have hc : connects r.sourceChromosome r.targetChromosome r = true := by
          simp [connects]
        simp [hc]
      · have hc : connects r.sourceChromosome B r = false := by
          have hB' : ¬ r.targetChromosome = B := fun e => hB e.symm
          simp [connects, hB', hA]
        simp [hB, hc]
    · have hc : connects A B r = false := by simp [connects, hs, hA]
      simp [hs, hc]

theorem firstOccurrences_append_singleton (ids : List String) (b : String) :
    firstOccurrences (ids ++ [b]) = pushIfAbsent (firstOccurrences ids) b := by
  simp [firstOccurrences, List.foldl_append]

theorem expectedEntry_append_singleton (rows : List CollinearityRecord)
    (r : CollinearityRecord) (A B : String) :
    expectedEntry (rows ++ [r]) A B =
      if connects A B r = true then some (bumpEntry (expectedEntry rows A B) B r.block)
      else expectedEntry rows A B := by
  unfold expectedEntry rowsBetween
  rw [List.filter_append]
  by_cases hc : connects A B r = true
  · simp only [hc, if_true, List.filter_cons_of_pos, List.filter_nil]
    cases h : List.filter (connects A B) rows with
    | nil => simp [bumpEntry, firstOccurrences, pushIfAbsent]
    | cons x xs =>
      simp only [List.cons_append, bumpEntry]
      have : (x :: (xs ++ [r])).map (fun y => y.block) =
          (x :: xs).map (fun y => y.block) ++ [r.block] := by simp
      rw [this, firstOccurrences_append_singleton]
      simp
  · simp [hc]

theorem indexRows_append_singleton (rows : List CollinearityRecord)
    (r : CollinearityRecord) :
    indexRows (rows ++ [r]) = indexRow (indexRows rows) r := by
  simp [indexRows, List.foldl_append]

/-- The entry of `A` for `B` in the connection index is the one described from the rows. -/
theorem entryFor_indexRows (rows : List CollinearityRecord) (A B : String) :
    entryFor (indexRows rows).connectionDictionary A B = expectedEntry rows A B := by
  induction rows using List.reverseRecOn with
  | nil => simp [indexRows, entryFor, connectionsOf, Dict.get?, findConnection,
      expectedEntry, rowsBetween]
  | append_singleton rows r ih =>
    rw [indexRows_append_singleton, entryFor_indexRow,
      expectedEntry_append_singleton, ih]

theorem nodup_updateSourceSide (l : List ConnectionEntry) (t b : String)
    (h : (l.map (fun e => e.connection)).Nodup) :
    ((updateSourceSide l t b).map (fun e => e.connection)).Nodup := by
  unfold updateSourceSide
  cases hf : findConnection l t with
  | none =>
    simp only [findConnection, List.find?_eq_none, decide_eq_true_eq] at hf
    simp only [List.map_append, List.map_cons, List.map_nil]
    rw [List.nodup_append]
    refine ⟨h, List.nodup_singleton _, ?_⟩
    intro x hx hx'
    simp only [List.mem_singleton] at hx'
    subst hx'
    simp only [List.mem_map] at hx
    obtain ⟨e, he, hex⟩ := hx
    exact hf e he hex
  | some e =>
    simp only []
    rw [map_connection_modify
      (fun e => { e with connectionAmount := e.connectionAmount + 1
                         blockIDs := pushIfAbsent e.blockIDs b }) (fun _ => rfl)]
    exact h

theorem nodup_updateTargetSide (l : List ConnectionEntry) (s t b : String)
    (h : (l.map (fun e => e.connection)).Nodup) :
    ((updateTargetSide l s t b).map (fun e => e.connection)).Nodup := by
  unfold updateTargetSide
  cases hf : findConnection l s with
  | none =>
    simp only [findConnection, List.find?_eq_none, decide_eq_true_eq] at hf
    simp only [List.map_append, List.map_cons, List.map_nil]
    rw [List.nodup_append]
    refine ⟨h, List.nodup_singleton _, ?_⟩
    intro x hx hx'
    simp only [List.mem_singleton] at hx'
    subst hx'
    simp only [List.mem_map] at hx
    obtain ⟨e, he, hex⟩ := hx
    exact hf e he hex
  | some e =>
    simp only []
    rw [map_connection_modify
      (fun e => { e with
                    connectionAmount :=
                      if t ≠ e.connection then e.connectionAmount + 1
                      else e.connectionAmount
                    blockIDs := pushIfAbsent e.blockIDs b }) (fun _ => rfl)]
    exact h

/-- No list of the connection index holds two entries for the same partner. -/
theorem nodup_connectionsOf (rows : List CollinearityRecord) (A : String) :
    ((connectionsOf (indexRows rows).connectionDictionary A).map
      (fun e => e.connection)).Nodup := by
  induction rows using List.reverseRecOn generalizing A with
  | nil => simp [indexRows, connectionsOf, Dict.get?]
  | append_singleton rows r ih =>
    rw [indexRows_append_singleton, connectionsOf_indexRow]
    by_cases hA : r.targetChromosome = A
    · simp only [hA, if_true]
      apply nodup_updateTargetSide
      by_cases hst : r.sourceChromosome = A
      · simp only [hst, if_true]
        exact nodup_updateSourceSide _ _ _ (ih A)
      · simp only [hst, if_false]
        exact ih A
    · simp only [hA, if_false]
      by_cases hs : r.sourceChromosome = A
      · simp only [hs, if_true]
        exact nodup_updateSourceSide _ _ _ (ih A)
      · simp only [hs, if_false]
        exact ih A

theorem findConnection_of_mem {l : List ConnectionEntry} {e : ConnectionEntry}
    (h : (l.map (fun x => x.connection)).Nodup) (he : e ∈ l) :
    findConnection l e.connection = some e := by
  induction l with
  | nil => cases he
  | cons a l ih =>
    simp only [List.map_cons, List.nodup_cons, List.mem_map, not_exists, not_and] at h
    rcases List.mem_cons.mp he with rfl | hmem
    · simp [findConnection]
    · have hne : ¬ a.connection = e.connection := fun heq => h.1 e hmem heq.symm
      simp only [findConnection, List.find?_cons, hne, decide_False]
      exact ih h.2 hmem

/-- Membership in a list of the connection index, described from the rows. -/
theorem mem_connectionsOf_iff (rows : List CollinearityRecord) (A : String)
    (e : ConnectionEntry) :
    e ∈ connectionsOf (indexRows rows).connectionDictionary A ↔
      expectedEntry rows A e.connection = some e := by
  rw [← entryFor_indexRows]
  constructor
  · intro he
    exact findConnection_of_mem (nodup_connectionsOf rows A) he
  · intro h
    exact List.mem_of_find?_eq_some h

theorem connects_comm (A B : String) (r : CollinearityRecord) :
    connects A B r = connects B A r := by
  simp only [connects]
  exact Bool.or_comm _ _

theorem rowsBetween_comm (A B : String) (rows : List CollinearityRecord) :
    rowsBetween A B rows = rowsBetween B A rows := by
  unfold rowsBetween
  congr 1
  funext r
  exact connects_comm A B r

theorem expectedEntry_eq_some_iff (rows : List CollinearityRecord) (A B : String)
    (e : ConnectionEntry) :
    expectedEntry rows A B = some e ↔
      rowsBetween A B rows ≠ [] ∧
      e.blockIDs = firstOccurrences ((rowsBetween A B rows).map (fun x => x.block)) ∧
      e.connection = B ∧ e.connectionAmount = (rowsBetween A B rows).length := by
  unfold expectedEntry
  cases h : rowsBetween A B rows with
  | nil => simp
  | cons r rest =>
    simp only [Option.some.injEq, ne_eq, reduceCtorEq, not_false_eq_true, true_and]
    constructor
    · intro he
      subst he
      exact ⟨rfl, rfl, rfl⟩
    · rintro ⟨h1, h2, h3⟩
      cases e
      simp_all

theorem mem_firstOccurrences (ids : List String) (x : String) :
    x ∈ firstOccurrences ids ↔ x ∈ ids := by
  induction ids using List.reverseRecOn with
  | nil => simp [firstOccurrences]
  | append_singleton ids b ih =>
    rw [firstOccurrences_append_singleton, mem_pushIfAbsent, ih]
    simp

theorem nodup_firstOccurrences (ids : List String) : (firstOccurrences ids).Nodup := by
  induction ids using List.reverseRecOn with
  | nil => simp [firstOccurrences]
  | append_singleton ids b ih =>
    rw [firstOccurrences_append_singleton]
    unfold pushIfAbsent
    by_cases h : b ∈ firstOccurrences ids
    · simpa [h] using ih
    · simp only [h, if_false]
      rw [List.nodup_append]
      refine ⟨ih, List.nodup_singleton _, ?_⟩
      intro x hx hx'
      simp only [List.mem_singleton] at hx'
      exact h (hx' ▸ hx)

theorem length_firstOccurrences (ids : List String) :
    (firstOccurrences ids).length = ids.toFinset.card := by
  rw [← List.toFinset_card_of_nodup (nodup_firstOccurrences ids)]
  congr 1
  ext x
  simp [mem_firstOccurrences]

theorem connectionsOf_of_get? {cd : Dict (List ConnectionEntry)} {A : String}
    {l : List ConnectionEntry} (h : cd.get? A = some l) : connectionsOf cd A = l := by
  simp [connectionsOf, h]

theorem exists_entry_iff (rows : List CollinearityRecord) (A B : String) :
    (∃ l e, (indexRows rows).connectionDictionary.get? A = some l ∧ e ∈ l ∧
      e.connection = B) ↔ rowsBetween A B rows ≠ [] := by
  constructor
  · rintro ⟨l, e, hl, he, hB⟩
    rw [← connectionsOf_of_get? hl, mem_connectionsOf_iff, expectedEntry_eq_some_iff] at he
    rw [← hB]
    exact he.1
  · intro h
    have hex : ∃ e, expectedEntry rows A B = some e := by
      unfold expectedEntry
      cases hr : rowsBetween A B rows with
      | nil => exact absurd hr h
      | cons r rest => exact ⟨_, rfl⟩
    obtain ⟨e, he⟩ := hex
    have hc : e.connection = B := ((expectedEntry_eq_some_iff rows A B e).mp he).2.2.1
    have hmem : e ∈ connectionsOf (indexRows rows).connectionDictionary A := by
      rw [mem_connectionsOf_iff, hc]
      exact he
    unfold connectionsOf at hmem
    cases hg : (indexRows rows).connectionDictionary.get? A with
    | none => simp [hg] at hmem
    | some l =>
      simp only [hg, Option.getD_some] at hmem
      exact ⟨l, e, rfl, hmem, hc⟩

/-! ## Lemmas on the block dictionary -/

theorem blockDictionary_indexRow_get? (st : IndexState) (r : CollinearityRecord)
    (b : String) :
    (indexRow st r).blockDictionary.get? b =
      if r.block = b then
        some (match st.blockDictionary.get? r.block with
              | some blk => { blk with entries := blk.entries ++ [toConnection r] }
              | none => { entries := [toConnection r], blockPositions := none })
      else st.blockDictionary.get? b := by
  simp only [indexRow]
  cases h : st.blockDictionary.get? r.block with
  | none =>
    have hh : st.blockDictionary.hasOwn r.block = false := by simp [Dict.hasOwn, h]
    simp only [hh, Bool.false_eq_true, if_false, Dict.get?_set_self, Dict.get?_set]
    by_cases hb : r.block = b <;> simp [hb]
  | some blk =>
    have hh : st.blockDictionary.hasOwn r.block = true := by simp [Dict.hasOwn, h]
    simp only [hh, if_true, h, Dict.get?_set]

theorem blockDictionary_indexRow_keys (st : IndexState) (r : CollinearityRecord) :
    (indexRow st r).blockDictionary.keys = pushIfAbsent st.blockDictionary.keys r.block := by
  simp only [indexRow]
  cases h : st.blockDictionary.get? r.block with
  | none =>
    have hh : st.blockDictionary.hasOwn r.block = false := by simp [Dict.hasOwn, h]
    have hk : r.block ∉ st.blockDictionary.keys := by
      rw [Dict.mem_keys_iff, h]; simp
    simp only [hh, Bool.false_eq_true, if_false, Dict.get?_set_self, Dict.keys_set, hk,
      pushIfAbsent]
    simp
  | some blk =>
    have hh : st.blockDictionary.hasOwn r.block = true := by simp [Dict.hasOwn, h]
    have hk : r.block ∈ st.blockDictionary.keys := by
      rw [Dict.mem_keys_iff, h]; simp
    simp only [hh, if_true, h, Dict.keys_set, hk, pushIfAbsent]

/-- The keys of the block dictionary are the block identifiers in order of first occurrence. -/
theorem blockDictionary_keys (rows : List CollinearityRecord) :
    (indexRows rows).blockDictionary.keys =
      firstOccurrences (rows.map (fun r => r.block)) := by
  induction rows using List.reverseRecOn with
  | nil => simp [indexRows, Dict.keys, firstOccurrences]
  | append_singleton rows r ih =>
    rw [indexRows_append_singleton, blockDictionary_indexRow_keys, ih,
      List.map_append, List.map_cons, List.map_nil, firstOccurrences_append_singleton]

/-- The value stored for a block is the list of its rows, without positions. -/
theorem blockDictionary_get? (rows : List CollinearityRecord) (b : String) :
    (indexRows rows).blockDictionary.get? b =
      if rows.filter (fun r => decide (r.block = b)) = [] then none
      else some { entries := (rows.filter (fun r => decide (r.block = b))).map toConnection
                  blockPositions := none } := by
  induction rows using List.reverseRecOn generalizing b with
  | nil => simp [indexRows, Dict.get?]
  | append_singleton rows r ih =>
    rw [indexRows_append_singleton, blockDictionary_indexRow_get?, List.filter_append]
    by_cases hb : r.block = b
    · subst hb
      rw [ih r.block]
      by_cases hf : rows.filter (fun x => decide (x.block = r.block)) = []
      · simp [hf]
      · simp [hf]
    · simp only [hb, if_false, decide_False, List.filter_cons_of_neg, Bool.false_eq_true,
        not_false_eq_true, List.filter_nil, List.append_nil]
      exact ih b

/-! ## Differences of doubles -/

theorem binaryDigits_le (fuel n k : Nat) (h : n < 2 ^ k) : binaryDigits fuel n ≤ k := by
  induction fuel generalizing n k with
  | zero => simp [binaryDigits]
  | succ fuel ih =>
    simp only [binaryDigits]
    by_cases hn : n = 0
    · simp [hn]
    · simp only [hn, if_false]
      cases k with
      | zero => simp at h; exact absurd h hn
      | succ k =>
        have hlt : n / 2 < 2 ^ k := by
          rw [Nat.div_lt_iff_lt_mul (by decide)]
          rw [pow_succ] at h
          exact h
        have := ih (n / 2) k hlt
        omega

/-- A safe integer is a double: rounding leaves it as it is. -/
theorem roundDouble_of_safe (x : Int) (h : safeInteger x = true) : roundDouble x = x := by
  simp only [safeInteger, MAX_SAFE_INTEGER, Bool.and_eq_true, decide_eq_true_eq] at h
  have hm : x.natAbs < 2 ^ 53 := by
    have : (2:Nat) ^ 53 = 9007199254740992 := by norm_num
    omega
  have := binaryDigits_le 1024 x.natAbs 53 hm
  simp only [roundDouble, this, if_true]

/-- The difference of two coordinates from 0 to the maximum safe integer is exact. -/
theorem roundDouble_sub (a b : Int) (ha : safeCoordinate a = true)
    (hb : safeCoordinate b = true) : roundDouble (a - b) = a - b := by
  apply roundDouble_of_safe
  simp only [safeCoordinate, safeInteger, MAX_SAFE_INTEGER, Bool.and_eq_true,
    decide_eq_true_eq] at ha hb ⊢
  omega

theorem Dict.mem_of_get? {V : Type} (d : Dict V) (k : String) (v : V)
    (h : d.get? k = some v) : (k, v) ∈ d := by
  induction d with
  | nil => simp [Dict.get?] at h
  | cons a d ih =>
    obtain ⟨k', v'⟩ := a
    simp only [Dict.get?] at h
    by_cases hk : k' = k
    · simp only [hk, if_true, Option.some.injEq] at h
      rw [hk, h]
      exact List.mem_cons_self _ _
    · simp only [hk, if_false] at h
      exact List.mem_cons_of_mem _ (ih h)

/-- What `safeCoordinates` says of the blocks and of the chromosomes of a state. -/
theorem safeCoordinates_spec (st : ViewState) (h : st.safeCoordinates = true) :
    (∀ k blk bp, st.blockDictionary.get? k = some blk → blk.blockPositions = some bp →
      safeCoordinate bp.minSource = true ∧ safeCoordinate bp.maxSource = true ∧
      safeCoordinate bp.minTarget = true ∧ safeCoordinate bp.maxTarget = true) ∧
    (∀ c e, st.gffPositionDictionary.get? c = some e → safeCoordinate e.end_ = true) := by
  simp only [ViewState.safeCoordinates, Bool.and_eq_true, List.all_eq_true] at h
  constructor
  · intro k blk bp hb hp
    have := h.1 (k, blk) (Dict.mem_of_get? _ _ _ hb)
    simp only [hp, Bool.and_eq_true] at this
    exact ⟨this.1.1.1, this.1.1.2, this.1.2, this.2⟩
  · intro c e he
    exact h.2 (c, e) (Dict.mem_of_get? _ _ _ he)

/-! ## The loop that may raise and the loop on own properties -/

theorem has_eq_true_iff {V : Type} (d : Dict V) (k : String) :
    d.has k = true ↔ (d.get? k).isSome = true ∨ k ∈ objectPrototypeNames := by
  simp [Dict.has, Dict.hasOwn]

theorem has_of_ordinary {V : Type} (d : Dict V) (k : String) (h : k ∉ objectPrototypeNames) :
    d.has k = d.hasOwn k := by
  simp [Dict.has, h]

/-- Reading the key that the guarded creation `if (!(k in d)) d[k] = v` is about. -/
theorem getD_get?_guarded {V : Type} (d : Dict V) (k : String) (v : V) :
    ((if d.has k then d else d.set k v).get? k).getD v = (d.get? k).getD v := by
  by_cases h : d.has k = true
  · simp only [h, if_true]
  · have hn : d.get? k = none := by
      cases hg : d.get? k with
      | none => rfl
      | some x => exact absurd ((has_eq_true_iff d k).mpr (Or.inl (by simp [hg]))) h
    simp only [h, Bool.false_eq_true, if_false, Dict.get?_set_self, hn, Option.getD_some,
      Option.getD_none]

/-- Reading another key after the guarded creation. -/
theorem get?_guarded_ne {V : Type} (d : Dict V) (k : String) (v : V) (k' : String)
    (hk : k ≠ k') : (if d.has k then d else d.set k v).get? k' = d.get? k' := by
  by_cases h : d.has k = true
  · simp only [h, if_true]
  · simp only [h, Bool.false_eq_true, if_false, Dict.get?_set, hk]

theorem guarded_eq_own {V : Type} (d : Dict V) (k : String) (v : V)
    (h : (if d.has k then d else d.set k v).get? k ≠ none) :
    (if d.has k then d else d.set k v) = (if d.hasOwn k then d else d.set k v) := by
  by_cases hh : d.has k = true
  · simp only [hh, if_true] at h ⊢
    have ho : d.hasOwn k = true := by
      cases hg : d.get? k with
      | none => exact absurd hg h
      | some x => simp [Dict.hasOwn, hg]
    simp [ho]
  · have ho : d.hasOwn k = false := by
      cases ho : d.hasOwn k with
      | false => rfl
      | true => exact absurd (by simp [Dict.has, ho]) hh
    simp [hh, ho]

theorem has_guarded {V : Type} (d : Dict V) (k : String) (v : V) :
    (if d.has k then d else d.set k v).has k = true := by
  by_cases hh : d.has k = true
  · simp only [hh, if_true]
  · simp only [hh, Bool.false_eq_true, if_false]
    simp [Dict.has, Dict.hasOwn, Dict.get?_set_self]

/-- Whenever an iteration returns, it returns the iteration on own properties. -/
theorem indexRecord_eq_some (s s' : IndexState) (r : CollinearityRecord)
    (h : indexRecord s r = some s') : s' = indexRow s r := by
  simp only [indexRecord] at h
  split at h
  · exact absurd h (by simp)
  · rename_i b hb
    split at h
    · exact absurd h (by simp)
    · rename_i l₁ h₁
      split at h
      · exact absurd h (by simp)
      · rename_i l₂ h₂
        simp only [Option.some.injEq] at h
        subst h
        have e₀ := guarded_eq_own s.blockDictionary r.block
          { entries := [], blockPositions := none } (by rw [hb]; simp)
        have hs : (if s.connectionDictionary.has r.sourceChromosome then s.connectionDictionary
            else s.connectionDictionary.set r.sourceChromosome []).get? r.sourceChromosome
              ≠ none := by
          intro hn
          by_cases hst : r.targetChromosome = r.sourceChromosome
          · rw [hst, has_guarded] at h₁
            simp only [if_true] at h₁
            rw [hn] at h₁
            exact absurd h₁ (by simp)
          · rw [get?_guarded_ne _ _ _ _ hst, hn] at h₁
            exact absurd h₁ (by simp)
        have e₁ := guarded_eq_own _ _ _ hs
        rw [e₁] at h₁ h₂ ⊢
        have ht : (if (if s.connectionDictionary.hasOwn r.sourceChromosome
              then s.connectionDictionary
              else s.connectionDictionary.set r.sourceChromosome []).has r.targetChromosome
            then (if s.connectionDictionary.hasOwn r.sourceChromosome then s.connectionDictionary
              else s.connectionDictionary.set r.sourceChromosome [])
            else (if s.connectionDictionary.hasOwn r.sourceChromosome
              then s.connectionDictionary
              else s.connectionDictionary.set r.sourceChromosome []).set
                r.targetChromosome []).get? r.targetChromosome ≠ none := by
          intro hn
          rw [Dict.get?_set] at h₂
          by_cases hst : r.sourceChromosome = r.targetChromosome
          · rw [← hst] at hn h₁
            rw [hn] at h₁
            exact absurd h₁ (by simp)
          · simp only [hst, if_false] at h₂
            rw [hn] at h₂
            exact absurd h₂ (by simp)
        have e₂ := guarded_eq_own _ _ _ ht
        rw [e₂] at h₁ h₂ ⊢
        rw [e₀] at hb ⊢
        simp only [indexRow, hb, connectionsOf, h₁, h₂, Option.getD_some]

/-- An iteration on a row of ordinary names returns. -/
theorem indexRecord_of_ordinary (s : IndexState) (r : CollinearityRecord)
    (h : r.ordinary = true) : indexRecord s r = some (indexRow s r) := by
  simp only [CollinearityRecord.ordinary, Bool.and_eq_true, Bool.not_eq_true',
    decide_eq_false_iff_not] at h
  obtain ⟨⟨hb, hs⟩, ht⟩ := h
  have key : ∀ {V : Type} (d : Dict V) (k : String) (v : V), k ∉ objectPrototypeNames →
      ∃ x, (if d.has k then d else d.set k v).get? k = some x := by
    intro V d k v hk
    rw [has_of_ordinary d k hk]
    cases hg : d.get? k with
    | none => exact ⟨v, by simp [Dict.hasOwn, hg, Dict.get?_set_self]⟩
    | some x => exact ⟨x, by simp [Dict.hasOwn, hg]⟩
  cases hr : indexRecord s r with
  | some s' => rw [indexRecord_eq_some s s' r hr]
  | none =>
    exfalso
    simp only [indexRecord] at hr
    obtain ⟨b, hb'⟩ := key s.blockDictionary r.block { entries := [], blockPositions := none } hb
    rw [hb'] at hr
    simp only at hr
    obtain ⟨l₁, h₁⟩ := key s.connectionDictionary r.sourceChromosome [] hs
    obtain ⟨l₂, h₂⟩ := key (if s.connectionDictionary.has r.sourceChromosome
      then s.connectionDictionary
      else s.connectionDictionary.set r.sourceChromosome []) r.targetChromosome [] ht
    have h₁' : ∃ l, (if (if s.connectionDictionary.has r.sourceChromosome
          then s.connectionDictionary
          else s.connectionDictionary.set r.sourceChromosome []).has r.targetChromosome
        then (if s.connectionDictionary.has r.sourceChromosome then s.connectionDictionary
          else s.connectionDictionary.set r.sourceChromosome [])
        else (if s.connectionDictionary.has r.sourceChromosome then s.connectionDictionary
          else s.connectionDictionary.set r.sourceChromosome []).set
            r.targetChromosome []).get? r.sourceChromosome = some l := by
      by_cases hst : r.targetChromosome = r.sourceChromosome
      · rw [hst] at h₂ ⊢
        exact ⟨l₂, h₂⟩
      · rw [get?_guarded_ne _ _ _ _ hst]
        exact ⟨l₁, h₁⟩
    obtain ⟨l, hl⟩ := h₁'
    rw [hl] at hr
    simp only at hr
    rw [Dict.get?_set] at hr
    by_cases hst : r.sourceChromosome = r.targetChromosome
    · simp [hst] at hr
    · simp only [hst, if_false, h₂] at hr
      exact absurd hr (by simp)

/-- A run of the loop that returns has built the index of the own-property iterations. -/
theorem indexLoop_eq_some (rows : List CollinearityRecord) (s index : IndexState)
    (h : indexLoop s rows = some index) : index = rows.foldl indexRow s := by
  induction rows generalizing s with
  | nil =>
    simp only [indexLoop, Option.some.injEq] at h
    simp [h]
  | cons r rest ih =>
    simp only [indexLoop] at h
    cases hr : indexRecord s r with
    | none => rw [hr] at h; exact absurd h (by simp)
    | some s' =>
      rw [hr] at h
      simp only at h
      rw [List.foldl_cons, ← indexRecord_eq_some s s' r hr]
      exact ih s' h

theorem indexCollinearity_eq_some (rows : List CollinearityRecord) (index : IndexState)
    (h : indexCollinearity rows = some index) : index = indexRows rows :=
  indexLoop_eq_some rows _ index h

theorem indexLoop_of_ordinary (rows : List CollinearityRecord) (s : IndexState)
    (h : ∀ r ∈ rows, r.ordinary = true) : indexLoop s rows = some (rows.foldl indexRow s) := by
  induction rows generalizing s with
  | nil => rfl
  | cons r rest ih =>
    simp only [indexLoop, indexRecord_of_ordinary s r (h r (List.mem_cons_self _ _)),
      List.foldl_cons]
    exact ih _ (fun x hx => h x (List.mem_cons_of_mem _ hx))

/-- On an input of ordinary names the loop of lines 219-296 returns. -/
theorem indexCollinearity_of_ordinary (rows : List CollinearityRecord)
    (h : ∀ r ∈ rows, r.ordinary = true) : indexCollinearity rows = some (indexRows rows) :=
  indexLoop_of_ordinary rows _ h

/-! ## Lemmas on the position indexer -/

theorem get?_ensure {V : Type} (d : Dict V) (k : String) (v : V) (k' : String) :
    (if d.hasOwn k then d else d.set k v).get? k' =
      if k = k' then some ((d.get? k).getD v) else d.get? k' := by
  cases h : d.get? k with
  | none =>
    have hh : d.hasOwn k = false := by simp [Dict.hasOwn, h]
    simp only [hh, Bool.false_eq_true, if_false, Dict.get?_set, Option.getD_none]
  | some x =>
    have hh : d.hasOwn k = true := by simp [Dict.hasOwn, h]
    simp only [hh, if_true, Option.getD_some]
    by_cases hk : k = k'
    · subst hk; simp [h]
    · simp [hk]

theorem indexGene_min (s : PositionState) (g : GffRecord) (c : String) :
    (indexGene s g).minStartChromosomesDictionary.get? c =
      if g.chromosomeID = c then
        some (min ((s.minStartChromosomesDictionary.get? g.chromosomeID).getD MAX_SAFE_INTEGER)
          g.start)
      else s.minStartChromosomesDictionary.get? c := by
  simp only [indexGene, Dict.get?_set, getD_get?_guarded]
  by_cases h : g.chromosomeID = c
  · simp [h]
  · simp only [h, if_false]
    exact get?_guarded_ne _ _ _ _ h

theorem indexGene_max (s : PositionState) (g : GffRecord) (c : String) :
    (indexGene s g).maxEndChromosomesDictionary.get? c =
      if g.chromosomeID = c then
        some (max ((s.maxEndChromosomesDictionary.get? g.chromosomeID).getD 0) g.end_)
      else s.maxEndChromosomesDictionary.get? c := by
  simp only [indexGene, Dict.get?_set, getD_get?_guarded]
  by_cases h : g.chromosomeID = c
  · simp [h]
  · simp only [h, if_false]
    exact get?_guarded_ne _ _ _ _ h

theorem indexGene_gff (s : PositionState) (g : GffRecord) (c : String) :
    (indexGene s g).gffPositionDictionary.get? c =
      if g.chromosomeID = c then
        if s.gffPositionDictionary.get? g.chromosomeID = none ∧
            g.chromosomeID ∈ objectPrototypeNames then none
        else
          some { start := min ((s.minStartChromosomesDictionary.get? g.chromosomeID).getD
                   MAX_SAFE_INTEGER) g.start
                 end_ := max ((s.maxEndChromosomesDictionary.get? g.chromosomeID).getD 0) g.end_
                 color := (s.gffPositionDictionary.get? g.chromosomeID).bind (fun e => e.color)
                 tag := (s.gffPositionDictionary.get? g.chromosomeID).bind (fun e => e.tag) }
      else s.gffPositionDictionary.get? c := by
  simp only [indexGene]
  cases h : s.gffPositionDictionary.get? g.chromosomeID with
  | none =>
    by_cases hin : g.chromosomeID ∈ objectPrototypeNames
    · have hh : s.gffPositionDictionary.has g.chromosomeID = true :=
        (has_eq_true_iff _ _).mpr (Or.inr hin)
      simp only [hh, if_true, hin, and_self]
      by_cases hc : g.chromosomeID = c
      · simp only [hc, if_true]
        rw [← hc, h]
      · simp only [hc, if_false]
    · have hh : s.gffPositionDictionary.has g.chromosomeID = false := by
        rw [has_of_ordinary _ _ hin]
        simp [Dict.hasOwn, h]
      simp only [hh, Bool.false_eq_true, if_false, hin, and_false, Dict.get?_set,
        getD_get?_guarded, Dict.get?_set_self, Option.getD_some, Option.bind, if_true]
  | some e =>
    simp only [Dict.get?_set, getD_get?_guarded, Dict.get?_set_self, Option.getD_some,
      Option.bind, false_and, if_false, reduceCtorEq, if_true]

theorem indexGenes_append_singleton (gff : List GffRecord) (g : GffRecord) :
    indexGenes (gff ++ [g]) = indexGene (indexGenes gff) g := by
  simp [indexGenes, List.foldl_append]

/-- The three dictionaries of the position indexer, described from the gene records. -/
theorem indexGenes_get? (gff : List GffRecord) (c : String) :
    (indexGenes gff).minStartChromosomesDictionary.get? c =
        (if genesOn c gff = [] then none else some (foldMinStart (genesOn c gff))) ∧
    (indexGenes gff).maxEndChromosomesDictionary.get? c =
        (if genesOn c gff = [] then none else some (foldMaxEnd (genesOn c gff))) ∧
    (indexGenes gff).gffPositionDictionary.get? c =
        (if genesOn c gff = [] ∨ c ∈ objectPrototypeNames then none
         else some { start := foldMinStart (genesOn c gff), end_ := foldMaxEnd (genesOn c gff)
                     color := none, tag := none }) := by
  induction gff using List.reverseRecOn generalizing c with
  | nil => simp [indexGenes, genesOn, Dict.get?]
  | append_singleton gff g ih =>
    rw [indexGenes_append_singleton, indexGene_min, indexGene_max, indexGene_gff]
    by_cases h : g.chromosomeID = c
    · subst h
      obtain ⟨h1, h2, h3⟩ := ih g.chromosomeID
      rw [h1, h2, h3]
      have hne : genesOn g.chromosomeID (gff ++ [g]) ≠ [] := by
        simp [genesOn, List.filter_append]
      have happ : genesOn g.chromosomeID (gff ++ [g]) = genesOn g.chromosomeID gff ++ [g] := by
        simp [genesOn, List.filter_append]
      simp only [hne, if_true, if_false, false_or]
      by_cases hin : g.chromosomeID ∈ objectPrototypeNames
      · by_cases he : genesOn g.chromosomeID gff = []
        · simp [happ, he, hin, foldMinStart, foldMaxEnd]
        · simp [happ, he, hin, foldMinStart, foldMaxEnd, List.foldl_append]
      · by_cases he : genesOn g.chromosomeID gff = []
        · simp [happ, he, hin, foldMinStart, foldMaxEnd]
        · simp [happ, he, hin, foldMinStart, foldMaxEnd, List.foldl_append]
    · have happ : genesOn c (gff ++ [g]) = genesOn c gff := by
        simp [genesOn, List.filter_append, h]
      simp only [h, if_false, happ]
      exact ih c

theorem foldl_min_le_init (l : List GffRecord) (init : Int) :
    l.foldl (fun m g => min m g.start) init ≤ init := by
  induction l generalizing init with
  | nil => simp
  | cons a l ih =>
    simp only [List.foldl_cons]
    exact le_trans (ih _) (min_le_left _ _)

theorem foldl_min_le_mem (l : List GffRecord) (init : Int) (g : GffRecord) (hg : g ∈ l) :
    l.foldl (fun m g => min m g.start) init ≤ g.start := by
  induction l generalizing init with
  | nil => cases hg
  | cons a l ih =>
    simp only [List.foldl_cons]
    rcases List.mem_cons.mp hg with rfl | h
    · exact le_trans (foldl_min_le_init _ _) (min_le_right _ _)
    · exact ih _ h

theorem foldl_min_mem (l : List GffRecord) (init : Int) :
    l.foldl (fun m g => min m g.start) init = init ∨
      ∃ g ∈ l, g.start = l.foldl (fun m g => min m g.start) init := by
  induction l generalizing init with
  | nil => simp
  | cons a l ih =>
    simp only [List.foldl_cons]
    rcases ih (min init a.start) with h | ⟨g, hg, hgs⟩
    · rcases min_choice init a.start with h' | h'
      · left; rw [h, h']
      · right; exact ⟨a, List.mem_cons_self _ _, by rw [h, h']⟩
    · right; exact ⟨g, List.mem_cons_of_mem _ hg, hgs⟩

theorem init_le_foldl_max (l : List GffRecord) (init : Int) :
    init ≤ l.foldl (fun m g => max m g.end_) init := by
  induction l generalizing init with
  | nil => simp
  | cons a l ih =>
    simp only [List.foldl_cons]
    exact le_trans (le_max_left _ _) (ih _)

theorem mem_le_foldl_max (l : List GffRecord) (init : Int) (g : GffRecord) (hg : g ∈ l) :
    g.end_ ≤ l.foldl (fun m g => max m g.end_) init := by
  induction l generalizing init with
  | nil => cases hg
  | cons a l ih =>
    simp only [List.foldl_cons]
    rcases List.mem_cons.mp hg with rfl | h
    · exact le_trans (le_max_right _ _) (init_le_foldl_max _ _)
    · exact ih _ h

theorem foldl_max_mem (l : List GffRecord) (init : Int) :
    l.foldl (fun m g => max m g.end_) init = init ∨
      ∃ g ∈ l, g.end_ = l.foldl (fun m g => max m g.end_) init := by
  induction l generalizing init with
  | nil => simp
  | cons a l ih =>
    simp only [List.foldl_cons]
    rcases ih (max init a.end_) with h | ⟨g, hg, hgs⟩
    · rcases max_choice init a.end_ with h' | h'
      · left; rw [h, h']
      · right; exact ⟨a, List.mem_cons_self _ _, by rw [h, h']⟩
    · right; exact ⟨g, List.mem_cons_of_mem _ hg, hgs⟩

theorem assignColors_range (colors : Nat → Option String) (ks : List String) (i : Nat)
    (t t' : Int) (d d' : Dict ChromosomeEntry)
    (h : assignColors colors ks i t d = some (t', d')) (c : String) :
    (d'.get? c).map ChromosomeEntry.range = (d.get? c).map ChromosomeEntry.range := by
  induction ks generalizing i t d with
  | nil =>
    simp only [assignColors, Option.some.injEq, Prod.mk.injEq] at h
    rw [h.2]
  | cons k ks ih =>
    simp only [assignColors] at h
    cases hk : d.get? k with
    | none => simp [hk] at h
    | some e =>
      simp only [hk] at h
      rw [ih _ _ _ h, Dict.get?_set]
      by_cases hkc : k = c
      · subst hkc
        simp [hk, ChromosomeEntry.range]
      · simp [hkc]

theorem assignTag_range (tag : String) (cs : List String) (d d' : Dict ChromosomeEntry)
    (h : assignTag tag cs d = some d') (c : String) :
    (d'.get? c).map ChromosomeEntry.range = (d.get? c).map ChromosomeEntry.range := by
  induction cs generalizing d with
  | nil =>
    simp only [assignTag, Option.some.injEq] at h
    rw [h]
  | cons k ks ih =>
    simp only [assignTag] at h
    cases hk : d.get? k with
    | none => simp [hk] at h
    | some e =>
      simp only [hk] at h
      rw [ih _ h, Dict.get?_set]
      by_cases hkc : k = c
      · subst hkc
        simp [hk, ChromosomeEntry.range]
      · simp [hkc]

theorem assignTags_range (pd : Dict (List String)) (ps : List String)
    (d d' : Dict ChromosomeEntry) (h : assignTags pd ps d = some d') (c : String) :
    (d'.get? c).map ChromosomeEntry.range = (d.get? c).map ChromosomeEntry.range := by
  induction ps generalizing d with
  | nil =>
    simp only [assignTags, Option.some.injEq] at h
    rw [h]
  | cons p ps ih =>
    simp only [assignTags] at h
    cases hp : pd.get? p with
    | none => simp [hp] at h
    | some members =>
      simp only [hp] at h
      cases ht : assignTag p members d with
      | none => simp [ht] at h
      | some d₁ =>
        simp only [ht] at h
        rw [ih _ h, assignTag_range _ _ _ _ ht]

theorem colorChromosomes_range (env : Collaborators) (d tagged : Dict ChromosomeEntry)
    (gffKeys : List String) (totalChrEnd : Int)
    (h : colorChromosomes env d = some (gffKeys, totalChrEnd, tagged)) (c : String) :
    (tagged.get? c).map ChromosomeEntry.range = (d.get? c).map ChromosomeEntry.range := by
  simp only [colorChromosomes] at h
  split at h
  · simp at h
  · rename_i total colored hcol
    split at h
    · simp at h
    · rename_i tagged' htag
      simp only [Option.some.injEq, Prod.mk.injEq] at h
      rw [← h.2.2, assignTags_range _ _ _ _ htag, assignColors_range _ _ _ _ _ _ _ hcol]

/-- The run of `generateData` when the aggregation of the blocks fails. -/
theorem generateData_of_failed (env : Collaborators) (gff : List GffRecord)
    (collinearity : List CollinearityRecord) (additionalTrack : Option (List String))
    (gffKeys : List String) (totalChrEnd : Int) (tagged : Dict ChromosomeEntry)
    (index : IndexState)
    (hpre : colorChromosomes env (indexGenes gff).gffPositionDictionary =
      some (gffKeys, totalChrEnd, tagged))
    (hidx : indexCollinearity collinearity = some index)
    (hfail : (aggregation env gff index).failed = true) :
    generateData env (some gff) (some collinearity) additionalTrack =
      { trace := [Effect.resetAllVariables,
                  Effect.setGeneDictionary (indexGenes gff).geneDictionary] ++
                 commitChromosomes env totalChrEnd tagged gffKeys additionalTrack ++
                 [Effect.renderReactAlert incompatibleMessage "danger" 15000]
        threw := false } := by
  simp only [generateData, hpre, hidx, hfail, if_true]

/-- The run of `generateData` when every block is aggregated. -/
theorem generateData_of_succeeded (env : Collaborators) (gff : List GffRecord)
    (collinearity : List CollinearityRecord) (additionalTrack : Option (List String))
    (gffKeys : List String) (totalChrEnd : Int) (tagged : Dict ChromosomeEntry)
    (index : IndexState)
    (hpre : colorChromosomes env (indexGenes gff).gffPositionDictionary =
      some (gffKeys, totalChrEnd, tagged))
    (hidx : indexCollinearity collinearity = some index)
    (hok : (aggregation env gff index).failed = false) :
    generateData env (some gff) (some collinearity) additionalTrack =
      { trace := [Effect.resetAllVariables,
                  Effect.setGeneDictionary (indexGenes gff).geneDictionary] ++
                 commitChromosomes env totalChrEnd tagged gffKeys additionalTrack ++
                 [Effect.setBlockDictionary (aggregation env gff index).blockDictionary,
                  Effect.buildControls, Effect.updateFilter false 1,
                  Effect.generateGenomeView, Effect.showPage]
        threw := false } := by
  simp only [generateData, hpre, hidx, hok, Bool.false_eq_true, if_false]

/-- The run of `generateData` when the collinearity loop raises: the chromosomes have been
committed, nothing follows. -/
theorem generateData_of_raised (env : Collaborators) (gff : List GffRecord)
    (collinearity : List CollinearityRecord) (additionalTrack : Option (List String))
    (gffKeys : List String) (totalChrEnd : Int) (tagged : Dict ChromosomeEntry)
    (hpre : colorChromosomes env (indexGenes gff).gffPositionDictionary =
      some (gffKeys, totalChrEnd, tagged))
    (hidx : indexCollinearity collinearity = none) :
    generateData env (some gff) (some collinearity) additionalTrack =
      { trace := [Effect.resetAllVariables,
                  Effect.setGeneDictionary (indexGenes gff).geneDictionary] ++
                 commitChromosomes env totalChrEnd tagged gffKeys additionalTrack
        threw := true } := by
  simp only [generateData, hpre, hidx]

/-- The run of `generateData` when a collaborator hands back an unknown chromosome. -/
theorem generateData_of_threw (env : Collaborators) (gff : List GffRecord)
    (collinearity : List CollinearityRecord) (additionalTrack : Option (List String))
    (hpre : colorChromosomes env (indexGenes gff).gffPositionDictionary = none) :
    generateData env (some gff) (some collinearity) additionalTrack =
      { trace := [Effect.resetAllVariables,
                  Effect.setGeneDictionary (indexGenes gff).geneDictionary]
        threw := true } := by
  simp only [generateData, hpre]

/-- The dictionary handed to `setGffDictionary` is the coloured and tagged position index. -/
theorem setGffDictionary_mem_trace (env : Collaborators) (gff : List GffRecord)
    (collinearity : List CollinearityRecord) (additionalTrack : Option (List String))
    (d : Dict ChromosomeEntry)
    (h : Effect.setGffDictionary d ∈
      (generateData env (some gff) (some collinearity) additionalTrack).trace) :
    ∀ c, (d.get? c).map ChromosomeEntry.range =
      ((indexGenes gff).gffPositionDictionary.get? c).map ChromosomeEntry.range := by
  intro c
  cases hpre : colorChromosomes env (indexGenes gff).gffPositionDictionary with
  | none =>
    rw [generateData_of_threw env gff collinearity additionalTrack hpre] at h
    simp at h
  | some x =>
    obtain ⟨gffKeys, totalChrEnd, tagged⟩ := x
    have hd : d = tagged := by
      cases hidx : indexCollinearity collinearity with
      | none =>
        rw [generateData_of_raised env gff collinearity additionalTrack _ _ _ hpre hidx] at h
        cases additionalTrack <;> simp [commitChromosomes] at h <;> exact h
      | some index =>
        cases hf : (aggregation env gff index).failed with
        | true =>
          rw [generateData_of_failed env gff collinearity additionalTrack _ _ _ _ hpre hidx
            hf] at h
          cases additionalTrack <;> simp [commitChromosomes] at h <;> exact h
        | false =>
          rw [generateData_of_succeeded env gff collinearity additionalTrack _ _ _ _ hpre hidx
            hf] at h
          cases additionalTrack <;> simp [commitChromosomes] at h <;> exact h
    subst hd
    exact colorChromosomes_range env _ _ _ _ hpre c

/-! ## Lemmas on `Object.keys` and on the aggregation loop -/

theorem Dict.mem_objectKeys {V : Type} (d : Dict V) (k : String) :
    k ∈ d.objectKeys ↔ k ∈ d.keys := by
  have hsort : ∀ x : Nat × String,
      x ∈ (d.keys.filterMap (fun k => (arrayIndex? k).map (fun n => (n, k)))).insertionSort
        (fun a b => a.1 ≤ b.1) ↔
      x ∈ d.keys.filterMap (fun k => (arrayIndex? k).map (fun n => (n, k))) :=
    fun x => (List.perm_insertionSort _ _).mem_iff
  simp only [Dict.objectKeys, List.mem_append, List.mem_map, List.mem_filter, hsort,
    List.mem_filterMap, Option.map_eq_some']
  constructor
  · rintro (⟨⟨n, k'⟩, ⟨k'', hk'', n', _, hn'⟩, rfl⟩ | ⟨hk, _⟩)
    · simp only [Prod.mk.injEq] at hn'
      rw [← hn'.2]
      exact hk''
    · exact hk
  · intro hk
    cases h : arrayIndex? k with
    | none => right; exact ⟨hk, by simp⟩
    | some n => left; exact ⟨(n, k), ⟨k, hk, n, h, rfl⟩, rfl⟩

theorem aggregateBlocks_failed_split
    (lookup : Dict Block → Dict GenePosition → String → Option BlockPositions)
    (gd : Dict GenePosition) (keys : List String) (m : Nat) (bd : Dict Block)
    (h : (aggregateBlocks lookup gd keys m bd).failed = true) :
    ∃ done k rest, keys = done ++ k :: rest ∧
      (aggregateBlocks lookup gd done m bd).failed = false ∧
      ((aggregateBlocks lookup gd done m bd).blockDictionary.get? k = none ∨
        lookup (aggregateBlocks lookup gd done m bd).blockDictionary gd k = none) ∧
      (aggregateBlocks lookup gd keys m bd).blockDictionary =
        (aggregateBlocks lookup gd done m bd).blockDictionary := by
  induction keys generalizing m bd with
  | nil => simp [aggregateBlocks] at h
  | cons k ks ih =>
    cases hk : bd.get? k with
    | none =>
      refine ⟨[], k, ks, rfl, by simp [aggregateBlocks], Or.inl (by simpa [aggregateBlocks]), ?_⟩
      simp [aggregateBlocks, hk]
    | some b =>
      cases hl : lookup bd gd k with
      | none =>
        refine ⟨[], k, ks, rfl, by simp [aggregateBlocks],
          Or.inr (by simpa [aggregateBlocks]), ?_⟩
        simp [aggregateBlocks, hk, hl]
      | some p =>
        simp only [aggregateBlocks, hk, hl] at h
        obtain ⟨done, k', rest, hks, hdone, hfail, hbd⟩ := ih _ _ h
        refine ⟨k :: done, k', rest, by simp [hks], ?_, ?_, ?_⟩
        · simpa [aggregateBlocks, hk, hl] using hdone
        · simpa [aggregateBlocks, hk, hl] using hfail
        · simpa [aggregateBlocks, hk, hl] using hbd

theorem aggregateBlocks_positions
    (lookup : Dict Block → Dict GenePosition → String → Option BlockPositions)
    (gd : Dict GenePosition) (keys : List String) (m : Nat) (bd : Dict Block)
    (h : (aggregateBlocks lookup gd keys m bd).failed = false) (k : String)
    (hk : k ∈ keys ∨ ∃ blk, bd.get? k = some blk ∧ blk.blockPositions.isSome = true) :
    ∃ blk, (aggregateBlocks lookup gd keys m bd).blockDictionary.get? k = some blk ∧
      blk.blockPositions.isSome = true := by
  induction keys generalizing m bd with
  | nil =>
    rcases hk with hk | hk
    · cases hk
    · simpa [aggregateBlocks] using hk
  | cons k₀ ks ih =>
    cases h₀ : bd.get? k₀ with
    | none => simp [aggregateBlocks, h₀] at h
    | some b =>
      cases hl : lookup bd gd k₀ with
      | none => simp [aggregateBlocks, h₀, hl] at h
      | some p =>
        simp only [aggregateBlocks, h₀, hl] at h ⊢
        apply ih _ _ h
        by_cases hkk : k₀ = k
        · right
          subst hkk
          exact ⟨_, Dict.get?_set_self _ _ _, rfl⟩
        · rcases hk with hk | ⟨blk, hblk, hpos⟩
          · rcases List.mem_cons.mp hk with rfl | hk'
            · exact absurd rfl hkk
            · exact Or.inl hk'
          · right
            refine ⟨blk, ?_, hpos⟩
            rw [Dict.get?_set]
            simp [hkk, hblk]

theorem aggregateBlocks_entries
    (lookup : Dict Block → Dict GenePosition → String → Option BlockPositions)
    (gd : Dict GenePosition) (keys : List String) (m : Nat) (bd : Dict Block) (k : String) :
    ((aggregateBlocks lookup gd keys m bd).blockDictionary.get? k).map (fun b => b.entries) =
      (bd.get? k).map (fun b => b.entries) := by
  induction keys generalizing m bd with
  | nil => simp [aggregateBlocks]
  | cons k₀ ks ih =>
    cases h₀ : bd.get? k₀ with
    | none => simp [aggregateBlocks, h₀]
    | some b =>
      cases hl : lookup bd gd k₀ with
      | none => simp [aggregateBlocks, h₀, hl]
      | some p =>
        simp only [aggregateBlocks, h₀, hl]
        rw [ih, Dict.get?_set]
        by_cases hkk : k₀ = k
        · subst hkk
          simp [h₀]
        · simp [hkk]

theorem mapM_eq_none_iff {α β : Type} (f : α → Option β) (l : List α) :
    l.mapM f = none ↔ ∃ x ∈ l, f x = none := by
  induction l with
  | nil =>
    rw [List.mapM_nil]
    simp
  | cons a l ih =>
    rw [List.mapM_cons]
    cases ha : f a with
    | none => simp [ha]
    | some b =>
      cases hl : l.mapM f with
      | none =>
        have := ih.mp hl
        simp only [Option.pure_def, Option.bind_eq_bind, Option.some_bind, Option.none_bind,
          List.mem_cons, exists_eq_or_imp, ha, false_or, true_iff, reduceCtorEq]
        exact this
      | some bs =>
        have hno : ¬ ∃ x ∈ l, f x = none := fun h => by
          have := ih.mpr h
          rw [hl] at this
          cases this
        simp only [Option.pure_def, Option.bind_eq_bind, Option.some_bind,
          List.mem_cons, exists_eq_or_imp, ha, false_or, reduceCtorEq, false_iff]
        exact hno

/-- The modelled `lookForBlocksPositions` fails exactly when the block is absent or one of
its connections refers to a gene absent from the gene dictionary. -/
theorem lookForBlocksPositions_eq_none_iff (bd : Dict Block) (gd : Dict GenePosition)
    (k : String) :
    lookForBlocksPositions bd gd k = none ↔
      bd.get? k = none ∨
      ∃ b, bd.get? k = some b ∧ ∃ e ∈ b.entries,
        gd.get? e.connectionSource = none ∨ gd.get? e.connectionTarget = none := by
  unfold lookForBlocksPositions
  cases hb : bd.get? k with
  | none => simp
  | some b =>
    simp only [reduceCtorEq, Option.some.injEq, exists_eq_left', false_or]
    cases hs : b.entries.mapM (fun e => gd.get? e.connectionSource) with
    | none =>
      obtain ⟨e, he, hne⟩ := (mapM_eq_none_iff _ _).mp hs
      simp only [true_iff]
      exact ⟨e, he, Or.inl hne⟩
    | some sources =>
      cases ht : b.entries.mapM (fun e => gd.get? e.connectionTarget) with
      | none =>
        obtain ⟨e, he, hne⟩ := (mapM_eq_none_iff _ _).mp ht
        simp only [true_iff]
        exact ⟨e, he, Or.inr hne⟩
      | some targets =>
        simp only [reduceCtorEq, false_iff]
        rintro ⟨e, he, hne | hne⟩
        · have := (mapM_eq_none_iff (fun e => gd.get? e.connectionSource) b.entries).mpr
            ⟨e, he, hne⟩
          rw [hs] at this
          cases this
        · have := (mapM_eq_none_iff (fun e => gd.get? e.connectionTarget) b.entries).mpr
            ⟨e, he, hne⟩
          rw [ht] at this
          cases this

theorem lookForBlocksPositions_set_positions (bd : Dict Block) (gd : Dict GenePosition)
    (k k' : String) (b : Block) (p : BlockPositions) (hb : bd.get? k = some b) :
    lookForBlocksPositions (bd.set k { b with blockPositions := some p }) gd k' = none ↔
      lookForBlocksPositions bd gd k' = none := by
  rw [lookForBlocksPositions_eq_none_iff, lookForBlocksPositions_eq_none_iff, Dict.get?_set]
  by_cases hk : k = k'
  · subst hk
    simp [hb]
  · simp [hk]

/-- With the modelled `lookForBlocksPositions` the loop fails exactly when the lookup fails
for one of the keys in the dictionary the loop starts from. -/
theorem aggregateBlocks_failed_iff (gd : Dict GenePosition) (keys : List String) (m : Nat)
    (bd : Dict Block) :
    (aggregateBlocks lookForBlocksPositions gd keys m bd).failed = true ↔
      ∃ k ∈ keys, lookForBlocksPositions bd gd k = none := by
  induction keys generalizing m bd with
  | nil => simp [aggregateBlocks]
  | cons k ks ih =>
    cases hk : bd.get? k with
    | none =>
      have hl : lookForBlocksPositions bd gd k = none :=
        (lookForBlocksPositions_eq_none_iff bd gd k).mpr (Or.inl hk)
      simp only [aggregateBlocks, hk, true_iff]
      exact ⟨k, List.mem_cons_self _ _, hl⟩
    | some b =>
      cases hl : lookForBlocksPositions bd gd k with
      | none =>
        simp only [aggregateBlocks, hk, hl, true_iff]
        exact ⟨k, List.mem_cons_self _ _, hl⟩
      | some p =>
        simp only [aggregateBlocks, hk, hl]
        rw [ih]
        constructor
        · rintro ⟨k', hk', hn⟩
          exact ⟨k', List.mem_cons_of_mem _ hk',
            (lookForBlocksPositions_set_positions bd gd k k' b p hk).mp hn⟩
        · rintro ⟨k', hk', hn⟩
          rcases List.mem_cons.mp hk' with rfl | hk''
          · rw [hl] at hn
            cases hn
          · exact ⟨k', hk'', (lookForBlocksPositions_set_positions bd gd k k' b p hk).mpr hn⟩

/-- With the modelled `lookForBlocksPositions` the aggregation of the blocks fails exactly
when a row of the collinearity input refers to a gene absent from the gene dictionary. -/
theorem aggregation_failed_iff (env : Collaborators) (gff : List GffRecord)
    (collinearity : List CollinearityRecord)
    (index : IndexState)
    (henv : env.lookForBlocksPositions = lookForBlocksPositions)
    (hidx : indexCollinearity collinearity = some index) :
    (aggregation env gff index).failed = true ↔
      ∃ r ∈ collinearity,
        (indexGenes gff).geneDictionary.get? r.connectionSource = none ∨
        (indexGenes gff).geneDictionary.get? r.connectionTarget = none := by
  have hix := indexCollinearity_eq_some _ _ hidx
  subst hix
  unfold aggregation
  rw [henv, aggregateBlocks_failed_iff]
  constructor
  · rintro ⟨k, hk, hn⟩
    rw [Dict.mem_objectKeys, blockDictionary_keys, mem_firstOccurrences, List.mem_map] at hk
    obtain ⟨r₀, hr₀, hr₀k⟩ := hk
    have hne : collinearity.filter (fun r => decide (r.block = k)) ≠ [] := by
      intro h
      have : r₀ ∈ collinearity.filter (fun r => decide (r.block = k)) := by
        simp [List.mem_filter, hr₀, hr₀k]
      rw [h] at this
      cases this
    rw [lookForBlocksPositions_eq_none_iff, blockDictionary_get?] at hn
    rcases hn with hn | ⟨b, hb, e, he, hmiss⟩
    · by_cases hf : collinearity.filter (fun r => decide (r.block = k)) = []
      · exact absurd hf hne
      · simp [hf] at hn
    · by_cases hf : collinearity.filter (fun r => decide (r.block = k)) = []
      · simp [hf] at hb
      · simp only [hf, if_false, Option.some.injEq] at hb
        subst hb
        simp only [List.mem_map, List.mem_filter] at he
        obtain ⟨r, ⟨hr, _⟩, rfl⟩ := he
        exact ⟨r, hr, hmiss⟩
  · rintro ⟨r, hr, hmiss⟩
    refine ⟨r.block, ?_, ?_⟩
    · rw [Dict.mem_objectKeys, blockDictionary_keys, mem_firstOccurrences]
      exact List.mem_map_of_mem _ hr
    · rw [lookForBlocksPositions_eq_none_iff, blockDictionary_get?]
      right
      have hf : collinearity.filter (fun x => decide (x.block = r.block)) ≠ [] := by
        intro h
        have : r ∈ collinearity.filter (fun x => decide (x.block = r.block)) := by
          simp [List.mem_filter, hr]
        rw [h] at this
        cases this
      refine ⟨_, if_neg hf, toConnection r, ?_, hmiss⟩
      simp only [List.mem_map, List.mem_filter]
      exact ⟨r, ⟨hr, by simp⟩, rfl⟩

/-! ## Lemmas on the chord derivation -/

theorem mem_lookID (sel : List String) (x : String) : x ∈ lookID sel ↔ x ∈ sel := by
  unfold lookID
  by_cases h : sel.length = 1
  · obtain ⟨a, rfl⟩ := List.length_eq_one.mp h
    simp
  · simp [h]

theorem inclusion_iff (st : ViewState) (s t : String) :
    inclusion st s t = true ↔
      if st.selectedCheckbox.length = 1 ∧ st.showAllChromosomes = true then
        s ∈ st.selectedCheckbox ∨ t ∈ st.selectedCheckbox
      else s ∈ st.selectedCheckbox ∧ t ∈ st.selectedCheckbox := by
  unfold inclusion
  by_cases h1 : st.selectedCheckbox.length = 1
  · by_cases h2 : st.showAllChromosomes = true
    · simp [h1, h2, mem_lookID]
    · simp [h1, h2, mem_lookID]
  · simp [h1, mem_lookID]

theorem filterCondition_iff (st : ViewState) (n : Nat) :
    filterCondition st n = true ↔
      (st.filterSelect = "At Least" ∧ (n : Int) ≥ st.filterValue) ∨
      (st.filterSelect = "At Most" ∧ (n : Int) ≤ st.filterValue) := by
  simp [filterCondition]

theorem displayPositions_isSome (st : ViewState) (hwf : st.WellFormed) (id : String)
    (p : Positions) : ∃ q, displayPositions st id p = some q := by
  unfold displayPositions
  by_cases h : id ∈ st.currentFlippedChromosomes
  · have := hwf.2 id h
    cases hg : st.gffPositionDictionary.get? id with
    | none => simp [hg] at this
    | some e => exact ⟨flipPositions e.end_ p, by simp [h]⟩
  · exact ⟨p, by simp [h]⟩

theorem blockReady_iff (st : ViewState) (k : String) :
    st.blockReady k = true ↔
      ∃ b first bp, st.blockDictionary.get? k = some b ∧ b.entries.head? = some first ∧
        b.blockPositions = some bp := by
  unfold ViewState.blockReady
  cases h : st.blockDictionary.get? k with
  | none => simp
  | some b =>
    cases he : b.entries with
    | nil => simp [he]
    | cons a l =>
      cases hp : b.blockPositions with
      | none => simp [he, hp]
      | some bp => simp [he, hp]

/-- The chord of a block that passes, or nothing. -/
theorem deriveChord_eq (fix : Connection → SourceTarget) (st : ViewState) (k : String)
    (b : Block) (first : Connection) (bp : BlockPositions)
    (hb : st.blockDictionary.get? k = some b) (hf : b.entries.head? = some first)
    (hp : b.blockPositions = some bp) :
    deriveChord fix st k =
      if (inclusion st (fix first).source (fix first).target &&
          filterCondition st b.entries.length) = true then
        match displayPositions st (fix first).source
                { start := bp.minSource, end_ := bp.maxSource },
              displayPositions st (fix first).target
                { start := bp.minTarget, end_ := bp.maxTarget } with
        | some sp, some tp =>
          some (some { source := { id := (fix first).source, start := sp.start, end_ := sp.end_
                                   value := { id := k, length := bp.blockLength } }
                       target := { id := (fix first).target, start := tp.start
                                   end_ := tp.end_ } })
        | _, _ => none
      else some none := by
  simp only [deriveChord, hb, hf, hp]

theorem deriveChord_isSome (fix : Connection → SourceTarget) (st : ViewState)
    (hwf : st.WellFormed) (k : String) (hk : k ∈ st.blockKeys) :
    ∃ r, deriveChord fix st k = some r := by
  obtain ⟨b, first, bp, hb, hf, hp⟩ := (blockReady_iff st k).mp (hwf.1 k hk)
  rw [deriveChord_eq fix st k b first bp hb hf hp]
  obtain ⟨sp, hsp⟩ := displayPositions_isSome st hwf (fix first).source
    { start := bp.minSource, end_ := bp.maxSource }
  obtain ⟨tp, htp⟩ := displayPositions_isSome st hwf (fix first).target
    { start := bp.minTarget, end_ := bp.maxTarget }
  rw [hsp, htp]
  split
  · exact ⟨_, rfl⟩
  · exact ⟨_, rfl⟩

theorem chordLoop_spec (fix : Connection → SourceTarget) (st : ViewState)
    (keys visited : List String) (acc : PathResult)
    (h : ∀ k ∈ keys, ∃ r, deriveChord fix st k = some r) :
    ∃ out, chordLoop fix st keys visited acc = some out ∧
      ∀ c, c ∈ out.dataChords ↔
        c ∈ acc.dataChords ∨
        ∃ k ∈ keys, k ∉ visited ∧ deriveChord fix st k = some (some c) := by
  induction keys generalizing visited acc with
  | nil => exact ⟨acc, rfl, by simp⟩
  | cons k ks ih =>
    have hks : ∀ k' ∈ ks, ∃ r, deriveChord fix st k' = some r :=
      fun k' hk' => h k' (List.mem_cons_of_mem _ hk')
    by_cases hv : k ∈ visited
    · obtain ⟨out, hout, hmem⟩ := ih visited acc hks
      refine ⟨out, by simp [chordLoop, hv, hout], ?_⟩
      intro c
      rw [hmem c]
      constructor
      · rintro (hc | ⟨k', hk', hnv, hd⟩)
        · exact Or.inl hc
        · exact Or.inr ⟨k', List.mem_cons_of_mem _ hk', hnv, hd⟩
      · rintro (hc | ⟨k', hk', hnv, hd⟩)
        · exact Or.inl hc
        · rcases List.mem_cons.mp hk' with rfl | hk''
          · exact absurd hv hnv
          · exact Or.inr ⟨k', hk'', hnv, hd⟩
    · obtain ⟨r, hr⟩ := h k (List.mem_cons_self _ _)
      cases r with
      | none =>
        obtain ⟨out, hout, hmem⟩ := ih (k :: visited) acc hks
        refine ⟨out, by simp [chordLoop, hv, hr, hout], ?_⟩
        intro c
        rw [hmem c]
        constructor
        · rintro (hc | ⟨k', hk', hnv, hd⟩)
          · exact Or.inl hc
          · exact Or.inr ⟨k', List.mem_cons_of_mem _ hk',
              fun hin => hnv (List.mem_cons_of_mem _ hin), hd⟩
        · rintro (hc | ⟨k', hk', hnv, hd⟩)
          · exact Or.inl hc
          · have hne : k' ≠ k := by
              rintro rfl
              rw [hr] at hd
              cases hd
            rcases List.mem_cons.mp hk' with rfl | hk''
            · exact absurd rfl hne
            · refine Or.inr ⟨k', hk'', ?_, hd⟩
              intro hin
              rcases List.mem_cons.mp hin with heq | hin'
              · exact hne heq
              · exact hnv hin'
      | some chord =>
        obtain ⟨out, hout, hmem⟩ := ih (k :: visited)
          { dataChords := acc.dataChords ++ [chord]
            foundCurrentSelectedBlock :=
              if some chord = st.currentSelectedBlock then true
              else acc.foundCurrentSelectedBlock } hks
        refine ⟨out, by simp only [chordLoop, hv, hr, ↓reduceIte]; exact hout, ?_⟩
        intro c
        rw [hmem c]
        simp only [List.mem_append, List.mem_singleton]
        constructor
        · rintro ((hc | rfl) | ⟨k', hk', hnv, hd⟩)
          · exact Or.inl hc
          · exact Or.inr ⟨k, List.mem_cons_self _ _, hv, hr⟩
          · exact Or.inr ⟨k', List.mem_cons_of_mem _ hk',
              fun hin => hnv (List.mem_cons_of_mem _ hin), hd⟩
        · rintro (hc | ⟨k', hk', hnv, hd⟩)
          · exact Or.inl (Or.inl hc)
          · by_cases hkk : k' = k
            · subst hkk
              rw [hr] at hd
              simp only [Option.some.injEq] at hd
              exact Or.inl (Or.inr hd.symm)
            · rcases List.mem_cons.mp hk' with heq | hk''
              · exact absurd heq hkk
              · refine Or.inr ⟨k', hk'', ?_, hd⟩
                intro hin
                rcases List.mem_cons.mp hin with heq | hin'
                · exact hkk heq
                · exact hnv hin'

/-- Under a well-formed state the derivation returns, and its chords are those of the
blocks of `blockKeys`. -/
theorem generatePathGenomeView_spec (fix : Connection → SourceTarget) (st : ViewState)
    (hwf : st.WellFormed) :
    ∃ out, generatePathGenomeView fix st = some out ∧
      ∀ c, c ∈ out.dataChords ↔
        ∃ k ∈ st.blockKeys, deriveChord fix st k = some (some c) := by
  obtain ⟨out, hout, hmem⟩ := chordLoop_spec fix st st.blockKeys []
    { dataChords := [], foundCurrentSelectedBlock := false }
    (fun k hk => deriveChord_isSome fix st hwf k hk)
  refine ⟨out, hout, ?_⟩
  intro c
  rw [hmem c]
  simp

theorem deriveChord_some (fix : Connection → SourceTarget) (st : ViewState) (k : String)
    (c : Chord) (h : deriveChord fix st k = some (some c)) :
    ∃ b first bp sp tp, st.blockDictionary.get? k = some b ∧ b.entries.head? = some first ∧
      b.blockPositions = some bp ∧
      inclusion st (fix first).source (fix first).target = true ∧
      filterCondition st b.entries.length = true ∧
      displayPositions st (fix first).source
        { start := bp.minSource, end_ := bp.maxSource } = some sp ∧
      displayPositions st (fix first).target
        { start := bp.minTarget, end_ := bp.maxTarget } = some tp ∧
      c = { source := { id := (fix first).source, start := sp.start, end_ := sp.end_
                        value := { id := k, length := bp.blockLength } }
            target := { id := (fix first).target, start := tp.start, end_ := tp.end_ } } := by
  cases hb : st.blockDictionary.get? k with
  | none => simp [deriveChord, hb] at h
  | some b =>
    cases hf : b.entries.head? with
    | none => simp [deriveChord, hb, hf] at h
    | some first =>
      cases hp : b.blockPositions with
      | none =>
        simp only [deriveChord, hb, hf, hp] at h
        split at h <;> simp at h
      | some bp =>
        rw [deriveChord_eq fix st k b first bp hb hf hp] at h
        split at h
        · rename_i hpass
          simp only [Bool.and_eq_true] at hpass
          split at h
          · rename_i sp tp hsp htp
            simp only [Option.some.injEq] at h
            exact ⟨b, first, bp, sp, tp, rfl, hf, hp, hpass.1, hpass.2, hsp, htp, h.symm⟩
          · simp at h
        · simp at h

theorem deriveChord_of_pass (fix : Connection → SourceTarget) (st : ViewState)
    (hwf : st.WellFormed) (k : String) (hk : k ∈ st.blockKeys) (b : Block)
    (first : Connection) (hb : st.blockDictionary.get? k = some b)
    (hf : b.entries.head? = some first)
    (hi : inclusion st (fix first).source (fix first).target = true)
    (hc : filterCondition st b.entries.length = true) :
    ∃ c, deriveChord fix st k = some (some c) ∧ c.source.value.id = k := by
  obtain ⟨b', first', bp, hb', hf', hp⟩ := (blockReady_iff st k).mp (hwf.1 k hk)
  rw [hb] at hb'
  cases hb'
  rw [hf] at hf'
  cases hf'
  rw [deriveChord_eq fix st k b first bp hb hf hp]
  obtain ⟨sp, hsp⟩ := displayPositions_isSome st hwf (fix first).source
    { start := bp.minSource, end_ := bp.maxSource }
  obtain ⟨tp, htp⟩ := displayPositions_isSome st hwf (fix first).target
    { start := bp.minTarget, end_ := bp.maxTarget }
  rw [hsp, htp]
  simp only [hi, hc, Bool.and_self, if_true]
  exact ⟨_, rfl, rfl⟩

theorem displayPositions_some (st : ViewState) (id : String) (p q : Positions)
    (h : displayPositions st id p = some q) :
    if id ∈ st.currentFlippedChromosomes then
      ∃ e, st.gffPositionDictionary.get? id = some e ∧ q = flipPositions e.end_ p
    else q = p := by
  unfold displayPositions at h
  by_cases hid : id ∈ st.currentFlippedChromosomes
  · simp only [hid, if_true] at h ⊢
    cases hg : st.gffPositionDictionary.get? id with
    | none => simp [hg] at h
    | some e =>
      simp only [hg, Option.some.injEq] at h
      exact ⟨e, rfl, h.symm⟩
  · simp only [hid, if_false, Option.some.injEq] at h ⊢
    exact h.symm

/-! ## The claims -/

/-- Claim C2: for every collinearity input on which the loop of `generateData` returns and
every pair of chromosomes `A`, `B`, the list `connectionDictionary[A]` holds an entry whose
`connection` is `B` if and only if `connectionDictionary[B]` holds an entry whose
`connection` is `A`, and any two such entries have the same `blockIDs`. -/
theorem connectionDictionary_symmetric (collinearity : List CollinearityRecord)
    (index : IndexState) (hidx : indexCollinearity collinearity = some index)
    (A B : String) :
    ((∃ l e, index.connectionDictionary.get? A = some l ∧ e ∈ l ∧
        e.connection = B) ↔
     (∃ l e, index.connectionDictionary.get? B = some l ∧ e ∈ l ∧
        e.connection = A)) ∧
    (∀ l₁ l₂ e₁ e₂,
      index.connectionDictionary.get? A = some l₁ →
      index.connectionDictionary.get? B = some l₂ →
      e₁ ∈ l₁ → e₂ ∈ l₂ → e₁.connection = B → e₂.connection = A →
      e₁.blockIDs = e₂.blockIDs) := by
  have hix := indexCollinearity_eq_some _ _ hidx
  subst hix
  constructor
  · rw [exists_entry_iff, exists_entry_iff, rowsBetween_comm]
  · intro l₁ l₂ e₁ e₂ h₁ h₂ he₁ he₂ hB hA
    rw [← connectionsOf_of_get? h₁, mem_connectionsOf_iff, expectedEntry_eq_some_iff] at he₁
    rw [← connectionsOf_of_get? h₂, mem_connectionsOf_iff, expectedEntry_eq_some_iff] at he₂
    rw [he₁.2.1, he₂.2.1, hB, hA, rowsBetween_comm]

/-- The example of claim C2: the loop returns on the two example rows, and in their index
both `Chr1` and `Chr2` hold an entry for the other, with the same `blockIDs`. -/
theorem connectionDictionary_symmetric_witness :
    indexCollinearity [exampleRow "0", exampleRow "1"] = some exampleIndex ∧
    (∃ l e, exampleIndex.connectionDictionary.get? "Chr2" = some l ∧ e ∈ l ∧
      e.connection = "Chr1") ∧
    (∀ e₂ ∈ connectionsOf exampleIndex.connectionDictionary "Chr2",
      e₂.connection = "Chr1" → ["b1"] = e₂.blockIDs) :=
  ⟨by decide,
   (connectionDictionary_symmetric [exampleRow "0", exampleRow "1"] exampleIndex (by decide)
      "Chr1" "Chr2").1.mp
      ⟨[{ blockIDs := ["b1"], connection := "Chr2", connectionAmount := 2 }],
       { blockIDs := ["b1"], connection := "Chr2", connectionAmount := 2 },
       by decide, by decide, by decide⟩,
   fun e₂ he₂ hc =>
    (connectionDictionary_symmetric [exampleRow "0", exampleRow "1"] exampleIndex (by decide)
      "Chr1" "Chr2").2
      [{ blockIDs := ["b1"], connection := "Chr2", connectionAmount := 2 }]
      [{ blockIDs := ["b1"], connection := "Chr1", connectionAmount := 2 }]
      { blockIDs := ["b1"], connection := "Chr2", connectionAmount := 2 } e₂
      (by decide) (by decide) (by decide) he₂ (by decide) hc⟩

/-- Claim C3, refuted as stated: for the two example rows of block `b1` from `Chr1` to `Chr2`
the loop returns an index in which the entry of `Chr1` for `Chr2` has `blockIDs = [b1]` and
`connectionAmount = 2`, not `1`: the amount differs from the number of distinct blocks. -/
theorem connectionAmount_not_block_count :
    indexCollinearity [exampleRow "0", exampleRow "1"] = some exampleIndex ∧
    ∃ e, entryFor exampleIndex.connectionDictionary "Chr1" "Chr2" = some e ∧
      e.blockIDs = ["b1"] ∧ e.connectionAmount = 2 ∧ e.connectionAmount ≠ e.blockIDs.length :=
  ⟨by decide, { blockIDs := ["b1"], connection := "Chr2", connectionAmount := 2 },
    by decide, by decide, by decide, by decide⟩

/-- Claim C3, amended: in the index of a run of the loop that returns, for every entry of
`connectionDictionary[A]` whose `connection` is `B`, the number of its `blockIDs` is the
number of distinct blocks having a row between `A` and `B` in either direction, while
`connectionAmount` is the number of those rows (hence at least the number of blocks); the two
example rows give `connectionAmount = 2`, `blockIDs = [b1]`. -/
theorem connectionAmount_blockIDs (collinearity : List CollinearityRecord)
    (index : IndexState) (hidx : indexCollinearity collinearity = some index) (A B : String)
    (l : List ConnectionEntry) (e : ConnectionEntry)
    (hl : index.connectionDictionary.get? A = some l)
    (he : e ∈ l) (hB : e.connection = B) :
    e.blockIDs.length =
        ((rowsBetween A B collinearity).map (fun r => r.block)).toFinset.card ∧
    e.connectionAmount = (rowsBetween A B collinearity).length ∧
    e.blockIDs.length ≤ e.connectionAmount ∧
    (indexCollinearity [exampleRow "0", exampleRow "1"]).map
        (fun i => i.connectionDictionary.get? "Chr1") =
      some (some [{ blockIDs := ["b1"], connection := "Chr2", connectionAmount := 2 }]) := by
  have hix := indexCollinearity_eq_some _ _ hidx
  subst hix
  rw [← connectionsOf_of_get? hl, mem_connectionsOf_iff, expectedEntry_eq_some_iff, hB] at he
  obtain ⟨_, h1, _, h3⟩ := he
  have hlen : e.blockIDs.length =
      ((rowsBetween A B collinearity).map (fun r => r.block)).toFinset.card := by
    rw [h1, length_firstOccurrences]
  refine ⟨hlen, h3, ?_, by decide⟩
  rw [hlen, h3]
  calc ((rowsBetween A B collinearity).map (fun r => r.block)).toFinset.card
      ≤ ((rowsBetween A B collinearity).map (fun r => r.block)).length :=
        List.toFinset_card_le _
    _ = (rowsBetween A B collinearity).length := List.length_map _ _

/-- The amended claim C3 at the two example rows. -/
theorem connectionAmount_blockIDs_witness :
    indexCollinearity [exampleRow "0", exampleRow "1"] = some exampleIndex ∧
    (1 : Nat) = ((rowsBetween "Chr1" "Chr2" [exampleRow "0", exampleRow "1"]).map
        (fun r => r.block)).toFinset.card ∧
    (2 : Nat) = (rowsBetween "Chr1" "Chr2" [exampleRow "0", exampleRow "1"]).length :=
  have h := connectionAmount_blockIDs [exampleRow "0", exampleRow "1"] exampleIndex
    (by decide) "Chr1" "Chr2"
    [{ blockIDs := ["b1"], connection := "Chr2", connectionAmount := 2 }]
    { blockIDs := ["b1"], connection := "Chr2", connectionAmount := 2 }
    (by decide) (by decide) (by decide)
  ⟨by decide, h.1, h.2.1⟩

/-- Claim C4: for every collinearity input whose identifiers are ordinary names (for a name
inherited from `Object.prototype` the loop raises a `TypeError`) the loop of `generateData`
returns, and in its index, for every pair `A`, `B` (also `A = B`), an entry of `A` for `B`
exists as soon as a row connects the two, and its `connectionAmount` is the number of rows
whose source and target are `A` and `B` in either direction; for a self-pair this is the
number of rows from `A` to `A`, each counted once. -/
theorem connectionAmount_counts_rows (collinearity : List CollinearityRecord) (A B : String)
    (hnames : ∀ r ∈ collinearity, r.ordinary = true) :
    ∃ index, indexCollinearity collinearity = some index ∧
    (rowsBetween A B collinearity ≠ [] →
      ∃ l e, index.connectionDictionary.get? A = some l ∧ e ∈ l ∧ e.connection = B) ∧
    (∀ l e, index.connectionDictionary.get? A = some l → e ∈ l →
      e.connection = B →
      e.connectionAmount =
        (collinearity.filter (fun r =>
          (decide (r.sourceChromosome = A) && decide (r.targetChromosome = B)) ||
          (decide (r.sourceChromosome = B) && decide (r.targetChromosome = A)))).length) ∧
    (∀ l e, index.connectionDictionary.get? A = some l → e ∈ l →
      e.connection = A →
      e.connectionAmount =
        (collinearity.filter (fun r =>
          decide (r.sourceChromosome = A) && decide (r.targetChromosome = A))).length) := by
  refine ⟨indexRows collinearity, indexCollinearity_of_ordinary collinearity hnames,
    (exists_entry_iff collinearity A B).mpr, ?_, ?_⟩
  · intro l e hl he hB
    rw [← connectionsOf_of_get? hl, mem_connectionsOf_iff, expectedEntry_eq_some_iff, hB] at he
    exact he.2.2.2
  · intro l e hl he hA
    rw [← connectionsOf_of_get? hl, mem_connectionsOf_iff, expectedEntry_eq_some_iff, hA] at he
    rw [he.2.2.2]
    unfold rowsBetween
    congr 2
    funext r
    simp [connects]

/-- The claim C4 at two rows of block `b1` from `Chr1` to `Chr1`: the loop returns, `Chr1`
holds an entry for itself, and every such entry has the amount 2, one per row. -/
theorem connectionAmount_counts_rows_witness :
    (∀ r ∈ selfRows, r.ordinary = true) ∧
    ∃ index, indexCollinearity selfRows = some index ∧
      (∃ l e, index.connectionDictionary.get? "Chr1" = some l ∧ e ∈ l ∧
        e.connection = "Chr1") ∧
      (∀ l e, index.connectionDictionary.get? "Chr1" = some l → e ∈ l →
        e.connection = "Chr1" → e.connectionAmount = 2) :=
  ⟨by decide,
    match connectionAmount_counts_rows selfRows "Chr1" "Chr1" (by decide) with
    | ⟨index, hidx, h₁, _, h₃⟩ => ⟨index, hidx, h₁ (by decide), h₃⟩⟩

/-- Claim C5: for every collinearity input whose identifiers are ordinary names (for a name
inherited from `Object.prototype` the loop raises a `TypeError`) the loop of `generateData`
returns, and the block dictionary it has built has exactly one key per distinct block
identifier of the input, the entry list of a block `b` being the list of the input rows whose
block is `b`, in input order, each turned into an entry carrying the row's connection, gene
identifiers, chromosomes, score, e-values and flip flag; two rows of block `b1` give the
single key `b1` with two entries. -/
theorem blockDictionary_entries (collinearity : List CollinearityRecord)
    (hnames : ∀ r ∈ collinearity, r.ordinary = true) :
    ∃ index, indexCollinearity collinearity = some index ∧
    index.blockDictionary.keys.Nodup ∧
    (∀ b, b ∈ index.blockDictionary.keys ↔ ∃ r ∈ collinearity, r.block = b) ∧
    (∀ r ∈ collinearity, ∃ blk,
      index.blockDictionary.get? r.block = some blk ∧
      blk.entries = (collinearity.filter (fun x => decide (x.block = r.block))).map
        (fun x => { connection := x.connection
                    connectionSource := x.connectionSource
                    connectionTarget := x.connectionTarget
                    sourceChromosome := x.sourceChromosome
                    targetChromosome := x.targetChromosome
                    score := x.score
                    eValue := x.eValueBlock
                    eValueConnection := x.eValueConnection
                    isFlipped := x.isFlipped })) ∧
    (indexCollinearity [exampleRow "0", exampleRow "1"]).map (fun i => i.blockDictionary) =
      some [("b1", { entries := [toConnection (exampleRow "0"), toConnection (exampleRow "1")]
                     blockPositions := none })] := by
  refine ⟨indexRows collinearity, indexCollinearity_of_ordinary collinearity hnames,
    ?_, ?_, ?_, by decide⟩
  · rw [blockDictionary_keys]
    exact nodup_firstOccurrences _
  · intro b
    rw [blockDictionary_keys, mem_firstOccurrences]
    simp
  · intro r hr
    rw [blockDictionary_get?]
    have hne : collinearity.filter (fun x => decide (x.block = r.block)) ≠ [] := by
      intro h
      have : r ∈ collinearity.filter (fun x => decide (x.block = r.block)) := by
        simp [List.mem_filter, hr]
      rw [h] at this
      cases this
    simp only [hne, if_false]
    exact ⟨_, rfl, rfl⟩

/-- The claim C5 at the two example rows of block `b1`: the loop returns and the block
dictionary has the single key `b1`. -/
theorem blockDictionary_entries_witness :
    (∀ r ∈ [exampleRow "0", exampleRow "1"], r.ordinary = true) ∧
    ∃ index, indexCollinearity [exampleRow "0", exampleRow "1"] = some index ∧
      index.blockDictionary.keys.Nodup ∧
      (∀ b, b ∈ index.blockDictionary.keys ↔
        ∃ r ∈ [exampleRow "0", exampleRow "1"], r.block = b) :=
  ⟨by decide,
    match blockDictionary_entries [exampleRow "0", exampleRow "1"] (by decide) with
    | ⟨index, hidx, h₁, h₂, _⟩ => ⟨index, hidx, h₁, h₂⟩⟩

/-- The least start and the greatest end of the genes of a chromosome, from the folds. -/
theorem fold_min_max_spec (gff : List GffRecord) (c : String)
    (hrange : ∀ g ∈ gff, 0 ≤ g.start ∧ g.start ≤ MAX_SAFE_INTEGER ∧
      0 ≤ g.end_ ∧ g.end_ ≤ MAX_SAFE_INTEGER)
    (hc : ∃ g ∈ gff, g.chromosomeID = c) :
    genesOn c gff ≠ [] ∧
    (∃ g ∈ gff, g.chromosomeID = c ∧ g.start = foldMinStart (genesOn c gff)) ∧
    (∀ g ∈ gff, g.chromosomeID = c → foldMinStart (genesOn c gff) ≤ g.start) ∧
    (∃ g ∈ gff, g.chromosomeID = c ∧ g.end_ = foldMaxEnd (genesOn c gff)) ∧
    (∀ g ∈ gff, g.chromosomeID = c → g.end_ ≤ foldMaxEnd (genesOn c gff)) := by
  obtain ⟨g₀, hg₀, hg₀c⟩ := hc
  have hmem : ∀ g, g ∈ genesOn c gff ↔ g ∈ gff ∧ g.chromosomeID = c := by
    intro g
    simp [genesOn, List.mem_filter]
  have h₀ : g₀ ∈ genesOn c gff := (hmem g₀).mpr ⟨hg₀, hg₀c⟩
  refine ⟨List.ne_nil_of_mem h₀, ?_, ?_, ?_, ?_⟩
  · rcases foldl_min_mem (genesOn c gff) MAX_SAFE_INTEGER with h | ⟨g, hg, hgs⟩
    · refine ⟨g₀, hg₀, hg₀c, ?_⟩
      have h1 := foldl_min_le_mem (genesOn c gff) MAX_SAFE_INTEGER g₀ h₀
      have h2 := (hrange g₀ hg₀).2.1
      unfold foldMinStart
      rw [h] at h1 ⊢
      exact le_antisymm h2 h1
    · exact ⟨g, ((hmem g).mp hg).1, ((hmem g).mp hg).2, hgs⟩
  · intro g hg hgc
    exact foldl_min_le_mem _ _ g ((hmem g).mpr ⟨hg, hgc⟩)
  · rcases foldl_max_mem (genesOn c gff) 0 with h | ⟨g, hg, hgs⟩
    · refine ⟨g₀, hg₀, hg₀c, ?_⟩
      have h1 := mem_le_foldl_max (genesOn c gff) 0 g₀ h₀
      have h2 := (hrange g₀ hg₀).2.2.1
      unfold foldMaxEnd
      rw [h] at h1 ⊢
      exact le_antisymm h1 h2
    · exact ⟨g, ((hmem g).mp hg).1, ((hmem g).mp hg).2, hgs⟩
  · intro g hg hgc
    exact mem_le_foldl_max _ _ g ((hmem g).mpr ⟨hg, hgc⟩)

/-- The position index on ordinary names: for a gene input whose coordinates are
non-negative integers not above the maximum safe integer and a chromosome `c` occurring in
it whose name is not inherited from `Object.prototype`, the position index built by the loop
of `generateData`, and any dictionary `generateData` hands to `setGffDictionary`, has an
entry for `c` whose start is the least start and whose end is the greatest end of the gene
records on `c`; the example genes give `Chr1` the range 10 to 200. -/
theorem positionIndex_of_ordinary (gff : List GffRecord) (c : String)
    (hrange : ∀ g ∈ gff, 0 ≤ g.start ∧ g.start ≤ MAX_SAFE_INTEGER ∧
      0 ≤ g.end_ ∧ g.end_ ≤ MAX_SAFE_INTEGER)
    (hc : ∃ g ∈ gff, g.chromosomeID = c) (hname : c ∉ objectPrototypeNames) :
    (∃ e, (indexGenes gff).gffPositionDictionary.get? c = some e ∧
      (∃ g ∈ gff, g.chromosomeID = c ∧ g.start = e.start) ∧
      (∀ g ∈ gff, g.chromosomeID = c → e.start ≤ g.start) ∧
      (∃ g ∈ gff, g.chromosomeID = c ∧ g.end_ = e.end_) ∧
      (∀ g ∈ gff, g.chromosomeID = c → g.end_ ≤ e.end_)) ∧
    (∀ env collinearity additionalTrack d,
      Effect.setGffDictionary d ∈
        (generateData env (some gff) (some collinearity) additionalTrack).trace →
      ∃ e, d.get? c = some e ∧
        (∃ g ∈ gff, g.chromosomeID = c ∧ g.start = e.start) ∧
        (∀ g ∈ gff, g.chromosomeID = c → e.start ≤ g.start) ∧
        (∃ g ∈ gff, g.chromosomeID = c ∧ g.end_ = e.end_) ∧
        (∀ g ∈ gff, g.chromosomeID = c → g.end_ ≤ e.end_)) ∧
    (indexGenes exampleGenes).gffPositionDictionary =
      [("Chr1", { start := 10, end_ := 200, color := none, tag := none })] := by
  obtain ⟨hne, hmin, hle, hmax, hge⟩ := fold_min_max_spec gff c hrange hc
  have hget := (indexGenes_get? gff c).2.2
  simp only [hne, hname, or_self, if_false] at hget
  refine ⟨⟨_, hget, hmin, hle, hmax, hge⟩, ?_, by decide⟩
  intro env collinearity additionalTrack d hd
  have hr := setGffDictionary_mem_trace env gff collinearity additionalTrack d hd c
  rw [hget] at hr
  cases hdc : d.get? c with
  | none => simp [hdc] at hr
  | some e =>
    simp only [hdc, Option.map_some', Option.some.injEq, ChromosomeEntry.range,
      Prod.mk.injEq] at hr
    refine ⟨e, rfl, ?_, ?_, ?_, ?_⟩
    · rw [hr.1]; exact hmin
    · rw [hr.1]; exact hle
    · rw [hr.2]; exact hmax
    · rw [hr.2]; exact hge

/-- Claim C6 at a chromosome called `constructor`: the gene input `inheritedNameGenes` has
coordinates in the safe range and a gene (10 to 50) on the chromosome `constructor`, and
the position index built by the loop of `generateData` has no entry for that chromosome,
hence neither its least start nor its greatest end: the test `in` of lines 135, 145 and 155
is true for the inherited name and no entry is created.  The chromosome `Chr1` of the same
input has its entry. -/
theorem positionIndex_no_entry_for_inherited_name :
    (∀ g ∈ inheritedNameGenes, 0 ≤ g.start ∧ g.start ≤ MAX_SAFE_INTEGER ∧
      0 ≤ g.end_ ∧ g.end_ ≤ MAX_SAFE_INTEGER) ∧
    (∃ g ∈ inheritedNameGenes, g.chromosomeID = "constructor") ∧
    (indexGenes inheritedNameGenes).gffPositionDictionary.get? "constructor" = none ∧
    (indexGenes inheritedNameGenes).gffPositionDictionary.get? "Chr1" =
      some { start := 100, end_ := 200, color := none, tag := none } := by
  decide

/-- Claim C7, refuted as stated: with the example genes and a block referring to the absent
gene `gX`, `lookForBlocksPositions` fails for block `b1`, and yet the run of `generateData`
has set the gene dictionary, the position dictionary and the current and default chromosome
orders (only the block dictionary is not set). -/
theorem generateData_commits_before_aggregation :
    (indexGenes exampleGenes).geneDictionary.get? "gX" = none ∧
    (indexCollinearity incompatibleRows).map
      (fun i => lookForBlocksPositions i.blockDictionary
        (indexGenes exampleGenes).geneDictionary "b1") = some none ∧
    (generateData exampleCollaborators (some exampleGenes) (some incompatibleRows) none).trace =
      [Effect.resetAllVariables,
       Effect.setGeneDictionary
         [("g1", { start := 10, end_ := 50 }), ("g2", { start := 100, end_ := 200 })],
       Effect.setGenomeWindowSize 200,
       Effect.setGffDictionary
         [("Chr1", { start := 10, end_ := 200, color := some "#8dd3c7", tag := some "All" })],
       Effect.setCurrentChromosomeOrder ["Chr1"],
       Effect.setDefaultChromosomeOrder ["Chr1"],
       Effect.renderReactAlert incompatibleMessage "danger" 15000] := by
  decide

/-- Claim C7, amended: if the collinearity loop has returned and the aggregation of the
blocks fails (`lookForBlocksPositions` raises for some block), the run of `generateData`
does not set the block dictionary and does not generate the genome view, while the gene
dictionary, the chromosome position dictionary and the current and default chromosome orders
have been set by that call, before the blocks were aggregated. -/
theorem generateData_failure_state (env : Collaborators) (gff : List GffRecord)
    (collinearity : List CollinearityRecord) (additionalTrack : Option (List String))
    (gffKeys : List String) (totalChrEnd : Int) (tagged : Dict ChromosomeEntry)
    (index : IndexState)
    (hpre : colorChromosomes env (indexGenes gff).gffPositionDictionary =
      some (gffKeys, totalChrEnd, tagged))
    (hidx : indexCollinearity collinearity = some index)
    (hfail : (aggregation env gff index).failed = true) :
    (∀ d, Effect.setBlockDictionary d ∉
      (generateData env (some gff) (some collinearity) additionalTrack).trace) ∧
    Effect.generateGenomeView ∉
      (generateData env (some gff) (some collinearity) additionalTrack).trace ∧
    Effect.setGeneDictionary (indexGenes gff).geneDictionary ∈
      (generateData env (some gff) (some collinearity) additionalTrack).trace ∧
    Effect.setGffDictionary tagged ∈
      (generateData env (some gff) (some collinearity) additionalTrack).trace ∧
    Effect.setCurrentChromosomeOrder gffKeys ∈
      (generateData env (some gff) (some collinearity) additionalTrack).trace ∧
    Effect.setDefaultChromosomeOrder gffKeys ∈
      (generateData env (some gff) (some collinearity) additionalTrack).trace := by
  rw [generateData_of_failed env gff collinearity additionalTrack _ _ _ _ hpre hidx hfail]
  cases additionalTrack <;> simp [commitChromosomes]

/-- The amended claim C7 at the example genes and the block referring to the absent gene. -/
theorem generateData_failure_state_witness :
    colorChromosomes exampleCollaborators (indexGenes exampleGenes).gffPositionDictionary =
      some (["Chr1"], 200,
        [("Chr1", { start := 10, end_ := 200, color := some "#8dd3c7", tag := some "All" })]) ∧
    indexCollinearity incompatibleRows = some (indexRows incompatibleRows) ∧
    (aggregation exampleCollaborators exampleGenes (indexRows incompatibleRows)).failed =
      true ∧
    (∀ d, Effect.setBlockDictionary d ∉
      (generateData exampleCollaborators (some exampleGenes) (some incompatibleRows)
        none).trace) ∧
    Effect.setCurrentChromosomeOrder ["Chr1"] ∈
      (generateData exampleCollaborators (some exampleGenes) (some incompatibleRows)
        none).trace :=
  have h := generateData_failure_state exampleCollaborators exampleGenes incompatibleRows none
    ["Chr1"] 200
    [("Chr1", { start := 10, end_ := 200, color := some "#8dd3c7", tag := some "All" })]
    (indexRows incompatibleRows)
    (by decide) (by decide)
    ((aggregation_failed_iff exampleCollaborators exampleGenes incompatibleRows _ rfl
      (by decide)).mpr
      ⟨_, List.mem_singleton.mpr rfl, Or.inl (by decide)⟩)
  ⟨by decide, by decide, by decide, h.1, h.2.2.2.2.1⟩

/-- Claim C8: when the run reaches the aggregation of the blocks (the collinearity loop has
returned) and `lookForBlocksPositions` fails for a block, `generateData` raises exactly one
alert, which is its last effect, and returns: the block dictionary is not set, the genome
view is not generated, and the blocks from the failing one on are not aggregated; when it
succeeds for every block, no alert is raised and the block dictionary is set with
`blockPositions` attached to every block, the entries of the blocks being unchanged. -/
theorem generateData_alert_or_blockDictionary (env : Collaborators) (gff : List GffRecord)
    (collinearity : List CollinearityRecord) (additionalTrack : Option (List String))
    (gffKeys : List String) (totalChrEnd : Int) (tagged : Dict ChromosomeEntry)
    (index : IndexState)
    (hpre : colorChromosomes env (indexGenes gff).gffPositionDictionary =
      some (gffKeys, totalChrEnd, tagged))
    (hidx : indexCollinearity collinearity = some index) :
    ((aggregation env gff index).failed = true →
      ((generateData env (some gff) (some collinearity) additionalTrack).trace.filter
        Effect.isAlert).length = 1 ∧
      (generateData env (some gff) (some collinearity) additionalTrack).trace.getLast? =
        some (Effect.renderReactAlert incompatibleMessage "danger" 15000) ∧
      (generateData env (some gff) (some collinearity) additionalTrack).threw = false ∧
      (∀ d, Effect.setBlockDictionary d ∉
        (generateData env (some gff) (some collinearity) additionalTrack).trace) ∧
      Effect.generateGenomeView ∉
        (generateData env (some gff) (some collinearity) additionalTrack).trace ∧
      ∃ done k rest,
        index.blockDictionary.objectKeys = done ++ k :: rest ∧
        (aggregateBlocks env.lookForBlocksPositions (indexGenes gff).geneDictionary done 0
          index.blockDictionary).failed = false ∧
        ((aggregateBlocks env.lookForBlocksPositions (indexGenes gff).geneDictionary done 0
            index.blockDictionary).blockDictionary.get? k = none ∨
          env.lookForBlocksPositions
            (aggregateBlocks env.lookForBlocksPositions (indexGenes gff).geneDictionary done 0
              index.blockDictionary).blockDictionary
            (indexGenes gff).geneDictionary k = none) ∧
        (aggregation env gff index).blockDictionary =
          (aggregateBlocks env.lookForBlocksPositions (indexGenes gff).geneDictionary done 0
            index.blockDictionary).blockDictionary) ∧
    ((aggregation env gff index).failed = false →
      (generateData env (some gff) (some collinearity) additionalTrack).trace.filter
        Effect.isAlert = [] ∧
      (generateData env (some gff) (some collinearity) additionalTrack).trace.filter
        Effect.isSetBlockDictionary =
        [Effect.setBlockDictionary (aggregation env gff index).blockDictionary] ∧
      ∀ k ∈ index.blockDictionary.keys, ∃ blk,
        (aggregation env gff index).blockDictionary.get? k = some blk ∧
        blk.blockPositions.isSome = true ∧
        some blk.entries =
          (index.blockDictionary.get? k).map
            (fun b => b.entries)) := by
  constructor
  · intro hfail
    rw [generateData_of_failed env gff collinearity additionalTrack _ _ _ _ hpre hidx hfail]
    refine ⟨?_, ?_, rfl, ?_, ?_, aggregateBlocks_failed_split _ _ _ _ _ hfail⟩
    · cases additionalTrack <;> simp [commitChromosomes, Effect.isAlert]
    · cases additionalTrack <;> simp [commitChromosomes]
    · cases additionalTrack <;> simp [commitChromosomes]
    · cases additionalTrack <;> simp [commitChromosomes]
  · intro hok
    rw [generateData_of_succeeded env gff collinearity additionalTrack _ _ _ _ hpre hidx hok]
    refine ⟨?_, ?_, ?_⟩
    · cases additionalTrack <;> simp [commitChromosomes, Effect.isAlert]
    · cases additionalTrack <;> simp [commitChromosomes, Effect.isSetBlockDictionary]
    · intro k hk
      obtain ⟨blk, hblk, hpos⟩ := aggregateBlocks_positions env.lookForBlocksPositions
        (indexGenes gff).geneDictionary _ 0 _ hok k
        (Or.inl ((Dict.mem_objectKeys _ k).mpr hk))
      refine ⟨blk, hblk, hpos, ?_⟩
      have he := aggregateBlocks_entries env.lookForBlocksPositions
        (indexGenes gff).geneDictionary
        index.blockDictionary.objectKeys 0
        index.blockDictionary k
      rw [hblk] at he
      rw [← he]
      rfl

/-- The claim C8 at the example genes: the block referring to the absent gene gives one alert
and no block dictionary, the compatible block gives a block dictionary with positions. -/
theorem generateData_alert_or_blockDictionary_witness :
    colorChromosomes exampleCollaborators (indexGenes exampleGenes).gffPositionDictionary =
      some (["Chr1"], 200,
        [("Chr1", { start := 10, end_ := 200, color := some "#8dd3c7", tag := some "All" })]) ∧
    indexCollinearity incompatibleRows = some (indexRows incompatibleRows) ∧
    indexCollinearity compatibleRows = some (indexRows compatibleRows) ∧
    ((generateData exampleCollaborators (some exampleGenes) (some incompatibleRows)
        none).trace.filter Effect.isAlert).length = 1 ∧
    (generateData exampleCollaborators (some exampleGenes) (some compatibleRows)
        none).trace.filter Effect.isSetBlockDictionary =
      [Effect.setBlockDictionary
        (aggregation exampleCollaborators exampleGenes
          (indexRows compatibleRows)).blockDictionary] :=
  ⟨by decide, by decide, by decide,
   ((generateData_alert_or_blockDictionary exampleCollaborators exampleGenes incompatibleRows
      none ["Chr1"] 200
      [("Chr1", { start := 10, end_ := 200, color := some "#8dd3c7", tag := some "All" })]
      (indexRows incompatibleRows) (by decide) (by decide)).1 (by decide)).1,
   ((generateData_alert_or_blockDictionary exampleCollaborators exampleGenes compatibleRows
      none ["Chr1"] 200
      [("Chr1", { start := 10, end_ := 200, color := some "#8dd3c7", tag := some "All" })]
      (indexRows compatibleRows) (by decide) (by decide)).2 (by decide)).2.1⟩

/-- Claim C1: in a well-formed view state `generatePathGenomeView` returns, and it emits a
chord for block `b` if and only if `b` is a block of `blockKeys` such that, `s` and `t` being
the source and target resolved from the first entry of `b`, (i) when exactly one chromosome
is selected and show-all is true `s` or `t` is selected, and in every other case both are,
and (ii) under `At Least` the number of entries of `b` is at least the threshold, under
`At Most` at most the threshold. -/
theorem chord_emitted_iff (fix : Connection → SourceTarget) (st : ViewState)
    (hwf : st.WellFormed) :
    ∃ out, generatePathGenomeView fix st = some out ∧
      ∀ b, (∃ c ∈ out.dataChords, c.source.value.id = b) ↔
        (b ∈ st.blockKeys ∧ ∃ blk first,
          st.blockDictionary.get? b = some blk ∧ blk.entries.head? = some first ∧
          (if st.selectedCheckbox.length = 1 ∧ st.showAllChromosomes = true then
             (fix first).source ∈ st.selectedCheckbox ∨ (fix first).target ∈ st.selectedCheckbox
           else
             (fix first).source ∈ st.selectedCheckbox ∧
             (fix first).target ∈ st.selectedCheckbox) ∧
          ((st.filterSelect = "At Least" ∧ (blk.entries.length : Int) ≥ st.filterValue) ∨
           (st.filterSelect = "At Most" ∧ (blk.entries.length : Int) ≤ st.filterValue))) := by
  obtain ⟨out, hout, hmem⟩ := generatePathGenomeView_spec fix st hwf
  refine ⟨out, hout, ?_⟩
  intro b
  constructor
  · rintro ⟨c, hc, hid⟩
    obtain ⟨k, hk, hd⟩ := (hmem c).mp hc
    obtain ⟨blk, first, bp, sp, tp, hb, hf, _, hi, hfc, _, _, hceq⟩ :=
      deriveChord_some fix st k c hd
    have hkb : k = b := by rw [← hid, hceq]
    subst hkb
    exact ⟨hk, blk, first, hb, hf, (inclusion_iff st _ _).mp hi,
      (filterCondition_iff st _).mp hfc⟩
  · rintro ⟨hk, blk, first, hb, hf, hi, hfc⟩
    obtain ⟨c, hd, hid⟩ := deriveChord_of_pass fix st hwf b hk blk first hb hf
      ((inclusion_iff st _ _).mpr hi) ((filterCondition_iff st _).mpr hfc)
    exact ⟨c, (hmem c).mpr ⟨b, hk, hd⟩, hid⟩

/-- The claim C1 at the example view with `Chr1` alone selected and show-all on: the block
`b1` from `Chr1` to `Chr2` is emitted. -/
theorem chord_emitted_iff_witness :
    (exampleView ["Chr1"] [] true "At Least" 1).WellFormed ∧
    ∃ out, generatePathGenomeView fixSourceTargetCollinearity
        (exampleView ["Chr1"] [] true "At Least" 1) = some out ∧
      ∃ c ∈ out.dataChords, c.source.value.id = "b1" :=
  ⟨⟨by decide, by decide⟩,
    match chord_emitted_iff fixSourceTargetCollinearity
        (exampleView ["Chr1"] [] true "At Least" 1) ⟨by decide, by decide⟩ with
    | ⟨out, hout, h⟩ =>
      ⟨out, hout, (h "b1").mpr ⟨by decide, _, _, rfl, rfl, by decide, by decide⟩⟩⟩

/-- Claim C9, refuted as stated: in `largeView` the chromosome `Chr1` ends at
9007199254740994 and is flipped, and block `b1` has the source range 1 to 3; the chord
emitted has the source end 9007199254740992, the difference of doubles, and not
9007199254740994 - 1 = 9007199254740993. -/
theorem chord_end_is_rounded :
    largeView.WellFormed ∧
    generatePathGenomeView fixSourceTargetCollinearity largeView =
      some { dataChords :=
               [{ source := { id := "Chr1", start := 9007199254740991,
                              end_ := 9007199254740992
                              value := { id := "b1", length := 2 } }
                  target := { id := "Chr2", start := 1, end_ := 13 } }]
             foundCurrentSelectedBlock := false } ∧
    (9007199254740992 : Int) ≠ 9007199254740994 - 1 :=
  ⟨⟨by decide, by decide⟩, by decide, by decide⟩

/-- Claim C9, amended: in a well-formed view state whose chromosome ends and block
aggregates are integers from 0 to the maximum safe integer, `generatePathGenomeView`
returns, and every chord it emits for a block with aggregates `minSource`, `maxSource`,
`minTarget`, `maxTarget` has, on the source side, start `end(source) - maxSource` and end
`end(source) - minSource` when the source chromosome is flipped and start `minSource`, end
`maxSource` otherwise; the same holds independently on the target side. -/
theorem chord_positions (fix : Connection → SourceTarget) (st : ViewState)
    (hwf : st.WellFormed) (hsafe : st.safeCoordinates = true) :
    ∃ out, generatePathGenomeView fix st = some out ∧
      ∀ c ∈ out.dataChords, ∃ blk bp,
        st.blockDictionary.get? c.source.value.id = some blk ∧
        blk.blockPositions = some bp ∧
        (if c.source.id ∈ st.currentFlippedChromosomes then
           ∃ e, st.gffPositionDictionary.get? c.source.id = some e ∧
             c.source.start = e.end_ - bp.maxSource ∧ c.source.end_ = e.end_ - bp.minSource
         else c.source.start = bp.minSource ∧ c.source.end_ = bp.maxSource) ∧
        (if c.target.id ∈ st.currentFlippedChromosomes then
           ∃ e, st.gffPositionDictionary.get? c.target.id = some e ∧
             c.target.start = e.end_ - bp.maxTarget ∧ c.target.end_ = e.end_ - bp.minTarget
         else c.target.start = bp.minTarget ∧ c.target.end_ = bp.maxTarget) := by
  obtain ⟨out, hout, hmem⟩ := generatePathGenomeView_spec fix st hwf
  refine ⟨out, hout, ?_⟩
  intro c hc
  obtain ⟨k, _, hd⟩ := (hmem c).mp hc
  obtain ⟨blk, first, bp, sp, tp, hb, _, hp, _, _, hsp, htp, hceq⟩ :=
    deriveChord_some fix st k c hd
  have hs := displayPositions_some st _ _ _ hsp
  have ht := displayPositions_some st _ _ _ htp
  obtain ⟨hbp, hgff⟩ := safeCoordinates_spec st hsafe
  obtain ⟨h₁, h₂, h₃, h₄⟩ := hbp k blk bp hb hp
  subst hceq
  refine ⟨blk, bp, hb, hp, ?_, ?_⟩
  · by_cases hfl : (fix first).source ∈ st.currentFlippedChromosomes
    · simp only [hfl, if_true] at hs ⊢
      obtain ⟨e, he, hq⟩ := hs
      refine ⟨e, he, ?_, ?_⟩
      · rw [hq]
        exact roundDouble_sub _ _ (hgff _ e he) h₂
      · rw [hq]
        exact roundDouble_sub _ _ (hgff _ e he) h₁
    · simp only [hfl, if_false] at hs ⊢
      rw [hs]
      exact ⟨rfl, rfl⟩
  · by_cases hfl : (fix first).target ∈ st.currentFlippedChromosomes
    · simp only [hfl, if_true] at ht ⊢
      obtain ⟨e, he, hq⟩ := ht
      refine ⟨e, he, ?_, ?_⟩
      · rw [hq]
        exact roundDouble_sub _ _ (hgff _ e he) h₄
      · rw [hq]
        exact roundDouble_sub _ _ (hgff _ e he) h₃
    · simp only [hfl, if_false] at ht ⊢
      rw [ht]
      exact ⟨rfl, rfl⟩

/-- The amended claim C9 at the block of the source comment (source 20-28, target 1-13,
chromosome end 28) with `Chr1` flipped: the source range becomes 0-8, the target range stays
1-13. -/
theorem chord_positions_witness :
    (exampleView ["Chr1", "Chr2"] ["Chr1"] true "At Least" 1).WellFormed ∧
    (exampleView ["Chr1", "Chr2"] ["Chr1"] true "At Least" 1).safeCoordinates = true ∧
    generatePathGenomeView fixSourceTargetCollinearity
        (exampleView ["Chr1", "Chr2"] ["Chr1"] true "At Least" 1) =
      some { dataChords :=
               [{ source := { id := "Chr1", start := 0, end_ := 8
                              value := { id := "b1", length := 2 } }
                  target := { id := "Chr2", start := 1, end_ := 13 } }]
             foundCurrentSelectedBlock := false } ∧
    ∃ out, generatePathGenomeView fixSourceTargetCollinearity
        (exampleView ["Chr1", "Chr2"] ["Chr1"] true "At Least" 1) = some out ∧
      ∀ c ∈ out.dataChords, ∃ blk bp,
        (exampleView ["Chr1", "Chr2"] ["Chr1"] true "At Least" 1).blockDictionary.get?
          c.source.value.id = some blk ∧ blk.blockPositions = some bp :=
  ⟨⟨by decide, by decide⟩, by decide, by decide,
    match chord_positions fixSourceTargetCollinearity
        (exampleView ["Chr1", "Chr2"] ["Chr1"] true "At Least" 1) ⟨by decide, by decide⟩
        (by decide) with
    | ⟨out, hout, h⟩ =>
      ⟨out, hout, fun c hc =>
        match h c hc with
        | ⟨blk, bp, h1, h2, _⟩ => ⟨blk, bp, h1, h2⟩⟩⟩

/-- Claim C10, refuted as stated: on a chromosome ending at 9007199254740994 the range 1 to
3 is mirrored to 9007199254740991 to 9007199254740992 (the end is a rounded difference), and
mirroring that range again gives 2 to 3, not 1 to 3. -/
theorem flipPositions_twice_changes_range :
    flipPositions 9007199254740994 { start := 1, end_ := 3 } =
      { start := 9007199254740991, end_ := 9007199254740992 } ∧
    flipPositions 9007199254740994
        (flipPositions 9007199254740994 { start := 1, end_ := 3 }) =
      { start := 2, end_ := 3 } ∧
    flipPositions 9007199254740994
        (flipPositions 9007199254740994 { start := 1, end_ := 3 }) ≠
      { start := 1, end_ := 3 } := by
  decide

/-- Claim C10, amended: for every chromosome end `E` and every integer range whose start and
end, and whose distances `E - start` and `E - end`, are safe integers (of magnitude at most
`2^53 - 1`), applying the mirror formula `newStart = E - end`, `newEnd = E - start` twice
returns the original range. -/
theorem flipPositions_flipPositions (E : Int) (p : Positions)
    (hs : safeInteger p.start = true) (he : safeInteger p.end_ = true)
    (hEs : safeInteger (E - p.start) = true) (hEe : safeInteger (E - p.end_) = true) :
    flipPositions E (flipPositions E p) = p := by
  cases p with
  | mk start end_ =>
    simp only [flipPositions, Positions.mk.injEq] at hs he hEs hEe ⊢
    rw [roundDouble_of_safe _ hEs, roundDouble_of_safe _ hEe]
    have h₁ : E - (E - start) = start := by omega
    have h₂ : E - (E - end_) = end_ := by omega
    rw [h₁, h₂, roundDouble_of_safe _ hs, roundDouble_of_safe _ he]
    exact ⟨rfl, rfl⟩

/-- The amended claim C10 at the range of the source comment: 20 to 28 on a chromosome
ending at 28 is mirrored to 0 to 8 and back. -/
theorem flipPositions_flipPositions_witness :
    safeInteger 20 = true ∧ safeInteger 28 = true ∧ safeInteger (28 - 20) = true ∧
    safeInteger (28 - 28) = true ∧
    flipPositions 28 { start := 20, end_ := 28 } = { start := 0, end_ := 8 } ∧
    flipPositions 28 (flipPositions 28 { start := 20, end_ := 28 }) =
      { start := 20, end_ := 28 } :=
  ⟨by decide, by decide, by decide, by decide, by decide,
    flipPositions_flipPositions 28 { start := 20, end_ := 28 } (by decide) (by decide)
      (by decide) (by decide)⟩

/-! ## The chords as a list -/

theorem mem_unvisitedKeys (keys visited : List String) (k : String)
    (h : k ∈ unvisitedKeys keys visited) : k ∈ keys ∧ k ∉ visited := by
  induction keys generalizing visited with
  | nil => simp [unvisitedKeys] at h
  | cons a ks ih =>
    by_cases ha : a ∈ visited
    · simp only [unvisitedKeys, ha, if_true] at h
      exact ⟨List.mem_cons_of_mem _ (ih _ h).1, (ih _ h).2⟩
    · simp only [unvisitedKeys, ha, if_false, List.mem_cons] at h
      rcases h with rfl | h
      · exact ⟨List.mem_cons_self _ _, ha⟩
      · exact ⟨List.mem_cons_of_mem _ (ih _ h).1,
          fun hin => (ih _ h).2 (List.mem_cons_of_mem _ hin)⟩

/-- The chords the loop adds are those of the unvisited keys, in the order of the keys. -/
theorem chordLoop_dataChords (fix : Connection → SourceTarget) (st : ViewState)
    (keys visited : List String) (acc : PathResult)
    (h : ∀ k ∈ keys, ∃ r, deriveChord fix st k = some r) :
    ∃ out, chordLoop fix st keys visited acc = some out ∧
      out.dataChords = acc.dataChords ++ (unvisitedKeys keys visited).filterMap (chordOf fix st) := by
  induction keys generalizing visited acc with
  | nil => exact ⟨acc, rfl, by simp [unvisitedKeys]⟩
  | cons k ks ih =>
    have hks : ∀ k' ∈ ks, ∃ r, deriveChord fix st k' = some r :=
      fun k' hk' => h k' (List.mem_cons_of_mem _ hk')
    by_cases hv : k ∈ visited
    · obtain ⟨out, hout, hd⟩ := ih visited acc hks
      exact ⟨out, by simp [chordLoop, hv, hout], by simp [unvisitedKeys, hv, hd]⟩
    · obtain ⟨r, hr⟩ := h k (List.mem_cons_self _ _)
      cases r with
      | none =>
        obtain ⟨out, hout, hd⟩ := ih (k :: visited) acc hks
        refine ⟨out, by simp [chordLoop, hv, hr, hout], ?_⟩
        simp [unvisitedKeys, hv, hd, chordOf, hr]
      | some chord =>
        obtain ⟨out, hout, hd⟩ := ih (k :: visited)
          { dataChords := acc.dataChords ++ [chord]
            foundCurrentSelectedBlock :=
              if some chord = st.currentSelectedBlock then true
              else acc.foundCurrentSelectedBlock } hks
        refine ⟨out, by simp only [chordLoop, hv, hr, ↓reduceIte]; exact hout, ?_⟩
        simp [unvisitedKeys, hv, hd, chordOf, hr]

/-- In a well-formed state the chords are those of the keys of `blockKeys`, each key at its
first occurrence, in the order of `blockKeys`. -/
theorem generatePathGenomeView_dataChords (fix : Connection → SourceTarget) (st : ViewState)
    (hwf : st.WellFormed) :
    ∃ out, generatePathGenomeView fix st = some out ∧
      out.dataChords = (unvisitedKeys st.blockKeys []).filterMap (chordOf fix st) := by
  obtain ⟨out, hout, hd⟩ := chordLoop_dataChords fix st st.blockKeys []
    { dataChords := [], foundCurrentSelectedBlock := false }
    (fun k hk => deriveChord_isSome fix st hwf k hk)
  exact ⟨out, hout, by simpa using hd⟩

theorem length_filterMap_le_of_imp {α β γ : Type} (f : α → Option β) (g : α → Option γ)
    (l : List α) (h : ∀ x ∈ l, (f x).isSome = true → (g x).isSome = true) :
    (l.filterMap f).length ≤ (l.filterMap g).length := by
  induction l with
  | nil => simp
  | cons a l ih =>
    have ih' := ih (fun x hx => h x (List.mem_cons_of_mem _ hx))
    have ha := h a (List.mem_cons_self _ _)
    cases hf : f a with
    | none =>
      cases hg : g a with
      | none => simpa [List.filterMap_cons, hf, hg] using ih'
      | some c =>
        simp only [List.filterMap_cons, hf, hg, List.length_cons]
        omega
    | some b =>
      rw [hf] at ha
      cases hg : g a with
      | none => rw [hg] at ha; simp at ha
      | some c =>
        simp only [List.filterMap_cons, hf, hg, List.length_cons]
        omega

theorem chordOf_isSome_iff (fix : Connection → SourceTarget) (st : ViewState)
    (hwf : st.WellFormed) (k : String) (hk : k ∈ st.blockKeys) :
    (chordOf fix st k).isSome = true ↔
      ∃ b first, st.blockDictionary.get? k = some b ∧ b.entries.head? = some first ∧
        inclusion st (fix first).source (fix first).target = true ∧
        filterCondition st b.entries.length = true := by
  constructor
  · intro h
    cases hc : chordOf fix st k with
    | none => rw [hc] at h; simp at h
    | some c =>
      have hd : deriveChord fix st k = some (some c) := by
        unfold chordOf at hc
        cases hd : deriveChord fix st k with
        | none => rw [hd] at hc; simp at hc
        | some r =>
          rw [hd] at hc
          simp only [Option.join, Option.some_bind, id] at hc
          rw [hc]
      obtain ⟨b, first, _, _, _, hb, hf, _, hi, hfc, _⟩ := deriveChord_some fix st k c hd
      exact ⟨b, first, hb, hf, hi, hfc⟩
  · rintro ⟨b, first, hb, hf, hi, hfc⟩
    obtain ⟨c, hd, _⟩ := deriveChord_of_pass fix st hwf k hk b first hb hf hi hfc
    simp [chordOf, hd]

theorem wellFormed_filter (st : ViewState) (filterSelect : String) (filterValue : Int)
    (h : st.WellFormed) :
    ViewState.WellFormed
      { st with filterSelect := filterSelect, filterValue := filterValue } := h

/-- Changing the filter to one that lets through at least the same block sizes does not
lower the number of chords. -/
theorem dataChords_length_le_of_filter (fix : Connection → SourceTarget) (st : ViewState)
    (hwf : st.WellFormed) (sel₁ sel₂ : String) (v₁ v₂ : Int)
    (himp : ∀ n : Nat,
      filterCondition { st with filterSelect := sel₁, filterValue := v₁ } n = true →
      filterCondition { st with filterSelect := sel₂, filterValue := v₂ } n = true) :
    ∃ out₁ out₂,
      generatePathGenomeView fix { st with filterSelect := sel₁, filterValue := v₁ } =
        some out₁ ∧
      generatePathGenomeView fix { st with filterSelect := sel₂, filterValue := v₂ } =
        some out₂ ∧
      out₁.dataChords.length ≤ out₂.dataChords.length := by
  have hwf₁ := wellFormed_filter st sel₁ v₁ hwf
  have hwf₂ := wellFormed_filter st sel₂ v₂ hwf
  obtain ⟨out₁, h₁, hd₁⟩ := generatePathGenomeView_dataChords fix _ hwf₁
  obtain ⟨out₂, h₂, hd₂⟩ := generatePathGenomeView_dataChords fix _ hwf₂
  refine ⟨out₁, out₂, h₁, h₂, ?_⟩
  rw [hd₁, hd₂]
  apply length_filterMap_le_of_imp
  intro k hk hsome
  have hkm : k ∈ st.blockKeys := (mem_unvisitedKeys _ _ k hk).1
  obtain ⟨b, first, hb, hf, hi, hfc⟩ := (chordOf_isSome_iff fix _ hwf₁ k hkm).mp hsome
  exact (chordOf_isSome_iff fix _ hwf₂ k hkm).mpr ⟨b, first, hb, hf, hi, himp _ hfc⟩

/-- Claim C11: for a fixed well-formed state (dataset, selection, show-all flag, flipped set)
and thresholds `N ≤ M`, under `At Least` the number of chords emitted with threshold `M` is
at most the number emitted with threshold `N`, and under `At Most` the number emitted with
threshold `N` is at most the number emitted with threshold `M`. -/
theorem chord_count_monotone (fix : Connection → SourceTarget) (st : ViewState)
    (hwf : st.WellFormed) (N M : Int) (hNM : N ≤ M) :
    (∃ outN outM,
      generatePathGenomeView fix { st with filterSelect := "At Least", filterValue := N } =
        some outN ∧
      generatePathGenomeView fix { st with filterSelect := "At Least", filterValue := M } =
        some outM ∧
      outM.dataChords.length ≤ outN.dataChords.length) ∧
    (∃ outN outM,
      generatePathGenomeView fix { st with filterSelect := "At Most", filterValue := N } =
        some outN ∧
      generatePathGenomeView fix { st with filterSelect := "At Most", filterValue := M } =
        some outM ∧
      outN.dataChords.length ≤ outM.dataChords.length) := by
  constructor
  · obtain ⟨outM, outN, hM, hN, hle⟩ :=
      dataChords_length_le_of_filter fix st hwf "At Least" "At Least" M N (by
        intro n h
        rw [filterCondition_iff] at h ⊢
        dsimp only at h ⊢
        rcases h with ⟨_, h⟩ | ⟨h, _⟩
        · exact Or.inl ⟨rfl, le_trans hNM h⟩
        · exact absurd h (by decide))
    exact ⟨outN, outM, hN, hM, hle⟩
  · exact dataChords_length_le_of_filter fix st hwf "At Most" "At Most" N M (by
      intro n h
      rw [filterCondition_iff] at h ⊢
      dsimp only at h ⊢
      rcases h with ⟨h, _⟩ | ⟨_, h⟩
      · exact absurd h (by decide)
      · exact Or.inr ⟨rfl, le_trans h hNM⟩)

/-- The claim C11 at the example view, whose block has two entries: thresholds 1 and 3. -/
theorem chord_count_monotone_witness :
    (exampleView ["Chr1", "Chr2"] [] true "At Least" 1).WellFormed ∧ (1 : Int) ≤ 3 ∧
    (∃ outN outM,
      generatePathGenomeView fixSourceTargetCollinearity
        { exampleView ["Chr1", "Chr2"] [] true "At Least" 1 with
          filterSelect := "At Least", filterValue := 1 } = some outN ∧
      generatePathGenomeView fixSourceTargetCollinearity
        { exampleView ["Chr1", "Chr2"] [] true "At Least" 1 with
          filterSelect := "At Least", filterValue := 3 } = some outM ∧
      outM.dataChords.length ≤ outN.dataChords.length) ∧
    (generatePathGenomeView fixSourceTargetCollinearity
        (exampleView ["Chr1", "Chr2"] [] true "At Least" 1)).map
      (fun out => out.dataChords.length) = some 1 ∧
    (generatePathGenomeView fixSourceTargetCollinearity
        (exampleView ["Chr1", "Chr2"] [] true "At Least" 3)).map
      (fun out => out.dataChords.length) = some 0 :=
  ⟨⟨by decide, by decide⟩, by decide,
    (chord_count_monotone fixSourceTargetCollinearity
      (exampleView ["Chr1", "Chr2"] [] true "At Least" 1) ⟨by decide, by decide⟩ 1 3
      (by decide)).1,
    by decide, by decide⟩

/-- Claim C12, refuted as stated: with show-all on, nothing flipped and an empty selection,
the block `b1` of the example view passes the filter (two entries, threshold 1) and yet no
chord is emitted; the same happens when only `Chr3` and `Chr4` are selected. -/
theorem showAll_needs_selection :
    (exampleView [] [] true "At Least" 1).WellFormed ∧
    filterCondition (exampleView [] [] true "At Least" 1) 2 = true ∧
    generatePathGenomeView fixSourceTargetCollinearity (exampleView [] [] true "At Least" 1) =
      some { dataChords := [], foundCurrentSelectedBlock := false } ∧
    generatePathGenomeView fixSourceTargetCollinearity
        (exampleView ["Chr3", "Chr4"] [] true "At Least" 1) =
      some { dataChords := [], foundCurrentSelectedBlock := false } :=
  ⟨⟨by decide, by decide⟩, by decide, by decide, by decide⟩

/-- Claim C12, amended: with show-all on and an empty flipped set, in a well-formed state
`generatePathGenomeView` emits a chord, with the unmirrored ranges of the block, for every
block that passes the active filter and whose source and target are both selected or, when
exactly one chromosome is selected, whose source or target is the selected one; no other
block is emitted: every chord emitted belongs to a block of `blockKeys` that passes the
active filter and meets that condition on the selection. -/
theorem showAll_emits_selected (fix : Connection → SourceTarget) (st : ViewState)
    (hwf : st.WellFormed) (hall : st.showAllChromosomes = true)
    (hflip : st.currentFlippedChromosomes = []) :
    ∃ out, generatePathGenomeView fix st = some out ∧
      (∀ b ∈ st.blockKeys, ∀ blk first,
        st.blockDictionary.get? b = some blk → blk.entries.head? = some first →
        ((st.filterSelect = "At Least" ∧ (blk.entries.length : Int) ≥ st.filterValue) ∨
         (st.filterSelect = "At Most" ∧ (blk.entries.length : Int) ≤ st.filterValue)) →
        (((fix first).source ∈ st.selectedCheckbox ∧
            (fix first).target ∈ st.selectedCheckbox) ∨
         (st.selectedCheckbox.length = 1 ∧
            ((fix first).source ∈ st.selectedCheckbox ∨
             (fix first).target ∈ st.selectedCheckbox))) →
        ∃ c ∈ out.dataChords, c.source.value.id = b ∧
          ∃ bp, blk.blockPositions = some bp ∧
            c.source.start = bp.minSource ∧ c.source.end_ = bp.maxSource ∧
            c.target.start = bp.minTarget ∧ c.target.end_ = bp.maxTarget) ∧
      (∀ c ∈ out.dataChords, c.source.value.id ∈ st.blockKeys ∧ ∃ blk first,
        st.blockDictionary.get? c.source.value.id = some blk ∧
        blk.entries.head? = some first ∧
        ((st.filterSelect = "At Least" ∧ (blk.entries.length : Int) ≥ st.filterValue) ∨
         (st.filterSelect = "At Most" ∧ (blk.entries.length : Int) ≤ st.filterValue)) ∧
        (((fix first).source ∈ st.selectedCheckbox ∧
            (fix first).target ∈ st.selectedCheckbox) ∨
         (st.selectedCheckbox.length = 1 ∧
            ((fix first).source ∈ st.selectedCheckbox ∨
             (fix first).target ∈ st.selectedCheckbox)))) := by
  obtain ⟨out, hout, hmem⟩ := generatePathGenomeView_spec fix st hwf
  refine ⟨out, hout, ?_, ?_⟩
  · intro b hb blk first hblk hfirst hfilter hsel
    have hi : inclusion st (fix first).source (fix first).target = true := by
      rw [inclusion_iff]
      by_cases h1 : st.selectedCheckbox.length = 1
      · simp only [h1, hall, and_self, if_true]
        rcases hsel with ⟨hs, _⟩ | ⟨_, h⟩
        · exact Or.inl hs
        · exact h
      · simp only [h1, false_and, if_false]
        rcases hsel with h | ⟨h, _⟩
        · exact h
        · exact absurd h h1
    obtain ⟨c, hd, hid⟩ := deriveChord_of_pass fix st hwf b hb blk first hblk hfirst hi
      ((filterCondition_iff st _).mpr hfilter)
    refine ⟨c, (hmem c).mpr ⟨b, hb, hd⟩, hid, ?_⟩
    obtain ⟨blk', first', bp, sp, tp, hblk', hfirst', hp, _, _, hsp, htp, hceq⟩ :=
      deriveChord_some fix st b c hd
    rw [hblk] at hblk'
    cases hblk'
    have hs := displayPositions_some st _ _ _ hsp
    have ht := displayPositions_some st _ _ _ htp
    simp only [hflip, List.not_mem_nil, if_false] at hs ht
    refine ⟨bp, hp, ?_⟩
    rw [hceq, hs, ht]
    exact ⟨rfl, rfl, rfl, rfl⟩
  · intro c hc
    obtain ⟨k, hkmem, hd⟩ := (hmem c).mp hc
    obtain ⟨blk, first, bp, sp, tp, hblk, hfirst, _, hi, hfc, _, _, hceq⟩ :=
      deriveChord_some fix st k c hd
    have hk : c.source.value.id = k := by rw [hceq]
    rw [hk]
    refine ⟨hkmem, blk, first, hblk, hfirst, (filterCondition_iff st _).mp hfc, ?_⟩
    rw [inclusion_iff] at hi
    by_cases h1 : st.selectedCheckbox.length = 1
    · simp only [h1, hall, and_self, if_true] at hi
      exact Or.inr ⟨h1, hi⟩
    · simp only [h1, false_and, if_false] at hi
      exact Or.inl hi

/-- The amended claim C12 at the example view with both chromosomes selected. -/
theorem showAll_emits_selected_witness :
    (exampleView ["Chr1", "Chr2"] [] true "At Least" 1).WellFormed ∧
    ∃ out, generatePathGenomeView fixSourceTargetCollinearity
        (exampleView ["Chr1", "Chr2"] [] true "At Least" 1) = some out ∧
      ∃ c ∈ out.dataChords, c.source.value.id = "b1" ∧ c.source.start = 20 :=
  ⟨⟨by decide, by decide⟩,
    match showAll_emits_selected fixSourceTargetCollinearity
        (exampleView ["Chr1", "Chr2"] [] true "At Least" 1) ⟨by decide, by decide⟩ rfl rfl with
    | ⟨out, hout, h, _⟩ =>
      match h "b1" (by decide) _ _ rfl rfl (by decide) (by decide) with
      | ⟨c, hc, hid, bp, hbp, hs, _⟩ =>
        ⟨out, hout, c, hc, hid, by
          simp only [Option.some.injEq] at hbp
          rw [hs, ← hbp]⟩⟩

/-- Claim C13: when exactly one chromosome `c` is selected, in a well-formed state: with
show-all off every chord emitted has source and target `c`; with show-all on every chord
emitted has source `c` or target `c`, and every block of `blockKeys` that passes the filter
and has source `c` or target `c` is emitted. -/
theorem one_selected_chords (fix : Connection → SourceTarget) (st : ViewState)
    (hwf : st.WellFormed) (c : String) (hsel : st.selectedCheckbox = [c]) :
    ∃ out, generatePathGenomeView fix st = some out ∧
      (st.showAllChromosomes = false →
        ∀ ch ∈ out.dataChords, ch.source.id = c ∧ ch.target.id = c) ∧
      (st.showAllChromosomes = true →
        (∀ ch ∈ out.dataChords, ch.source.id = c ∨ ch.target.id = c) ∧
        (∀ b ∈ st.blockKeys, ∀ blk first,
          st.blockDictionary.get? b = some blk → blk.entries.head? = some first →
          ((st.filterSelect = "At Least" ∧ (blk.entries.length : Int) ≥ st.filterValue) ∨
           (st.filterSelect = "At Most" ∧ (blk.entries.length : Int) ≤ st.filterValue)) →
          ((fix first).source = c ∨ (fix first).target = c) →
          ∃ ch ∈ out.dataChords, ch.source.value.id = b ∧
            ch.source.id = (fix first).source ∧ ch.target.id = (fix first).target)) := by
  obtain ⟨out, hout, hmem⟩ := generatePathGenomeView_spec fix st hwf
  have hlen : st.selectedCheckbox.length = 1 := by rw [hsel]; rfl
  have hids : ∀ ch ∈ out.dataChords, ∃ first,
      ch.source.id = (fix first).source ∧ ch.target.id = (fix first).target ∧
      inclusion st (fix first).source (fix first).target = true := by
    intro ch hch
    obtain ⟨k, _, hd⟩ := (hmem ch).mp hch
    obtain ⟨blk, first, bp, sp, tp, _, _, _, hi, _, _, _, hceq⟩ :=
      deriveChord_some fix st k ch hd
    exact ⟨first, by rw [hceq], by rw [hceq], hi⟩
  refine ⟨out, hout, ?_, ?_⟩
  · intro hall ch hch
    obtain ⟨first, hs, ht, hi⟩ := hids ch hch
    rw [inclusion_iff] at hi
    simp only [hlen, hall, Bool.false_eq_true, and_false, if_false, hsel,
      List.mem_singleton] at hi
    rw [hs, ht]
    exact hi
  · intro hall
    constructor
    · intro ch hch
      obtain ⟨first, hs, ht, hi⟩ := hids ch hch
      rw [inclusion_iff] at hi
      simp only [hlen, hall, and_self, if_true, hsel, List.mem_singleton] at hi
      rw [hs, ht]
      exact hi
    · intro b hb blk first hblk hfirst hfilter hc
      have hi : inclusion st (fix first).source (fix first).target = true := by
        rw [inclusion_iff]
        simp only [hlen, hall, and_self, if_true, hsel, List.mem_singleton]
        exact hc
      obtain ⟨ch, hd, hid⟩ := deriveChord_of_pass fix st hwf b hb blk first hblk hfirst hi
        ((filterCondition_iff st _).mpr hfilter)
      obtain ⟨blk', first', bp, sp, tp, hblk', hfirst', _, _, _, _, _, hceq⟩ :=
        deriveChord_some fix st b ch hd
      rw [hblk] at hblk'
      cases hblk'
      rw [hfirst] at hfirst'
      cases hfirst'
      exact ⟨ch, (hmem ch).mpr ⟨b, hb, hd⟩, hid, by rw [hceq], by rw [hceq]⟩

/-- The claim C13 at the example view with `Chr1` alone selected: with show-all on the block
from `Chr1` to `Chr2` is emitted, with show-all off nothing is. -/
theorem one_selected_chords_witness :
    (exampleView ["Chr1"] [] true "At Least" 1).WellFormed ∧
    (∃ out, generatePathGenomeView fixSourceTargetCollinearity
        (exampleView ["Chr1"] [] true "At Least" 1) = some out ∧
      ∃ ch ∈ out.dataChords, ch.source.value.id = "b1" ∧ ch.source.id = "Chr1" ∧
        ch.target.id = "Chr2") ∧
    generatePathGenomeView fixSourceTargetCollinearity
        (exampleView ["Chr1"] [] false "At Least" 1) =
      some { dataChords := [], foundCurrentSelectedBlock := false } :=
  ⟨⟨by decide, by decide⟩,
    match one_selected_chords fixSourceTargetCollinearity
        (exampleView ["Chr1"] [] true "At Least" 1) ⟨by decide, by decide⟩ "Chr1" rfl with
    | ⟨out, hout, _, h⟩ =>
      ⟨out, hout, (h rfl).2 "b1" (by decide) _ _ rfl rfl (by decide) (by decide)⟩,
    by decide⟩

/-! ## The layout -/

theorem layoutLoop_spec (colors : Nat → Option String) (st : ViewState) (keys : List String)
    (i : Nat) (acc : List ChromosomeDescriptor)
    (hkeys : ∀ k ∈ keys, (st.gffPositionDictionary.get? k).isSome = true) :
    ∃ out, layoutLoop colors st keys i acc = some out ∧
      out.map (fun d => d.id) = acc.map (fun d => d.id) ++
        keys.filter (fun k => st.showAllChromosomes || decide (k ∈ st.selectedCheckbox)) ∧
      ∀ d ∈ out, d ∈ acc ∨
        (d.label = d.id ∧ d.id ∈ keys ∧
          ∃ e, st.gffPositionDictionary.get? d.id = some e ∧ d.len = e.end_) := by
  induction keys generalizing i acc with
  | nil => exact ⟨acc, rfl, by simp, fun d hd => Or.inl hd⟩
  | cons k ks ih =>
    have hks : ∀ k' ∈ ks, (st.gffPositionDictionary.get? k').isSome = true :=
      fun k' hk' => hkeys k' (List.mem_cons_of_mem _ hk')
    have hk := hkeys k (List.mem_cons_self _ _)
    cases he : st.gffPositionDictionary.get? k with
    | none => rw [he] at hk; simp at hk
    | some e =>
      have hnew : ∀ out : List ChromosomeDescriptor,
          (∀ d ∈ out, d ∈ acc ++ [{ len := e.end_, color := colors i, label := k, id := k }] ∨
            (d.label = d.id ∧ d.id ∈ ks ∧
              ∃ e, st.gffPositionDictionary.get? d.id = some e ∧ d.len = e.end_)) →
          ∀ d ∈ out, d ∈ acc ∨
            (d.label = d.id ∧ d.id ∈ k :: ks ∧
              ∃ e, st.gffPositionDictionary.get? d.id = some e ∧ d.len = e.end_) := by
        intro out h d hd
        rcases h d hd with h1 | ⟨h1, h2, h3⟩
        · rcases List.mem_append.mp h1 with h1 | h1
          · exact Or.inl h1
          · simp only [List.mem_singleton] at h1
            subst h1
            exact Or.inr ⟨rfl, List.mem_cons_self _ _, e, he, rfl⟩
        · exact Or.inr ⟨h1, List.mem_cons_of_mem _ h2, h3⟩
      have hold : ∀ out : List ChromosomeDescriptor,
          (∀ d ∈ out, d ∈ acc ∨
            (d.label = d.id ∧ d.id ∈ ks ∧
              ∃ e, st.gffPositionDictionary.get? d.id = some e ∧ d.len = e.end_)) →
          ∀ d ∈ out, d ∈ acc ∨
            (d.label = d.id ∧ d.id ∈ k :: ks ∧
              ∃ e, st.gffPositionDictionary.get? d.id = some e ∧ d.len = e.end_) := by
        intro out h d hd
        rcases h d hd with h1 | ⟨h1, h2, h3⟩
        · exact Or.inl h1
        · exact Or.inr ⟨h1, List.mem_cons_of_mem _ h2, h3⟩
      by_cases hall : st.showAllChromosomes = true
      · obtain ⟨out, hout, hids, hmem⟩ := ih (i + 1)
          (acc ++ [{ len := e.end_, color := colors i, label := k, id := k }]) hks
        refine ⟨out, by simp [layoutLoop, he, hall, hout], ?_, hnew out hmem⟩
        rw [hids]
        simp [hall]
      · by_cases hsel : k ∈ st.selectedCheckbox
        · obtain ⟨out, hout, hids, hmem⟩ := ih (i + 1)
            (acc ++ [{ len := e.end_, color := colors i, label := k, id := k }]) hks
          refine ⟨out, by simp [layoutLoop, he, hall, hsel, hout], ?_, hnew out hmem⟩
          rw [hids]
          simp [hall, hsel]
        · obtain ⟨out, hout, hids, hmem⟩ := ih (i + 1) acc hks
          refine ⟨out, by simp [layoutLoop, he, hall, hsel, hout], ?_, hold out hmem⟩
          rw [hids]
          simp [hall, hsel]

/-- When every key is selected the loop does not depend on the show-all flag. -/
theorem layoutLoop_all_selected (colors : Nat → Option String) (st : ViewState)
    (keys : List String) (i : Nat) (acc : List ChromosomeDescriptor)
    (hall : ∀ k ∈ keys, k ∈ st.selectedCheckbox) :
    layoutLoop colors st keys i acc =
      layoutLoop colors { st with showAllChromosomes := true } keys i acc := by
  induction keys generalizing i acc with
  | nil => rfl
  | cons k ks ih =>
    have hks : ∀ k' ∈ ks, k' ∈ st.selectedCheckbox :=
      fun k' hk' => hall k' (List.mem_cons_of_mem _ hk')
    have hk := hall k (List.mem_cons_self _ _)
    cases he : st.gffPositionDictionary.get? k with
    | none => simp [layoutLoop, he]
    | some e =>
      by_cases hfl : st.showAllChromosomes = true
      · simp only [layoutLoop, he, hfl, if_true]
        exact ih _ _ hks
      · simp only [layoutLoop, he, hfl, hk, if_true, if_false, Bool.false_eq_true]
        exact ih _ _ hks

/-- Claim C14: when every key of the chromosome order has an entry in the position index,
`generateGenomeView` returns, the identifiers of its chromosome sequence are exactly the
chromosome order filtered by (show-all or identifier selected), hence the whole order when
show-all is on and the selected identifiers in order otherwise, and each descriptor has
`id = label` and `len` the end of that chromosome in the position index. -/
theorem layout_is_filtered_order (fix : Connection → SourceTarget)
    (colors : Nat → Option String) (gffKeys : List String) (st : ViewState)
    (hkeys : ∀ k ∈ gffKeys, (st.gffPositionDictionary.get? k).isSome = true) :
    ∃ out, generateGenomeView fix colors gffKeys st = some out ∧
      out.dataChromosomes.map (fun d => d.id) =
        gffKeys.filter (fun k => st.showAllChromosomes || decide (k ∈ st.selectedCheckbox)) ∧
      (st.showAllChromosomes = true → out.dataChromosomes.map (fun d => d.id) = gffKeys) ∧
      (st.showAllChromosomes = false →
        out.dataChromosomes.map (fun d => d.id) =
          gffKeys.filter (fun k => decide (k ∈ st.selectedCheckbox))) ∧
      ∀ d ∈ out.dataChromosomes, d.label = d.id ∧
        ∃ e, st.gffPositionDictionary.get? d.id = some e ∧ d.len = e.end_ := by
  obtain ⟨out, hout, hids, hmem⟩ := layoutLoop_spec colors st gffKeys 0 [] hkeys
  refine ⟨{ dataChromosomes := out, paths := generatePathGenomeView fix st }, ?_, ?_, ?_, ?_, ?_⟩
  · simp [generateGenomeView, hout]
  · simpa using hids
  · intro hall
    simpa [hall] using hids
  · intro hall
    simpa [hall] using hids
  · intro d hd
    rcases hmem d hd with h | ⟨h1, _, h3⟩
    · cases h
    · exact ⟨h1, h3⟩

/-- The claim C14 at the example view: with show-all off and `Chr2` selected the layout is
the single descriptor of `Chr2`, of length 28. -/
theorem layout_is_filtered_order_witness :
    (∀ k ∈ ["Chr1", "Chr2"],
      ((exampleView ["Chr2"] [] false "At Least" 1).gffPositionDictionary.get? k).isSome
        = true) ∧
    (generateGenomeView fixSourceTargetCollinearity exampleColors ["Chr1", "Chr2"]
        (exampleView ["Chr2"] [] false "At Least" 1)).map (fun v => v.dataChromosomes) =
      some [{ len := 28, color := some "#ffffb3", label := "Chr2", id := "Chr2" }] ∧
    ∃ out, generateGenomeView fixSourceTargetCollinearity exampleColors ["Chr1", "Chr2"]
        (exampleView ["Chr2"] [] false "At Least" 1) = some out ∧
      out.dataChromosomes.map (fun d => d.id) = ["Chr2"] :=
  ⟨by decide, by decide,
    match layout_is_filtered_order fixSourceTargetCollinearity exampleColors ["Chr1", "Chr2"]
        (exampleView ["Chr2"] [] false "At Least" 1) (by decide) with
    | ⟨out, hout, hids, _⟩ => ⟨out, hout, hids.trans (by decide)⟩⟩

/-- Claim C15, refuted as stated: with an empty selection and the show-all flag off the
layout of the example view is empty, while with the flag on it lists both chromosomes. -/
theorem empty_selection_layout_depends_on_showAll :
    (generateGenomeView fixSourceTargetCollinearity exampleColors ["Chr1", "Chr2"]
        (exampleView [] [] false "At Least" 1)).map (fun v => v.dataChromosomes) = some [] ∧
    (generateGenomeView fixSourceTargetCollinearity exampleColors ["Chr1", "Chr2"]
        (exampleView [] [] true "At Least" 1)).map (fun v => v.dataChromosomes) =
      some [{ len := 28, color := some "#8dd3c7", label := "Chr1", id := "Chr1" },
            { len := 28, color := some "#ffffb3", label := "Chr2", id := "Chr2" }] := by
  decide

/-- Claim C15, amended: when the selection contains every identifier of the chromosome order,
the layout derived by `generateGenomeView` is the layout derived with show-all on, whatever
the show-all flag; when the selection is empty or has as many members as there are chromosome
checkboxes, the click handler of the select-all buttons turns the flag on, and the layout
derived with the flag it leaves is the layout derived with show-all on. -/
theorem layout_all_selected (fix : Connection → SourceTarget) (colors : Nat → Option String)
    (gffKeys : List String) (st : ViewState)
    (hall : ∀ k ∈ gffKeys, k ∈ st.selectedCheckbox) :
    (generateGenomeView fix colors gffKeys st).map (fun v => v.dataChromosomes) =
      (generateGenomeView fix colors gffKeys { st with showAllChromosomes := true }).map
        (fun v => v.dataChromosomes) ∧
    (∀ (st' : ViewState) (chrBoxes : Nat),
      st'.selectedCheckbox = [] ∨ chrBoxes = st'.selectedCheckbox.length →
      (generateGenomeView fix colors gffKeys
          { st' with showAllChromosomes :=
              selectAllShowAll chrBoxes st'.selectedCheckbox st'.showAllChromosomes }).map
        (fun v => v.dataChromosomes) =
      (generateGenomeView fix colors gffKeys { st' with showAllChromosomes := true }).map
        (fun v => v.dataChromosomes)) ∧
    ((∀ k ∈ gffKeys, (st.gffPositionDictionary.get? k).isSome = true) →
      ∃ out, generateGenomeView fix colors gffKeys st = some out ∧
        out.dataChromosomes.map (fun d => d.id) = gffKeys) := by
  refine ⟨?_, ?_, ?_⟩
  · simp only [generateGenomeView]
    rw [layoutLoop_all_selected colors st gffKeys 0 [] hall]
    cases layoutLoop colors { st with showAllChromosomes := true } gffKeys 0 [] <;> rfl
  · intro st' chrBoxes h
    have hflag : selectAllShowAll chrBoxes st'.selectedCheckbox st'.showAllChromosomes
        = true := by
      unfold selectAllShowAll
      rcases h with h | h
      · simp [h]
      · simp [h]
    rw [hflag]
  · intro hkeys
    obtain ⟨out, hout, hids, _⟩ := layoutLoop_spec colors st gffKeys 0 [] hkeys
    refine ⟨{ dataChromosomes := out, paths := generatePathGenomeView fix st },
      by simp [generateGenomeView, hout], ?_⟩
    simp only [List.map_nil, List.nil_append] at hids
    rw [hids]
    apply List.filter_eq_self.mpr
    intro k hk
    simp [hall k hk]

/-- The amended claim C15 at the example view with both chromosomes selected and the
show-all flag off. -/
theorem layout_all_selected_witness :
    (∀ k ∈ ["Chr1", "Chr2"],
      k ∈ (exampleView ["Chr1", "Chr2"] [] false "At Least" 1).selectedCheckbox) ∧
    (generateGenomeView fixSourceTargetCollinearity exampleColors ["Chr1", "Chr2"]
        (exampleView ["Chr1", "Chr2"] [] false "At Least" 1)).map
      (fun v => v.dataChromosomes) =
    (generateGenomeView fixSourceTargetCollinearity exampleColors ["Chr1", "Chr2"]
        { exampleView ["Chr1", "Chr2"] [] false "At Least" 1 with
          showAllChromosomes := true }).map (fun v => v.dataChromosomes) :=
  ⟨by decide,
    (layout_all_selected fixSourceTargetCollinearity exampleColors ["Chr1", "Chr2"]
      (exampleView ["Chr1", "Chr2"] [] false "At Least" 1) (by decide)).1⟩

/-! ## Order of first occurrence -/

theorem pairwise_firstOccurrences (ids : List String) :
    (firstOccurrences ids).Pairwise (fun x y => ids.indexOf x < ids.indexOf y) := by
  induction ids using List.reverseRecOn with
  | nil => simp [firstOccurrences]
  | append_singleton ids b ih =>
    rw [firstOccurrences_append_singleton]
    have hold : (firstOccurrences ids).Pairwise
        (fun x y => (ids ++ [b]).indexOf x < (ids ++ [b]).indexOf y) := by
      refine List.Pairwise.imp_of_mem ?_ ih
      intro x y hx hy hxy
      rw [List.indexOf_append_of_mem ((mem_firstOccurrences ids x).mp hx),
        List.indexOf_append_of_mem ((mem_firstOccurrences ids y).mp hy)]
      exact hxy
    unfold pushIfAbsent
    by_cases hb : b ∈ firstOccurrences ids
    · simpa [hb] using hold
    · simp only [hb, if_false]
      rw [List.pairwise_append]
      refine ⟨hold, List.pairwise_singleton _ _, ?_⟩
      intro x hx y hy
      simp only [List.mem_singleton] at hy
      subst hy
      have hxi := (mem_firstOccurrences ids x).mp hx
      have hbi : y ∉ ids := fun h => hb ((mem_firstOccurrences ids y).mpr h)
      rw [List.indexOf_append_of_mem hxi, List.indexOf_append_of_not_mem hbi]
      have := List.indexOf_lt_length.mpr hxi
      omega

/-- Claim C16: in every entry of the connection index of a run of the loop that returns,
`blockIDs` has no duplicates, its members are exactly the block identifiers of the rows
connecting the entry's two chromosomes in either direction, and they are listed in the order
in which those rows first mention them in the input. -/
theorem blockIDs_first_occurrences (collinearity : List CollinearityRecord)
    (index : IndexState) (hidx : indexCollinearity collinearity = some index) (A : String)
    (l : List ConnectionEntry) (e : ConnectionEntry)
    (hl : index.connectionDictionary.get? A = some l)
    (he : e ∈ l) :
    e.blockIDs.Nodup ∧
    (∀ b, b ∈ e.blockIDs ↔
      ∃ r ∈ collinearity, r.block = b ∧
        ((r.sourceChromosome = A ∧ r.targetChromosome = e.connection) ∨
         (r.sourceChromosome = e.connection ∧ r.targetChromosome = A))) ∧
    e.blockIDs.Pairwise (fun x y =>
      ((collinearity.filter (fun r =>
          (decide (r.sourceChromosome = A) && decide (r.targetChromosome = e.connection)) ||
          (decide (r.sourceChromosome = e.connection) &&
            decide (r.targetChromosome = A)))).map (fun r => r.block)).indexOf x <
      ((collinearity.filter (fun r =>
          (decide (r.sourceChromosome = A) && decide (r.targetChromosome = e.connection)) ||
          (decide (r.sourceChromosome = e.connection) &&
            decide (r.targetChromosome = A)))).map (fun r => r.block)).indexOf y) := by
  have hix := indexCollinearity_eq_some _ _ hidx
  subst hix
  rw [← connectionsOf_of_get? hl, mem_connectionsOf_iff, expectedEntry_eq_some_iff] at he
  obtain ⟨_, hids, _, _⟩ := he
  rw [hids]
  refine ⟨nodup_firstOccurrences _, ?_, pairwise_firstOccurrences _⟩
  intro b
  rw [mem_firstOccurrences]
  simp only [rowsBetween, connects, List.mem_map, List.mem_filter, Bool.or_eq_true,
    Bool.and_eq_true, decide_eq_true_eq]
  constructor
  · rintro ⟨r, ⟨hr, hc⟩, hb⟩
    exact ⟨r, hr, hb, hc⟩
  · rintro ⟨r, hr, hb, hc⟩
    exact ⟨r, ⟨hr, hc⟩, hb⟩

/-- The claim C16 at the two example rows: the entry of `Chr1` for `Chr2` lists `b1` once. -/
theorem blockIDs_first_occurrences_witness :
    indexCollinearity [exampleRow "0", exampleRow "1"] = some exampleIndex ∧
    exampleIndex.connectionDictionary.get? "Chr1" =
      some [{ blockIDs := ["b1"], connection := "Chr2", connectionAmount := 2 }] ∧
    (["b1"] : List String).Nodup ∧
    (∀ b, b ∈ ["b1"] ↔
      ∃ r ∈ [exampleRow "0", exampleRow "1"], r.block = b ∧
        ((r.sourceChromosome = "Chr1" ∧ r.targetChromosome = "Chr2") ∨
         (r.sourceChromosome = "Chr2" ∧ r.targetChromosome = "Chr1"))) :=
  have h := blockIDs_first_occurrences [exampleRow "0", exampleRow "1"] exampleIndex
    (by decide) "Chr1"
    [{ blockIDs := ["b1"], connection := "Chr2", connectionAmount := 2 }]
    { blockIDs := ["b1"], connection := "Chr2", connectionAmount := 2 }
    (by decide) (by decide)
  ⟨by decide, by decide, h.1, h.2.1⟩

/-! ## The gene lookup and the keys of the position index -/

theorem indexGene_geneDictionary (s : PositionState) (g : GffRecord) (k : String) :
    (indexGene s g).geneDictionary.get? k =
      if currentGene g = k then some { start := g.start, end_ := g.end_ }
      else s.geneDictionary.get? k := by
  simp only [indexGene, Dict.get?_set]

/-- The gene lookup maps a key to the last record carrying it. -/
theorem indexGenes_geneDictionary (gff : List GffRecord) (k : String) :
    (indexGenes gff).geneDictionary.get? k =
      ((gff.filter (fun g => decide (currentGene g = k))).getLast?).map
        (fun g => ({ start := g.start, end_ := g.end_ } : GenePosition)) := by
  induction gff using List.reverseRecOn with
  | nil => simp [indexGenes, Dict.get?]
  | append_singleton gff g ih =>
    rw [indexGenes_append_singleton, indexGene_geneDictionary, List.filter_append]
    by_cases h : currentGene g = k
    · simp [h, List.getLast?_concat]
    · simp [h, ih]

theorem indexGene_keys (s : PositionState) (g : GffRecord) :
    (indexGene s g).gffPositionDictionary.keys =
      if g.chromosomeID ∉ s.gffPositionDictionary.keys ∧
          g.chromosomeID ∈ objectPrototypeNames then s.gffPositionDictionary.keys
      else pushIfAbsent s.gffPositionDictionary.keys g.chromosomeID := by
  simp only [indexGene]
  cases h : s.gffPositionDictionary.get? g.chromosomeID with
  | none =>
    have hk : g.chromosomeID ∉ s.gffPositionDictionary.keys := by
      rw [Dict.mem_keys_iff, h]; simp
    by_cases hin : g.chromosomeID ∈ objectPrototypeNames
    · have hh : s.gffPositionDictionary.has g.chromosomeID = true :=
        (has_eq_true_iff _ _).mpr (Or.inr hin)
      simp only [hh, if_true, hk, hin, not_false_eq_true, and_self]
    · have hh : s.gffPositionDictionary.has g.chromosomeID = false := by
        rw [has_of_ordinary _ _ hin]
        simp [Dict.hasOwn, h]
      simp only [hh, Bool.false_eq_true, if_false, hin, and_false, Dict.keys_set, hk,
        pushIfAbsent]
  | some e =>
    have hk : g.chromosomeID ∈ s.gffPositionDictionary.keys := by
      rw [Dict.mem_keys_iff, h]; simp
    simp only [Dict.keys_set, hk, pushIfAbsent, if_true, not_true_eq_false, false_and,
      if_false]

/-- The keys of the position index are the chromosome identifiers that are not inherited
names, in order of first occurrence. -/
theorem indexGenes_keys (gff : List GffRecord) :
    (indexGenes gff).gffPositionDictionary.keys =
      firstOccurrences ((gff.map (fun g => g.chromosomeID)).filter
        (fun c => decide (c ∉ objectPrototypeNames))) := by
  induction gff using List.reverseRecOn with
  | nil => simp [indexGenes, Dict.keys, firstOccurrences]
  | append_singleton gff g ih =>
    rw [indexGenes_append_singleton, indexGene_keys, ih, List.map_append, List.map_cons,
      List.map_nil, List.filter_append]
    by_cases hin : g.chromosomeID ∈ objectPrototypeNames
    · have hnk : g.chromosomeID ∉ firstOccurrences ((gff.map (fun g => g.chromosomeID)).filter
          (fun c => decide (c ∉ objectPrototypeNames))) := by
        rw [mem_firstOccurrences, List.mem_filter]
        rintro ⟨_, h⟩
        simp only [decide_eq_true_eq] at h
        exact h hin
      have hf : [g.chromosomeID].filter (fun c => decide (c ∉ objectPrototypeNames)) = [] := by
        simp [hin]
      rw [if_pos ⟨hnk, hin⟩, hf, List.append_nil]
    · simp only [hin, and_false, if_false]
      have hf : [g.chromosomeID].filter (fun c => decide (c ∉ objectPrototypeNames)) =
          [g.chromosomeID] := by
        simp [hin]
      rw [hf, firstOccurrences_append_singleton]

theorem keys_set_of_get? {V : Type} (d : Dict V) (k : String) (v w : V)
    (h : d.get? k = some v) : (d.set k w).keys = d.keys := by
  have hk : k ∈ d.keys := by rw [Dict.mem_keys_iff, h]; rfl
  rw [Dict.keys_set]
  simp [hk]

theorem assignColors_keys (colors : Nat → Option String) (ks : List String) (i : Nat)
    (t t' : Int) (d d' : Dict ChromosomeEntry)
    (h : assignColors colors ks i t d = some (t', d')) : d'.keys = d.keys := by
  induction ks generalizing i t d with
  | nil =>
    simp only [assignColors, Option.some.injEq, Prod.mk.injEq] at h
    rw [h.2]
  | cons k ks ih =>
    simp only [assignColors] at h
    cases hk : d.get? k with
    | none => simp [hk] at h
    | some e =>
      simp only [hk] at h
      rw [ih _ _ _ h, keys_set_of_get? d k e _ hk]

theorem assignTag_keys (tag : String) (cs : List String) (d d' : Dict ChromosomeEntry)
    (h : assignTag tag cs d = some d') : d'.keys = d.keys := by
  induction cs generalizing d with
  | nil =>
    simp only [assignTag, Option.some.injEq] at h
    rw [h]
  | cons k ks ih =>
    simp only [assignTag] at h
    cases hk : d.get? k with
    | none => simp [hk] at h
    | some e =>
      simp only [hk] at h
      rw [ih _ h, keys_set_of_get? d k e _ hk]

theorem assignTags_keys (pd : Dict (List String)) (ps : List String)
    (d d' : Dict ChromosomeEntry) (h : assignTags pd ps d = some d') : d'.keys = d.keys := by
  induction ps generalizing d with
  | nil =>
    simp only [assignTags, Option.some.injEq] at h
    rw [h]
  | cons p ps ih =>
    simp only [assignTags] at h
    cases hp : pd.get? p with
    | none => simp [hp] at h
    | some members =>
      simp only [hp] at h
      cases ht : assignTag p members d with
      | none => simp [ht] at h
      | some d₁ =>
        simp only [ht] at h
        rw [ih _ h, assignTag_keys _ _ _ _ ht]

theorem colorChromosomes_keys (env : Collaborators) (d tagged : Dict ChromosomeEntry)
    (gffKeys : List String) (totalChrEnd : Int)
    (h : colorChromosomes env d = some (gffKeys, totalChrEnd, tagged)) :
    tagged.keys = d.keys := by
  simp only [colorChromosomes] at h
  split at h
  · simp at h
  · rename_i total colored hcol
    split at h
    · simp at h
    · rename_i tagged' htag
      simp only [Option.some.injEq, Prod.mk.injEq] at h
      rw [← h.2.2, assignTags_keys _ _ _ _ htag, assignColors_keys _ _ _ _ _ _ _ hcol]

/-- The dictionary handed to `setGffDictionary` is the result of the colour and tag loops. -/
theorem setGffDictionary_mem_trace_eq (env : Collaborators) (gff : List GffRecord)
    (collinearity : List CollinearityRecord) (additionalTrack : Option (List String))
    (d : Dict ChromosomeEntry)
    (h : Effect.setGffDictionary d ∈
      (generateData env (some gff) (some collinearity) additionalTrack).trace) :
    ∃ gffKeys totalChrEnd,
      colorChromosomes env (indexGenes gff).gffPositionDictionary =
        some (gffKeys, totalChrEnd, d) := by
  cases hpre : colorChromosomes env (indexGenes gff).gffPositionDictionary with
  | none =>
    rw [generateData_of_threw env gff collinearity additionalTrack hpre] at h
    simp at h
  | some x =>
    obtain ⟨gffKeys, totalChrEnd, tagged⟩ := x
    have hd : d = tagged := by
      cases hidx : indexCollinearity collinearity with
      | none =>
        rw [generateData_of_raised env gff collinearity additionalTrack _ _ _ hpre hidx] at h
        cases additionalTrack <;> simp [commitChromosomes] at h <;> exact h
      | some index =>
        cases hf : (aggregation env gff index).failed with
        | true =>
          rw [generateData_of_failed env gff collinearity additionalTrack _ _ _ _ hpre hidx
            hf] at h
          cases additionalTrack <;> simp [commitChromosomes] at h <;> exact h
        | false =>
          rw [generateData_of_succeeded env gff collinearity additionalTrack _ _ _ _ hpre hidx
            hf] at h
          cases additionalTrack <;> simp [commitChromosomes] at h <;> exact h
    subst hd
    exact ⟨gffKeys, totalChrEnd, rfl⟩

/-- Every run on present inputs sets the gene dictionary to the gene lookup of the loop. -/
theorem setGeneDictionary_mem_trace (env : Collaborators) (gff : List GffRecord)
    (collinearity : List CollinearityRecord) (additionalTrack : Option (List String)) :
    Effect.setGeneDictionary (indexGenes gff).geneDictionary ∈
      (generateData env (some gff) (some collinearity) additionalTrack).trace := by
  cases hpre : colorChromosomes env (indexGenes gff).gffPositionDictionary with
  | none =>
    rw [generateData_of_threw env gff collinearity additionalTrack hpre]
    simp
  | some x =>
    obtain ⟨gffKeys, totalChrEnd, tagged⟩ := x
    cases hidx : indexCollinearity collinearity with
    | none =>
      rw [generateData_of_raised env gff collinearity additionalTrack _ _ _ hpre hidx]
      simp
    | some index =>
      cases hf : (aggregation env gff index).failed with
      | true =>
        rw [generateData_of_failed env gff collinearity additionalTrack _ _ _ _ hpre hidx hf]
        simp
      | false =>
        rw [generateData_of_succeeded env gff collinearity additionalTrack _ _ _ _ hpre hidx hf]
        simp

theorem splitChar_of_not_mem (sep : Char) (a : List Char) (h : sep ∉ a) :
    splitChar sep a = [a] := by
  induction a with
  | nil => rfl
  | cons c a ih =>
    have hc : c ≠ sep := fun hcs => h (hcs ▸ List.mem_cons_self _ _)
    have ha : sep ∉ a := fun hm => h (List.mem_cons_of_mem _ hm)
    simp only [splitChar, hc, if_false, ih ha]

theorem splitChar_append_sep (sep : Char) (a b : List Char) (h : sep ∉ a) :
    splitChar sep (a ++ sep :: b) = a :: splitChar sep b := by
  induction a with
  | nil => simp [splitChar]
  | cons c a ih =>
    have hc : c ≠ sep := fun hcs => h (hcs ▸ List.mem_cons_self _ _)
    have ha : sep ∉ a := fun hm => h (List.mem_cons_of_mem _ hm)
    rw [List.cons_append, splitChar, if_neg hc, ih ha]

/-- The gene identifier of a gff3 record: the value of the first attribute. -/
theorem attributesGene_first_value (key value tail : List Char)
    (hk₁ : ';' ∉ key) (hk₂ : '=' ∉ key) (hv₁ : ';' ∉ value) (hv₂ : '=' ∉ value)
    (htail : tail = [] ∨ ∃ rest, tail = ';' :: rest) :
    attributesGene (String.mk ((key ++ '=' :: value) ++ tail)) = String.mk value := by
  have hsemi : ';' ∉ key ++ '=' :: value := by
    simp only [List.mem_append, List.mem_cons, not_or]
    exact ⟨hk₁, by decide, hv₁⟩
  have hhead : (splitChar ';' ((key ++ '=' :: value) ++ tail)).headD [] =
      key ++ '=' :: value := by
    rcases htail with rfl | ⟨rest, rfl⟩
    · rw [List.append_nil, splitChar_of_not_mem _ _ hsemi]
      rfl
    · rw [splitChar_append_sep _ _ _ hsemi]
      rfl
  simp only [attributesGene, hhead, splitChar_append_sep _ _ _ hk₂,
    splitChar_of_not_mem _ _ hv₂]

/-- Claim C17: the gene lookup built by `generateData` maps each gene identifier occurring
in the gene input (the key the source derives from a record: for a gff3 record the value of
the first attribute, as in `ID=gene1;Name=x`, else the `geneID`, else the chromosome) to the
start and end of the last record carrying it, and has no other key; it is what every run
hands to `setGeneDictionary`; an empty gene input gives an empty gene lookup and an empty
position index; in `repeatedGenes` the later record of `g1` wins and the record without
identifier is keyed by its chromosome; in `gff3Genes` the two records of `gene1` are keyed by
`gene1` and the later one wins. -/
theorem geneDictionary_last_wins (gff : List GffRecord) :
    (∀ k, (indexGenes gff).geneDictionary.get? k =
      ((gff.filter (fun g => decide (currentGene g = k))).getLast?).map
        (fun g => ({ start := g.start, end_ := g.end_ } : GenePosition))) ∧
    (∀ k, k ∈ (indexGenes gff).geneDictionary.keys ↔ ∃ g ∈ gff, currentGene g = k) ∧
    (∀ g key value tail, g.attributes = some (String.mk ((key ++ '=' :: value) ++ tail)) →
      ';' ∉ key → '=' ∉ key → ';' ∉ value → '=' ∉ value →
      (tail = [] ∨ ∃ rest, tail = ';' :: rest) → currentGene g = String.mk value) ∧
    (∀ g : GffRecord, g.attributes = none ∨ g.attributes = some "" →
      currentGene g =
        match g.geneID with
        | some id => if id ≠ "" then id else g.chromosomeID
        | none => g.chromosomeID) ∧
    (∀ env collinearity additionalTrack,
      Effect.setGeneDictionary (indexGenes gff).geneDictionary ∈
        (generateData env (some gff) (some collinearity) additionalTrack).trace) ∧
    (indexGenes []).geneDictionary = [] ∧ (indexGenes []).gffPositionDictionary = [] ∧
    (indexGenes repeatedGenes).geneDictionary =
      [("g1", { start := 100, end_ := 200 }), ("Chr2", { start := 7, end_ := 9 })] ∧
    (indexGenes gff3Genes).geneDictionary = [("gene1", { start := 100, end_ := 200 })] := by
  refine ⟨indexGenes_geneDictionary gff, ?_, ?_, ?_,
    fun env => setGeneDictionary_mem_trace env gff, rfl, rfl, by decide, by decide⟩
  · intro k
    rw [Dict.mem_keys_iff, indexGenes_geneDictionary]
    cases hl : (gff.filter (fun g => decide (currentGene g = k))).getLast? with
    | none =>
      rw [List.getLast?_eq_none_iff] at hl
      simp only [Option.map_none', Option.isSome_none, Bool.false_eq_true, false_iff,
        not_exists, not_and]
      intro g hg hgk
      have : g ∈ gff.filter (fun g => decide (currentGene g = k)) := by
        simp [List.mem_filter, hg, hgk]
      rw [hl] at this
      cases this
    | some g =>
      have hg := List.mem_of_getLast?_eq_some hl
      simp only [List.mem_filter, decide_eq_true_eq] at hg
      simp only [Option.map_some', Option.isSome_some, true_iff]
      exact ⟨g, hg.1, hg.2⟩
  · intro g key value tail ha hk₁ hk₂ hv₁ hv₂ htail
    have hne : String.mk ((key ++ '=' :: value) ++ tail) ≠ "" := by
      intro h
      have hd := congrArg String.data h
      simp at hd
    simp only [currentGene, ha, hne, ne_eq, not_false_eq_true, if_true]
    exact attributesGene_first_value key value tail hk₁ hk₂ hv₁ hv₂ htail
  · intro g ha
    rcases ha with ha | ha
    · simp only [currentGene, ha]
    · simp only [currentGene, ha, ne_eq, not_true_eq_false, if_false]

/-- The position index on ordinary names: the keys of the chromosome position index built
by `generateData` are distinct and are exactly the `chromosomeID` values of the gene input
that are not names inherited from `Object.prototype`; the dictionary handed to
`setGffDictionary` has the same keys; `repeatedGenes` gives the keys `Chr1`, `Chr2`. -/
theorem positionIndex_keys_of_ordinary (gff : List GffRecord) :
    (indexGenes gff).gffPositionDictionary.keys.Nodup ∧
    (∀ c, c ∈ (indexGenes gff).gffPositionDictionary.keys ↔
      (∃ g ∈ gff, g.chromosomeID = c) ∧ c ∉ objectPrototypeNames) ∧
    (∀ env collinearity additionalTrack d,
      Effect.setGffDictionary d ∈
        (generateData env (some gff) (some collinearity) additionalTrack).trace →
      d.keys = (indexGenes gff).gffPositionDictionary.keys) ∧
    (indexGenes repeatedGenes).gffPositionDictionary.keys = ["Chr1", "Chr2"] := by
  refine ⟨?_, ?_, ?_, by decide⟩
  · rw [indexGenes_keys]
    exact nodup_firstOccurrences _
  · intro c
    rw [indexGenes_keys, mem_firstOccurrences]
    simp
  · intro env collinearity additionalTrack d hd
    obtain ⟨gffKeys, totalChrEnd, hpre⟩ :=
      setGffDictionary_mem_trace_eq env gff collinearity additionalTrack d hd
    exact colorChromosomes_keys env _ _ _ _ hpre

/-- Claim C18 at a chromosome called `constructor`: the gene input `inheritedNameGenes` has
the chromosome identifiers `constructor` and `Chr1`, and the position index built by the
loop of `generateData`, like the dictionary the run hands to `setGffDictionary`, has the
single key `Chr1`: the test `in` of line 155 is true for the inherited name and no own entry
is created. -/
theorem positionIndex_keys_omit_inherited_name :
    inheritedNameGenes.map (fun g => g.chromosomeID) = ["constructor", "Chr1"] ∧
    (indexGenes inheritedNameGenes).gffPositionDictionary.keys = ["Chr1"] ∧
    (indexGenes inheritedNameGenes).gffPositionDictionary.objectKeys = ["Chr1"] ∧
    Effect.setGffDictionary
        [("Chr1", { start := 100, end_ := 200, color := some "#8dd3c7", tag := some "All" })] ∈
      (generateData exampleCollaborators (some inheritedNameGenes) (some []) none).trace := by
  decide

/-- Claim C19, refuted as stated: a gene record with start 100 and end 50 gives its
chromosome the entry with start 100 and end 50, whose start is above its end. -/
theorem positionIndex_start_above_end :
    (indexGenes reversedGenes).gffPositionDictionary =
      [("Chr1", { start := 100, end_ := 50, color := none, tag := none })] ∧
    ∃ e, (indexGenes reversedGenes).gffPositionDictionary.get? "Chr1" = some e ∧
      ¬ e.start ≤ e.end_ :=
  ⟨by decide, { start := 100, end_ := 50, color := none, tag := none }, by decide, by decide⟩

/-- Claim C19, amended: for every gene input in which each record has its start at most its
end, every entry of the position index built by `generateData`, and of any dictionary it
hands to `setGffDictionary`, has its start at most its end. -/
theorem positionIndex_start_le_end (gff : List GffRecord)
    (hrec : ∀ g ∈ gff, g.start ≤ g.end_) :
    (∀ c e, (indexGenes gff).gffPositionDictionary.get? c = some e → e.start ≤ e.end_) ∧
    (∀ env collinearity additionalTrack d c e,
      Effect.setGffDictionary d ∈
        (generateData env (some gff) (some collinearity) additionalTrack).trace →
      d.get? c = some e → e.start ≤ e.end_) := by
  have hloop : ∀ c e, (indexGenes gff).gffPositionDictionary.get? c = some e →
      e.start ≤ e.end_ := by
    intro c e he
    rw [(indexGenes_get? gff c).2.2] at he
    by_cases hin : c ∈ objectPrototypeNames
    · simp [hin] at he
    by_cases hne : genesOn c gff = []
    · simp [hne] at he
    · simp only [hne, hin, or_self, if_false, Option.some.injEq] at he
      obtain ⟨g, hg⟩ := List.exists_mem_of_ne_nil _ hne
      have hgm : g ∈ gff := by
        simp only [genesOn, List.mem_filter] at hg
        exact hg.1
      rw [← he]
      calc foldMinStart (genesOn c gff) ≤ g.start := foldl_min_le_mem _ _ g hg
        _ ≤ g.end_ := hrec g hgm
        _ ≤ foldMaxEnd (genesOn c gff) := mem_le_foldl_max _ _ g hg
  refine ⟨hloop, ?_⟩
  intro env collinearity additionalTrack d c e hd he
  have hr := setGffDictionary_mem_trace env gff collinearity additionalTrack d hd c
  rw [he] at hr
  cases hi : (indexGenes gff).gffPositionDictionary.get? c with
  | none => rw [hi] at hr; simp at hr
  | some e' =>
    rw [hi] at hr
    simp only [Option.map_some', Option.some.injEq, ChromosomeEntry.range,
      Prod.mk.injEq] at hr
    rw [hr.1, hr.2]
    exact hloop c e' hi

/-- The amended claim C19 at the example genes: `Chr1` has start 10 and end 200. -/
theorem positionIndex_start_le_end_witness :
    (∀ g ∈ exampleGenes, g.start ≤ g.end_) ∧
    (∀ c e, (indexGenes exampleGenes).gffPositionDictionary.get? c = some e →
      e.start ≤ e.end_) ∧
    (indexGenes exampleGenes).gffPositionDictionary.get? "Chr1" =
      some { start := 10, end_ := 200, color := none, tag := none } :=
  ⟨by decide, (positionIndex_start_le_end exampleGenes (by decide)).1, by decide⟩

/-! ## The maximum block size -/

theorem get?_set_positions (bd : Dict Block) (k k' : String) (b : Block) (p : BlockPositions)
    (hb : bd.get? k = some b) :
    ((bd.set k { b with blockPositions := some p }).get? k').map (fun x => x.entries) =
      (bd.get? k').map (fun x => x.entries) := by
  rw [Dict.get?_set]
  by_cases hk : k = k'
  · subst hk
    simp [hb]
  · simp [hk]

theorem aggregateBlocks_maxBlockSize
    (lookup : Dict Block → Dict GenePosition → String → Option BlockPositions)
    (gd : Dict GenePosition) (keys : List String) (m : Nat) (bd : Dict Block)
    (h : (aggregateBlocks lookup gd keys m bd).failed = false) :
    m ≤ (aggregateBlocks lookup gd keys m bd).maxBlockSize ∧
    (∀ k ∈ keys, ∀ es, (bd.get? k).map (fun x => x.entries) = some es →
      es.length ≤ (aggregateBlocks lookup gd keys m bd).maxBlockSize) ∧
    ((aggregateBlocks lookup gd keys m bd).maxBlockSize = m ∨
      ∃ k ∈ keys, ∃ es, (bd.get? k).map (fun x => x.entries) = some es ∧
        es.length = (aggregateBlocks lookup gd keys m bd).maxBlockSize) := by
  induction keys generalizing m bd with
  | nil => simp [aggregateBlocks]
  | cons k ks ih =>
    cases hk : bd.get? k with
    | none => simp [aggregateBlocks, hk] at h
    | some b =>
      cases hl : lookup bd gd k with
      | none => simp [aggregateBlocks, hk, hl] at h
      | some p =>
        simp only [aggregateBlocks, hk, hl] at h ⊢
        obtain ⟨h1, h2, h3⟩ := ih _ _ h
        refine ⟨le_trans (le_max_left _ _) h1, ?_, ?_⟩
        · intro k' hk' es hes
          rcases List.mem_cons.mp hk' with rfl | hk''
          · rw [hk] at hes
            simp only [Option.map_some', Option.some.injEq] at hes
            rw [← hes]
            exact le_trans (le_max_right _ _) h1
          · exact h2 k' hk'' es (by rw [get?_set_positions bd k k' b p hk]; exact hes)
        · rcases h3 with h3 | ⟨k', hk', es, hes, hlen⟩
          · rcases max_choice m b.entries.length with hm | hm
            · left; rw [h3, hm]
            · right
              exact ⟨k, List.mem_cons_self _ _, b.entries, by simp [hk], by rw [h3, hm]⟩
          · right
            refine ⟨k', List.mem_cons_of_mem _ hk', es, ?_, hlen⟩
            rw [← get?_set_positions bd k k' b p hk]
            exact hes

/-- Claim C20, refuted as stated: in `failingRows` block `a` (one row, referring to the
absent gene `gX`) comes before block `b` (two rows); the loop of lines 309-314 raises at
block `a`, after line 311 has set `maxBlockSize` to 1, and leaves it there, below the two
entries of block `b`. -/
theorem maxBlockSize_below_later_block :
    ∃ index, indexCollinearity failingRows = some index ∧
      index.blockDictionary.objectKeys = ["a", "b"] ∧
      (aggregation exampleCollaborators exampleGenes index).failed = true ∧
      (aggregation exampleCollaborators exampleGenes index).maxBlockSize = 1 ∧
      ∃ blk, index.blockDictionary.get? "b" = some blk ∧ blk.entries.length = 2 ∧
        ¬ blk.entries.length ≤
          (aggregation exampleCollaborators exampleGenes index).maxBlockSize :=
  ⟨indexRows failingRows, by decide, by decide, by decide, by decide,
    (indexRows failingRows).blockDictionary.get? "b" |>.getD { entries := [], blockPositions := none },
    by decide, by decide, by decide⟩

/-- Claim C20, amended: for every collinearity input on which the collinearity loop returns
and every block is aggregated (`lookForBlocksPositions` raises for no block), the
`maxBlockSize` computed by `generateData` is at least the number of rows of every block of
the collinearity input, is 0 when the input has no rows, and otherwise equals the number of
rows of some block. -/
theorem maxBlockSize_is_maximum (env : Collaborators) (gff : List GffRecord)
    (collinearity : List CollinearityRecord) (index : IndexState)
    (hidx : indexCollinearity collinearity = some index)
    (hok : (aggregation env gff index).failed = false) :
    (∀ b blk, index.blockDictionary.get? b = some blk →
      blk.entries.length ≤ (aggregation env gff index).maxBlockSize) ∧
    (∀ b, (collinearity.filter (fun r => decide (r.block = b))).length ≤
      (aggregation env gff index).maxBlockSize) ∧
    (collinearity = [] → (aggregation env gff index).maxBlockSize = 0) ∧
    (collinearity ≠ [] → ∃ b blk,
      index.blockDictionary.get? b = some blk ∧
      blk.entries.length = (aggregation env gff index).maxBlockSize) := by
  have hix := indexCollinearity_eq_some _ _ hidx
  subst hix
  obtain ⟨_, h2, h3⟩ := aggregateBlocks_maxBlockSize env.lookForBlocksPositions
    (indexGenes gff).geneDictionary
    (indexRows collinearity).blockDictionary.objectKeys 0
    (indexRows collinearity).blockDictionary hok
  have hdict : ∀ b blk, (indexRows collinearity).blockDictionary.get? b = some blk →
      blk.entries.length ≤ (aggregation env gff (indexRows collinearity)).maxBlockSize := by
    intro b blk hb
    have hmem : b ∈ (indexRows collinearity).blockDictionary.objectKeys := by
      rw [Dict.mem_objectKeys, Dict.mem_keys_iff, hb]
      rfl
    exact h2 b hmem blk.entries (by rw [hb]; rfl)
  refine ⟨hdict, ?_, ?_, ?_⟩
  · intro b
    by_cases hf : collinearity.filter (fun r => decide (r.block = b)) = []
    · rw [hf]
      exact Nat.zero_le _
    · have hget := blockDictionary_get? collinearity b
      simp only [hf, if_false] at hget
      have := hdict b _ hget
      simpa using this
  · intro hnil
    subst hnil
    rfl
  · intro hne
    rcases h3 with h0 | ⟨k, _, es, hes, hlen⟩
    · obtain ⟨r, hr⟩ := List.exists_mem_of_ne_nil _ hne
      have hf : collinearity.filter (fun x => decide (x.block = r.block)) ≠ [] := by
        intro h
        have : r ∈ collinearity.filter (fun x => decide (x.block = r.block)) := by
          simp [List.mem_filter, hr]
        rw [h] at this
        cases this
      have hget := blockDictionary_get? collinearity r.block
      simp only [hf, if_false] at hget
      have hle := hdict r.block _ hget
      have hpos : 0 < (collinearity.filter (fun x => decide (x.block = r.block))).length :=
        List.length_pos.mpr hf
      simp only [List.length_map] at hle
      have h0' : (aggregation env gff (indexRows collinearity)).maxBlockSize = 0 := h0
      omega
    · cases hb : (indexRows collinearity).blockDictionary.get? k with
      | none => rw [hb] at hes; simp at hes
      | some blk =>
        rw [hb] at hes
        simp only [Option.map_some', Option.some.injEq] at hes
        exact ⟨k, blk, hb, by rw [hes]; exact hlen⟩

/-- The amended claim C20 at the example genes and `mixedRows`, two rows of block `b1` and
one of `b2`: the loop returns, every block is aggregated and the maximum block size is 2. -/
theorem maxBlockSize_is_maximum_witness :
    indexCollinearity mixedRows = some (indexRows mixedRows) ∧
    (aggregation exampleCollaborators exampleGenes (indexRows mixedRows)).failed = false ∧
    (aggregation exampleCollaborators exampleGenes (indexRows mixedRows)).maxBlockSize = 2 ∧
    ∀ b : String, (mixedRows.filter (fun r => decide (r.block = b))).length ≤
      (aggregation exampleCollaborators exampleGenes (indexRows mixedRows)).maxBlockSize :=
  ⟨by decide, by decide, by decide,
    (maxBlockSize_is_maximum exampleCollaborators exampleGenes mixedRows (indexRows mixedRows)
      (by decide) (by decide)).2.1⟩

/-! ## The order of the chords -/

theorem unvisitedKeys_sublist (keys visited : List String) :
    List.Sublist (unvisitedKeys keys visited) keys := by
  induction keys generalizing visited with
  | nil => simp [unvisitedKeys]
  | cons k ks ih =>
    by_cases hv : k ∈ visited
    · simp only [unvisitedKeys, hv, if_true]
      exact (ih visited).trans (List.sublist_cons_self _ _)
    · simp only [unvisitedKeys, hv, if_false]
      exact (ih (k :: visited)).cons₂ k

theorem nodup_unvisitedKeys (keys visited : List String) :
    (unvisitedKeys keys visited).Nodup := by
  induction keys generalizing visited with
  | nil => simp [unvisitedKeys]
  | cons k ks ih =>
    by_cases hv : k ∈ visited
    · simp only [unvisitedKeys, hv, if_true]
      exact ih visited
    · simp only [unvisitedKeys, hv, if_false, List.nodup_cons]
      refine ⟨?_, ih (k :: visited)⟩
      intro hin
      exact (mem_unvisitedKeys ks (k :: visited) k hin).2 (List.mem_cons_self _ _)

theorem chordOf_id (fix : Connection → SourceTarget) (st : ViewState) (k : String)
    (c : Chord) (h : chordOf fix st k = some c) : c.source.value.id = k := by
  have hd : deriveChord fix st k = some (some c) := by
    unfold chordOf at h
    cases hd : deriveChord fix st k with
    | none => rw [hd] at h; simp at h
    | some r =>
      rw [hd] at h
      simp only [Option.join, Option.some_bind, id] at h
      rw [h]
  obtain ⟨_, _, _, _, _, _, _, _, _, _, _, _, hceq⟩ := deriveChord_some fix st k c hd
  rw [hceq]

/-- The block identifiers of the chords of a list of keys form a sublist of the keys. -/
theorem chord_ids_sublist (fix : Connection → SourceTarget) (st : ViewState)
    (l : List String) :
    List.Sublist ((l.filterMap (chordOf fix st)).map (fun c => c.source.value.id)) l := by
  induction l with
  | nil => simp
  | cons k ks ih =>
    cases hc : chordOf fix st k with
    | none =>
      simp only [List.filterMap_cons, hc]
      exact ih.trans (List.sublist_cons_self _ _)
    | some c =>
      simp only [List.filterMap_cons, hc, List.map_cons, chordOf_id fix st k c hc]
      exact ih.cons₂ k

/-- In a well-formed state the block identifiers of the chords form a sublist of the
unvisited keys, hence of `blockKeys`. -/
theorem dataChords_ids (fix : Connection → SourceTarget) (st : ViewState)
    (hwf : st.WellFormed) :
    ∃ out, generatePathGenomeView fix st = some out ∧
      List.Sublist (out.dataChords.map (fun c => c.source.value.id))
        (unvisitedKeys st.blockKeys []) := by
  obtain ⟨out, hout, hd⟩ := generatePathGenomeView_dataChords fix st hwf
  refine ⟨out, hout, ?_⟩
  rw [hd]
  exact chord_ids_sublist fix st _

/-- Claim C21: in a well-formed view state `generatePathGenomeView` returns and visits each
block once: the block identifiers of the emitted chords are pairwise distinct, they follow
the order of `blockKeys`, and the number of chords is at most the number of blocks (keys of
`blockKeys`). -/
theorem chords_one_per_block (fix : Connection → SourceTarget) (st : ViewState)
    (hwf : st.WellFormed) :
    ∃ out, generatePathGenomeView fix st = some out ∧
      (out.dataChords.map (fun c => c.source.value.id)).Nodup ∧
      List.Sublist (out.dataChords.map (fun c => c.source.value.id)) st.blockKeys ∧
      out.dataChords.length ≤ st.blockKeys.length := by
  obtain ⟨out, hout, hsub⟩ := dataChords_ids fix st hwf
  have hsub' := hsub.trans (unvisitedKeys_sublist st.blockKeys [])
  refine ⟨out, hout, (nodup_unvisitedKeys _ _).sublist hsub, hsub', ?_⟩
  have := hsub'.length_le
  simpa using this

/-- The claim C21 at the view loaded from `numberedRows`, which has two blocks: two chords
with distinct block identifiers. -/
theorem chords_one_per_block_witness :
    (loadedView exampleCollaborators exampleGenes numberedRows ["Chr1"] [] true
      "At Least" 1).WellFormed ∧
    ∃ out, generatePathGenomeView fixSourceTargetCollinearity
        (loadedView exampleCollaborators exampleGenes numberedRows ["Chr1"] [] true
          "At Least" 1) = some out ∧
      (out.dataChords.map (fun c => c.source.value.id)).Nodup ∧
      out.dataChords.length ≤ 2 :=
  ⟨⟨by decide, by decide⟩,
    match chords_one_per_block fixSourceTargetCollinearity
        (loadedView exampleCollaborators exampleGenes numberedRows ["Chr1"] [] true
          "At Least" 1) ⟨by decide, by decide⟩ with
    | ⟨out, hout, hnd, _, hlen⟩ => ⟨out, hout, hnd, hlen.trans (by decide)⟩⟩

theorem objectKeys_pairwise {V : Type} (d : Dict V) (blocks : List String)
    (hkeys : d.keys = firstOccurrences blocks) :
    d.objectKeys.Pairwise (keyOrder blocks) := by
  unfold Dict.objectKeys
  simp only []
  rw [List.pairwise_append]
  haveI : IsTotal (Nat × String) (fun a b => a.1 ≤ b.1) := ⟨fun a b => Nat.le_total a.1 b.1⟩
  haveI : IsTrans (Nat × String) (fun a b => a.1 ≤ b.1) :=
    ⟨fun a b c hab hbc => Nat.le_trans hab hbc⟩
  have hmemsorted : ∀ x : Nat × String,
      x ∈ (d.keys.filterMap (fun k => (arrayIndex? k).map (fun n => (n, k)))).insertionSort
        (fun a b => a.1 ≤ b.1) → arrayIndex? x.2 = some x.1 := by
    intro x hx
    rw [(List.perm_insertionSort _ _).mem_iff] at hx
    simp only [List.mem_filterMap, Option.map_eq_some'] at hx
    obtain ⟨k, _, n, hn, hx⟩ := hx
    rw [← hx]
    exact hn
  refine ⟨?_, ?_, ?_⟩
  · rw [List.pairwise_map]
    have hs := List.sorted_insertionSort (fun a b : Nat × String => a.1 ≤ b.1)
      (d.keys.filterMap (fun k => (arrayIndex? k).map (fun n => (n, k))))
    refine List.Pairwise.imp_of_mem ?_ hs
    intro a b ha hb hab
    simp only [keyOrder, hmemsorted a ha, hmemsorted b hb]
    exact hab
  · have hp : d.keys.Pairwise (fun x y => blocks.indexOf x < blocks.indexOf y) := by
      rw [hkeys]
      exact pairwise_firstOccurrences blocks
    have hf := hp.filter (fun k => (arrayIndex? k).isNone)
    refine List.Pairwise.imp_of_mem ?_ hf
    intro a b ha hb hab
    simp only [List.mem_filter, Option.isNone_iff_eq_none] at ha hb
    simp only [keyOrder, ha.2, hb.2]
    exact hab
  · intro x hx y hy
    simp only [List.mem_map] at hx
    obtain ⟨p, hp, rfl⟩ := hx
    simp only [List.mem_filter, Option.isNone_iff_eq_none] at hy
    simp only [keyOrder, hmemsorted p hp, hy.2]

/-- Claim C22, refuted as stated: in `numberedRows` block `2` occurs before block `1`, and
after the load the chord of block `1` is emitted before the chord of block `2`, because
`Object.keys` lists array-index keys in ascending order. -/
theorem chords_not_in_input_order :
    numberedRows.map (fun r => r.block) = ["2", "1"] ∧
    (indexCollinearity numberedRows).map (fun i => i.blockDictionary.keys) =
      some ["2", "1"] ∧
    (indexCollinearity numberedRows).map (fun i => i.blockDictionary.objectKeys) =
      some ["1", "2"] ∧
    (generatePathGenomeView fixSourceTargetCollinearity
        (loadedView exampleCollaborators exampleGenes numberedRows ["Chr1"] [] true
          "At Least" 1)).map (fun out => out.dataChords.map (fun c => c.source.value.id)) =
      some ["1", "2"] := by
  decide

/-- Claim C22, amended: when `blockKeys` is `Object.keys` of the block dictionary built from
the collinearity input by a run of the loop that returns, the chords emitted in a well-formed state appear in the order of
`blockKeys`, that is: blocks whose identifier is an array index first, in ascending numeric
order, then the other blocks in the order in which they first appear in the input; when no
block identifier is an array index, of any two emitted chords the one whose block first
occurs earlier in the collinearity input comes first. -/
theorem chords_in_key_order (fix : Connection → SourceTarget) (st : ViewState)
    (hwf : st.WellFormed) (collinearity : List CollinearityRecord)
    (index : IndexState) (hidx : indexCollinearity collinearity = some index)
    (hkeys : st.blockKeys = index.blockDictionary.objectKeys) :
    ∃ out, generatePathGenomeView fix st = some out ∧
      List.Sublist (out.dataChords.map (fun c => c.source.value.id)) st.blockKeys ∧
      (out.dataChords.map (fun c => c.source.value.id)).Pairwise
        (keyOrder (collinearity.map (fun r => r.block))) ∧
      ((∀ r ∈ collinearity, arrayIndex? r.block = none) →
        (out.dataChords.map (fun c => c.source.value.id)).Pairwise
          (fun x y => (collinearity.map (fun r => r.block)).indexOf x <
            (collinearity.map (fun r => r.block)).indexOf y)) := by
  have hix := indexCollinearity_eq_some _ _ hidx
  subst hix
  obtain ⟨out, hout, hsub⟩ := dataChords_ids fix st hwf
  have hsub' := hsub.trans (unvisitedKeys_sublist st.blockKeys [])
  have hpair : (out.dataChords.map (fun c => c.source.value.id)).Pairwise
      (keyOrder (collinearity.map (fun r => r.block))) := by
    refine List.Pairwise.sublist hsub' ?_
    rw [hkeys]
    exact objectKeys_pairwise _ _ (blockDictionary_keys collinearity)
  refine ⟨out, hout, hsub', hpair, ?_⟩
  intro hno
  have hnone : ∀ x ∈ out.dataChords.map (fun c => c.source.value.id),
      arrayIndex? x = none := by
    intro x hx
    have hx' := hsub'.subset hx
    rw [hkeys, Dict.mem_objectKeys, blockDictionary_keys, mem_firstOccurrences,
      List.mem_map] at hx'
    obtain ⟨r, hr, rfl⟩ := hx'
    exact hno r hr
  refine List.Pairwise.imp_of_mem ?_ hpair
  intro a b ha hb hab
  simp only [keyOrder, hnone a ha, hnone b hb] at hab
  exact hab

/-- The amended claim C22 at the view loaded from `numberedRows`: the chord identifiers are
a sublist of `Object.keys`, here `1` before `2`. -/
theorem chords_in_key_order_witness :
    (loadedView exampleCollaborators exampleGenes numberedRows ["Chr1"] [] true
      "At Least" 1).WellFormed ∧
    ∃ out, generatePathGenomeView fixSourceTargetCollinearity
        (loadedView exampleCollaborators exampleGenes numberedRows ["Chr1"] [] true
          "At Least" 1) = some out ∧
      List.Sublist (out.dataChords.map (fun c => c.source.value.id)) ["1", "2"] :=
  ⟨⟨by decide, by decide⟩,
    match chords_in_key_order fixSourceTargetCollinearity
        (loadedView exampleCollaborators exampleGenes numberedRows ["Chr1"] [] true
          "At Least" 1) ⟨by decide, by decide⟩ numberedRows (indexRows numberedRows)
        (by decide) rfl with
    | ⟨out, hout, hsub, _⟩ => ⟨out, hout, by
        have h : (loadedView exampleCollaborators exampleGenes numberedRows ["Chr1"] []
          true "At Least" 1).blockKeys = ["1", "2"] := by decide
        rw [h] at hsub
        exact hsub⟩⟩

/-! ## The selected block -/

theorem chordLoop_found (fix : Connection → SourceTarget) (st : ViewState)
    (keys visited : List String) (acc : PathResult)
    (h : ∀ k ∈ keys, ∃ r, deriveChord fix st k = some r) :
    ∃ out, chordLoop fix st keys visited acc = some out ∧
      (out.foundCurrentSelectedBlock = true ↔
        acc.foundCurrentSelectedBlock = true ∨
        ∃ c ∈ (unvisitedKeys keys visited).filterMap (chordOf fix st),
          some c = st.currentSelectedBlock) := by
  induction keys generalizing visited acc with
  | nil => exact ⟨acc, rfl, by simp [unvisitedKeys]⟩
  | cons k ks ih =>
    have hks : ∀ k' ∈ ks, ∃ r, deriveChord fix st k' = some r :=
      fun k' hk' => h k' (List.mem_cons_of_mem _ hk')
    by_cases hv : k ∈ visited
    · obtain ⟨out, hout, hf⟩ := ih visited acc hks
      exact ⟨out, by simp [chordLoop, hv, hout], by simpa [unvisitedKeys, hv] using hf⟩
    · obtain ⟨r, hr⟩ := h k (List.mem_cons_self _ _)
      cases r with
      | none =>
        obtain ⟨out, hout, hf⟩ := ih (k :: visited) acc hks
        refine ⟨out, by simp [chordLoop, hv, hr, hout], ?_⟩
        simpa [unvisitedKeys, hv, chordOf, hr] using hf
      | some chord =>
        obtain ⟨out, hout, hf⟩ := ih (k :: visited)
          { dataChords := acc.dataChords ++ [chord]
            foundCurrentSelectedBlock :=
              if some chord = st.currentSelectedBlock then true
              else acc.foundCurrentSelectedBlock } hks
        refine ⟨out, by simp only [chordLoop, hv, hr, ↓reduceIte]; exact hout, ?_⟩
        rw [hf]
        simp only [unvisitedKeys, hv, if_false, List.filterMap_cons, chordOf, hr, Option.join,
          Option.some_bind, id, List.mem_cons, exists_eq_or_imp]
        by_cases hsel : some chord = st.currentSelectedBlock
        · simp [hsel]
        · simp only [hsel, if_false, false_or]

/-- In a well-formed state the selected block is reported as found exactly when the stored
chord itself, with its coordinates, is among the new chords. -/
theorem found_iff_same_chord (fix : Connection → SourceTarget) (st : ViewState)
    (hwf : st.WellFormed) :
    ∃ out, generatePathGenomeView fix st = some out ∧
      (out.foundCurrentSelectedBlock = true ↔
        ∃ c ∈ out.dataChords, some c = st.currentSelectedBlock) := by
  obtain ⟨out, hout, hf⟩ := chordLoop_found fix st st.blockKeys []
    { dataChords := [], foundCurrentSelectedBlock := false }
    (fun k hk => deriveChord_isSome fix st hwf k hk)
  obtain ⟨out', hout', hd⟩ := generatePathGenomeView_dataChords fix st hwf
  have heq : out' = out := by
    unfold generatePathGenomeView at hout'
    rw [hout] at hout'
    exact (Option.some.inj hout').symm
  subst heq
  refine ⟨out', hout', ?_⟩
  rw [hf, hd]
  simp

/-- Claim C23, the code at the failing input: the chord of block `b1` is the selected block;
with nothing flipped it is emitted and reported as found; after `Chr1` is flipped a chord
for `b1` is still emitted, with mirrored source range, but the selected block is reported
as not found. -/
theorem selected_block_not_found_after_flip :
    generatePathGenomeView fixSourceTargetCollinearity
        { exampleView ["Chr1", "Chr2"] [] true "At Least" 1 with
          currentSelectedBlock := some exampleChord } =
      some { dataChords := [exampleChord], foundCurrentSelectedBlock := true } ∧
    generatePathGenomeView fixSourceTargetCollinearity
        { exampleView ["Chr1", "Chr2"] (clickChromosome [] "Chr1") true "At Least" 1 with
          currentSelectedBlock := some exampleChord } =
      some { dataChords :=
               [{ source := { id := "Chr1", start := 0, end_ := 8
                              value := { id := "b1", length := 2 } }
                  target := { id := "Chr2", start := 1, end_ := 13 } }]
             foundCurrentSelectedBlock := false } := by
  decide

/-! ## The palette handler -/

theorem Dict.set_eq_self {V : Type} (d : Dict V) (k : String) (v : V)
    (h : d.get? k = some v) : d.set k v = d := by
  induction d with
  | nil => simp [Dict.get?] at h
  | cons p rest ih =>
    obtain ⟨a, b⟩ := p
    by_cases hak : a = k
    · subst hak
      simp only [Dict.get?, if_true, Option.some.injEq] at h
      simp [Dict.set, h]
    · simp only [Dict.get?, hak, if_false] at h
      simp [Dict.set, hak, ih h]

theorem recolor_isSome (colors : Nat → Option String) (ks : List String) (i : Nat)
    (d : Dict ChromosomeEntry) (h : ∀ k ∈ ks, (d.get? k).isSome = true) :
    ∃ d', recolor colors ks i d = some d' := by
  induction ks generalizing i d with
  | nil => exact ⟨d, rfl⟩
  | cons k ks ih =>
    have hk := h k (List.mem_cons_self _ _)
    cases he : d.get? k with
    | none => rw [he] at hk; simp at hk
    | some e =>
      simp only [recolor, he]
      apply ih
      intro k' hk'
      rw [Dict.get?_set]
      by_cases hkk : k = k'
      · simp [hkk]
      · simpa [hkk] using h k' (List.mem_cons_of_mem _ hk')

/-- After the loop a key of the list has the colour of its index, and nothing else has
changed. -/
theorem recolor_get? (colors : Nat → Option String) (ks : List String) (i : Nat)
    (d d' : Dict ChromosomeEntry) (hnd : ks.Nodup) (h : recolor colors ks i d = some d')
    (c : String) :
    d'.get? c =
      if c ∈ ks then (d.get? c).map (fun e => { e with color := colors (i + ks.indexOf c) })
      else d.get? c := by
  induction ks generalizing i d with
  | nil =>
    simp only [recolor, Option.some.injEq] at h
    simp [h]
  | cons k ks ih =>
    simp only [List.nodup_cons] at hnd
    cases he : d.get? k with
    | none => simp [recolor, he] at h
    | some e =>
      simp only [recolor, he] at h
      rw [ih _ _ hnd.2 h, Dict.get?_set]
      by_cases hck : k = c
      · subst hck
        simp [hnd.1, he]
      · have hck' : ¬ c = k := fun e => hck e.symm
        by_cases hc : c ∈ ks
        · simp only [hc, if_true, hck, if_false, List.mem_cons, or_true,
            List.indexOf_cons_ne _ hck]
          congr 1
          funext x
          congr 2
          omega
        · simp [hc, hck, hck']

theorem recolor_keys (colors : Nat → Option String) (ks : List String) (i : Nat)
    (d d' : Dict ChromosomeEntry) (h : recolor colors ks i d = some d') :
    d'.keys = d.keys := by
  induction ks generalizing i d with
  | nil =>
    simp only [recolor, Option.some.injEq] at h
    rw [h]
  | cons k ks ih =>
    cases he : d.get? k with
    | none => simp [recolor, he] at h
    | some e =>
      simp only [recolor, he] at h
      rw [ih _ _ h, keys_set_of_get? d k e _ he]

/-- A dictionary whose keys already carry the colours of their indices is left as it is. -/
theorem recolor_fixed (colors : Nat → Option String) (ks : List String) (i : Nat)
    (d : Dict ChromosomeEntry) (hnd : ks.Nodup)
    (h : ∀ k ∈ ks, ∃ e, d.get? k = some e ∧ e.color = colors (i + ks.indexOf k)) :
    recolor colors ks i d = some d := by
  induction ks generalizing i with
  | nil => rfl
  | cons k ks ih =>
    simp only [List.nodup_cons] at hnd
    obtain ⟨e, he, hcol⟩ := h k (List.mem_cons_self _ _)
    simp only [List.indexOf_cons_self, Nat.add_zero] at hcol
    have hsame : ({ e with color := colors i } : ChromosomeEntry) = e := by
      cases e
      simp_all
    simp only [recolor, he, hsame, Dict.set_eq_self d k e he]
    apply ih (i + 1) hnd.2
    intro k' hk'
    obtain ⟨e', he', hcol'⟩ := h k' (List.mem_cons_of_mem _ hk')
    have hne : k ≠ k' := fun heq => hnd.1 (heq ▸ hk')
    rw [List.indexOf_cons_ne _ hne] at hcol'
    refine ⟨e', he', ?_⟩
    rw [hcol']
    congr 1
    omega

theorem assignColors_recolor (colors : Nat → Option String) (ks : List String) (i : Nat)
    (t t' : Int) (d d' : Dict ChromosomeEntry)
    (h : assignColors colors ks i t d = some (t', d')) : recolor colors ks i d = some d' := by
  induction ks generalizing i t d with
  | nil =>
    simp only [assignColors, Option.some.injEq, Prod.mk.injEq] at h
    simp [recolor, h.2]
  | cons k ks ih =>
    cases he : d.get? k with
    | none => simp [assignColors, he] at h
    | some e =>
      simp only [assignColors, he] at h
      simp only [recolor, he]
      exact ih _ _ _ h

/-- Claim C24: when the sorted keys are distinct and all have an entry, the default branch
of the palette handler returns a dictionary in which the chromosome at sorted index `i` has
the ordinal colour of `i` in the palette; applying it again with the same palette returns
the same dictionary; the keys and every chromosome's start, end and tag are those of the
dictionary it started from; the loop of lines 190-193 assigns the same colours. -/
theorem changePaletteDefault_idempotent (palette : List String) (gffKeys : List String)
    (d : Dict ChromosomeEntry) (hnodup : gffKeys.Nodup)
    (hkeys : ∀ k ∈ gffKeys, (d.get? k).isSome = true) :
    ∃ d₁, changePaletteDefault palette gffKeys d = some d₁ ∧
      changePaletteDefault palette gffKeys d₁ = some d₁ ∧
      (∀ i k, gffKeys[i]? = some k →
        ∃ e, d₁.get? k = some e ∧ e.color = scaleOrdinal palette i) ∧
      (∀ c, (d₁.get? c).map ChromosomeEntry.frame = (d.get? c).map ChromosomeEntry.frame) ∧
      d₁.keys = d.keys ∧
      (∀ t t' d', assignColors (scaleOrdinal palette) gffKeys 0 t d = some (t', d') →
        d' = d₁) := by
  obtain ⟨d₁, h₁⟩ := recolor_isSome (scaleOrdinal palette) gffKeys 0 d hkeys
  have hget := recolor_get? (scaleOrdinal palette) gffKeys 0 d d₁ hnodup h₁
  have hcol : ∀ k ∈ gffKeys, ∃ e, d₁.get? k = some e ∧
      e.color = scaleOrdinal palette (0 + gffKeys.indexOf k) := by
    intro k hk
    have hs := hkeys k hk
    cases hd : d.get? k with
    | none => rw [hd] at hs; simp at hs
    | some e =>
      refine ⟨{ e with color := scaleOrdinal palette (0 + gffKeys.indexOf k) }, ?_, rfl⟩
      rw [hget k]
      simp [hk, hd]
  refine ⟨d₁, h₁, recolor_fixed _ _ _ _ hnodup hcol, ?_, ?_, recolor_keys _ _ _ _ _ h₁, ?_⟩
  · intro i k hik
    obtain ⟨hi, hk⟩ := List.getElem?_eq_some.mp hik
    obtain ⟨e, he, hc⟩ := hcol k (List.getElem?_mem hik)
    refine ⟨e, he, ?_⟩
    rw [hc, ← hk, List.indexOf_getElem hnodup i hi, Nat.zero_add]
  · intro c
    rw [hget c]
    by_cases hc : c ∈ gffKeys
    · simp only [hc, if_true, Option.map_map]
      cases d.get? c <;> rfl
    · simp [hc]
  · intro t t' d' ha
    have := assignColors_recolor _ _ _ _ _ _ _ ha
    rw [h₁] at this
    exact (Option.some.inj this).symm

/-- The claim C24 at the position index of the example view, recoloured with the example
palette: `Chr1` gets the first colour, `Chr2` the second, twice. -/
theorem changePaletteDefault_idempotent_witness :
    (["Chr1", "Chr2"] : List String).Nodup ∧
    changePaletteDefault ["#8dd3c7", "#ffffb3"] ["Chr1", "Chr2"]
        (exampleView [] [] true "At Least" 1).gffPositionDictionary =
      some [("Chr1", { start := 0, end_ := 28, color := some "#8dd3c7", tag := none }),
            ("Chr2", { start := 0, end_ := 28, color := some "#ffffb3", tag := none })] ∧
    ∃ d₁, changePaletteDefault ["#8dd3c7", "#ffffb3"] ["Chr1", "Chr2"]
        (exampleView [] [] true "At Least" 1).gffPositionDictionary = some d₁ ∧
      changePaletteDefault ["#8dd3c7", "#ffffb3"] ["Chr1", "Chr2"] d₁ = some d₁ :=
  ⟨by decide, by decide,
    match changePaletteDefault_idempotent ["#8dd3c7", "#ffffb3"] ["Chr1", "Chr2"]
        (exampleView [] [] true "At Least" 1).gffPositionDictionary (by decide)
        (by decide) with
    | ⟨d₁, h₁, h₂, _⟩ => ⟨d₁, h₁, h₂⟩⟩

/-! ## Recomputation, absent inputs, mirrored ranges and the click handler -/

/-- Claim C25: in a well-formed state `generatePathGenomeView` recomputes its output from the
current state: the resulting chord list is the same whatever `dataChords` held before, a
second invocation returns the same chord list, and the view state, with the block dictionary
and the `blockPositions` of its blocks, is what it was before, also when chromosomes are
flipped. -/
theorem path_recomputed (fix : Connection → SourceTarget) (st : ViewState)
    (hwf : st.WellFormed) (previous₁ previous₂ : List Chord) :
    ∃ s, generatePathGenomeViewRun fix { view := st, dataChords := previous₁ } = some s ∧
      generatePathGenomeViewRun fix { view := st, dataChords := previous₂ } = some s ∧
      generatePathGenomeViewRun fix s = some s ∧
      s.view.blockDictionary = st.blockDictionary ∧
      (∀ k, (s.view.blockDictionary.get? k).map (fun b => b.blockPositions) =
        (st.blockDictionary.get? k).map (fun b => b.blockPositions)) ∧
      s.dataChords = (unvisitedKeys st.blockKeys []).filterMap (chordOf fix st) := by
  obtain ⟨out, hout, hd⟩ := generatePathGenomeView_dataChords fix st hwf
  refine ⟨{ view := st, dataChords := out.dataChords }, ?_, ?_, ?_, rfl, fun _ => rfl, hd⟩
  · simp [generatePathGenomeViewRun, hout]
  · simp [generatePathGenomeViewRun, hout]
  · simp [generatePathGenomeViewRun, hout]

/-- The claim C25 at the example view with `Chr1` flipped, started from an empty chord list
and from a list holding a stale chord. -/
theorem path_recomputed_witness :
    (exampleView ["Chr1", "Chr2"] ["Chr1"] true "At Least" 1).WellFormed ∧
    ∃ s, generatePathGenomeViewRun fixSourceTargetCollinearity
        { view := exampleView ["Chr1", "Chr2"] ["Chr1"] true "At Least" 1
          dataChords := [] } = some s ∧
      generatePathGenomeViewRun fixSourceTargetCollinearity
        { view := exampleView ["Chr1", "Chr2"] ["Chr1"] true "At Least" 1
          dataChords := [exampleChord] } = some s ∧
      generatePathGenomeViewRun fixSourceTargetCollinearity s = some s :=
  ⟨⟨by decide, by decide⟩,
    match path_recomputed fixSourceTargetCollinearity
        (exampleView ["Chr1", "Chr2"] ["Chr1"] true "At Least" 1) ⟨by decide, by decide⟩
        [] [exampleChord] with
    | ⟨s, h₁, h₂, h₃, _⟩ => ⟨s, h₁, h₂, h₃⟩⟩

/-- Claim C26: if the gene input or the collinearity input is absent, `generateData` returns
without any effect: no stored variable is reset or set, nothing is rendered, nothing is
raised. -/
theorem generateData_absent_input (env : Collaborators) (gff : Option (List GffRecord))
    (collinearity : Option (List CollinearityRecord)) (additionalTrack : Option (List String))
    (h : gff = none ∨ collinearity = none) :
    generateData env gff collinearity additionalTrack = { trace := [], threw := false } := by
  rcases h with h | h
  · subst h
    rfl
  · subst h
    cases gff <;> rfl

/-- The claim C26 at the example genes with the collinearity input absent. -/
theorem generateData_absent_input_witness :
    (generateData exampleCollaborators (some exampleGenes) none none).trace = [] ∧
    (generateData exampleCollaborators none (some compatibleRows) none).trace = [] :=
  ⟨congrArg Run.trace
      (generateData_absent_input exampleCollaborators (some exampleGenes) none none
        (Or.inr rfl)),
   congrArg Run.trace
      (generateData_absent_input exampleCollaborators none (some compatibleRows) none
        (Or.inl rfl))⟩

/-- Claim C27, refuted as stated: on a chromosome ending at 9007199254740994 the range 1
to 3 satisfies `0 ≤ start ≤ end ≤ E`, and its mirror, 9007199254740991 to 9007199254740992,
has width 1, not 2: the mirrored end is a rounded difference of doubles. -/
theorem flipPositions_width_changes :
    (0 : Int) ≤ 1 ∧ (1 : Int) ≤ 3 ∧ (3 : Int) ≤ 9007199254740994 ∧
    (flipPositions 9007199254740994 { start := 1, end_ := 3 }).end_ -
        (flipPositions 9007199254740994 { start := 1, end_ := 3 }).start = 1 ∧
    (flipPositions 9007199254740994 { start := 1, end_ := 3 }).end_ -
        (flipPositions 9007199254740994 { start := 1, end_ := 3 }).start ≠ 3 - 1 := by
  decide

/-- Claim C27, amended: for a chromosome end `E` not above the maximum safe integer and a
range with `0 ≤ start ≤ end ≤ E`, the mirrored range has the same width and satisfies
`0 ≤ newStart ≤ newEnd ≤ E`. -/
theorem flipPositions_bounds (E : Int) (p : Positions) (h₀ : 0 ≤ p.start)
    (h₁ : p.start ≤ p.end_) (h₂ : p.end_ ≤ E) (hE : E ≤ MAX_SAFE_INTEGER) :
    (flipPositions E p).end_ - (flipPositions E p).start = p.end_ - p.start ∧
    0 ≤ (flipPositions E p).start ∧
    (flipPositions E p).start ≤ (flipPositions E p).end_ ∧
    (flipPositions E p).end_ ≤ E := by
  have hs : safeInteger (E - p.start) = true := by
    simp only [safeInteger, MAX_SAFE_INTEGER, Bool.and_eq_true, decide_eq_true_eq] at hE ⊢
    omega
  have he : safeInteger (E - p.end_) = true := by
    simp only [safeInteger, MAX_SAFE_INTEGER, Bool.and_eq_true, decide_eq_true_eq] at hE ⊢
    omega
  simp only [flipPositions, roundDouble_of_safe _ hs, roundDouble_of_safe _ he]
  refine ⟨?_, ?_, ?_, ?_⟩ <;> omega

/-- The amended claim C27 at the range 20-28 of a chromosome ending at 28, mirrored to
0-8. -/
theorem flipPositions_bounds_witness :
    (28 : Int) ≤ MAX_SAFE_INTEGER ∧
    flipPositions 28 { start := 20, end_ := 28 } = { start := 0, end_ := 8 } ∧
    (flipPositions 28 { start := 20, end_ := 28 }).end_ -
        (flipPositions 28 { start := 20, end_ := 28 }).start = 28 - 20 ∧
    0 ≤ (flipPositions 28 { start := 20, end_ := 28 }).start :=
  have h := flipPositions_bounds 28 { start := 20, end_ := 28 } (by decide) (by decide)
    (by decide) (by decide)
  ⟨by decide, by decide, h.1, h.2.1⟩

/-- Claim C28: the click handler removes the clicked identifier from the flipped list (the
occurrence `indexOf` finds) when it is present and appends it otherwise, keeping every other
identifier; on a list without duplicates the result has no duplicates, the membership of
the clicked identifier is toggled, and clicking the same chromosome twice gives a list with
the members of the original. -/
theorem clickChromosome_toggles (flipped : List String) (id : String) :
    (id ∈ flipped → clickChromosome flipped id = flipped.erase id) ∧
    (id ∉ flipped → clickChromosome flipped id = flipped ++ [id]) ∧
    (∀ x, x ≠ id → (x ∈ clickChromosome flipped id ↔ x ∈ flipped)) ∧
    (flipped.Nodup →
      (clickChromosome flipped id).Nodup ∧
      (id ∈ clickChromosome flipped id ↔ id ∉ flipped) ∧
      ∀ x, x ∈ clickChromosome (clickChromosome flipped id) id ↔ x ∈ flipped) := by
  have hin : id ∈ flipped → clickChromosome flipped id = flipped.erase id := by
    intro h
    simp only [clickChromosome, h, if_true]
    exact List.eraseIdx_indexOf_eq_erase id flipped
  have hout : ∀ l : List String, id ∉ l → clickChromosome l id = l ++ [id] := by
    intro l h
    simp only [clickChromosome, h, if_false]
  refine ⟨hin, hout flipped, ?_, ?_⟩
  · intro x hx
    by_cases h : id ∈ flipped
    · rw [hin h]
      exact List.mem_erase_of_ne hx
    · rw [hout flipped h]
      simp [hx]
  · intro hnd
    by_cases h : id ∈ flipped
    · have hnot : id ∉ flipped.erase id := fun hm => ((hnd.mem_erase_iff).mp hm).1 rfl
      refine ⟨by rw [hin h]; exact hnd.erase id, ?_, ?_⟩
      · rw [hin h]
        simp [hnot, h]
      · intro x
        rw [hin h, hout _ hnot]
        simp only [List.mem_append, List.mem_singleton, hnd.mem_erase_iff]
        constructor
        · rintro (⟨_, hx⟩ | rfl)
          · exact hx
          · exact h
        · intro hx
          by_cases hxi : x = id
          · exact Or.inr hxi
          · exact Or.inl ⟨hxi, hx⟩
    · have hmem : id ∈ flipped ++ [id] := by simp
      have hclick2 : clickChromosome (flipped ++ [id]) id = flipped := by
        simp only [clickChromosome, hmem, if_true]
        rw [List.eraseIdx_indexOf_eq_erase, List.erase_append_right _ h]
        simp
      refine ⟨?_, ?_, ?_⟩
      · rw [hout flipped h, List.nodup_append]
        refine ⟨hnd, List.nodup_singleton _, ?_⟩
        intro x hx hx'
        simp only [List.mem_singleton] at hx'
        exact h (hx' ▸ hx)
      · rw [hout flipped h]
        simp [h]
      · intro x
        rw [hout flipped h, hclick2]

/-- The claim C28 on the flipped list `Chr1`, `Chr2`: a click on `Chr1` leaves `Chr2`, a
second click gives `Chr2`, `Chr1`, which has the members of the original. -/
theorem clickChromosome_toggles_witness :
    clickChromosome ["Chr1", "Chr2"] "Chr1" = ["Chr2"] ∧
    clickChromosome (clickChromosome ["Chr1", "Chr2"] "Chr1") "Chr1" = ["Chr2", "Chr1"] ∧
    ∀ x, x ∈ clickChromosome (clickChromosome ["Chr1", "Chr2"] "Chr1") "Chr1" ↔
      x ∈ ["Chr1", "Chr2"] :=
  ⟨by decide, by decide,
    ((clickChromosome_toggles ["Chr1", "Chr2"] "Chr1").2.2.2 (by decide)).2.2⟩

/-! ## The keys of the connection index -/

theorem connectionDictionary_indexRow_isSome (s : IndexState) (r : CollinearityRecord)
    (A : String) :
    ((indexRow s r).connectionDictionary.get? A).isSome = true ↔
      r.sourceChromosome = A ∨ r.targetChromosome = A ∨
      (s.connectionDictionary.get? A).isSome = true := by
  simp only [indexRow, Dict.get?_set, get?_ensure]
  by_cases ht : r.targetChromosome = A
  · simp [ht]
  · by_cases hs : r.sourceChromosome = A
    · simp [ht, hs]
    · simp [ht, hs]

/-- The keys of the connection index are the chromosomes occurring as source or target. -/
theorem connectionDictionary_isSome (rows : List CollinearityRecord) (A : String) :
    ((indexRows rows).connectionDictionary.get? A).isSome = true ↔
      ∃ r ∈ rows, r.sourceChromosome = A ∨ r.targetChromosome = A := by
  induction rows using List.reverseRecOn with
  | nil => simp [indexRows, Dict.get?]
  | append_singleton rows r ih =>
    rw [indexRows_append_singleton, connectionDictionary_indexRow_isSome, ih]
    simp only [List.mem_append, List.mem_singleton]
    constructor
    · rintro (h | h | ⟨r', hr', h⟩)
      · exact ⟨r, Or.inr rfl, Or.inl h⟩
      · exact ⟨r, Or.inr rfl, Or.inr h⟩
      · exact ⟨r', Or.inl hr', h⟩
    · rintro ⟨r', hr' | rfl, h⟩
      · exact Or.inr (Or.inr ⟨r', hr', h⟩)
      · rcases h with h | h
        · exact Or.inl h
        · exact Or.inr (Or.inl h)

/-- An iteration that returns from a state without inherited names as own properties has
met a row of ordinary names. -/
theorem indexRecord_ordinary (s s' : IndexState) (r : CollinearityRecord)
    (h : indexRecord s r = some s')
    (hb : ∀ k, k ∈ objectPrototypeNames → s.blockDictionary.get? k = none)
    (hc : ∀ k, k ∈ objectPrototypeNames → s.connectionDictionary.get? k = none) :
    r.ordinary = true := by
  simp only [indexRecord] at h
  split at h
  · exact absurd h (by simp)
  · rename_i b hblk
    split at h
    · exact absurd h (by simp)
    · rename_i l₁ h₁
      split at h
      · exact absurd h (by simp)
      · rename_i l₂ h₂
        have hblock : r.block ∉ objectPrototypeNames := by
          intro hin
          have hh : s.blockDictionary.has r.block = true :=
            (has_eq_true_iff _ _).mpr (Or.inr hin)
          simp only [hh, if_true, hb _ hin] at hblk
          exact absurd hblk (by simp)
        have hsource : r.sourceChromosome ∉ objectPrototypeNames := by
          intro hin
          have hh : s.connectionDictionary.has r.sourceChromosome = true :=
            (has_eq_true_iff _ _).mpr (Or.inr hin)
          simp only [hh, if_true] at h₁
          by_cases hst : r.targetChromosome = r.sourceChromosome
          · rw [hst] at h₁
            simp only [hh, if_true, hc _ hin] at h₁
            exact absurd h₁ (by simp)
          · rw [get?_guarded_ne _ _ _ _ hst, hc _ hin] at h₁
            exact absurd h₁ (by simp)
        have htarget : r.targetChromosome ∉ objectPrototypeNames := by
          intro hin
          have hst : r.sourceChromosome ≠ r.targetChromosome := fun e => hsource (e ▸ hin)
          rw [Dict.get?_set] at h₂
          simp only [hst, if_false] at h₂
          have hh : (if s.connectionDictionary.has r.sourceChromosome
              then s.connectionDictionary
              else s.connectionDictionary.set r.sourceChromosome []).has
                r.targetChromosome = true :=
            (has_eq_true_iff _ _).mpr (Or.inr hin)
          simp only [hh, if_true] at h₂
          rw [get?_guarded_ne _ _ _ _ hst, hc _ hin] at h₂
          exact absurd h₂ (by simp)
        simp [CollinearityRecord.ordinary, hblock, hsource, htarget]

/-- The iteration on a row of ordinary names creates no inherited name as own property. -/
theorem indexRow_ordinary_keys (s : IndexState) (r : CollinearityRecord)
    (hr : r.ordinary = true)
    (hb : ∀ k, k ∈ objectPrototypeNames → s.blockDictionary.get? k = none)
    (hc : ∀ k, k ∈ objectPrototypeNames → s.connectionDictionary.get? k = none) :
    (∀ k, k ∈ objectPrototypeNames → (indexRow s r).blockDictionary.get? k = none) ∧
    (∀ k, k ∈ objectPrototypeNames → (indexRow s r).connectionDictionary.get? k = none) := by
  simp only [CollinearityRecord.ordinary, Bool.and_eq_true, Bool.not_eq_true',
    decide_eq_false_iff_not] at hr
  obtain ⟨⟨hblock, hsource⟩, htarget⟩ := hr
  constructor
  · intro k hk
    rw [blockDictionary_indexRow_get?]
    have hne : r.block ≠ k := fun e => hblock (e ▸ hk)
    simp only [hne, if_false]
    exact hb k hk
  · intro k hk
    have hs : r.sourceChromosome ≠ k := fun e => hsource (e ▸ hk)
    have ht : r.targetChromosome ≠ k := fun e => htarget (e ▸ hk)
    have h := connectionDictionary_indexRow_isSome s r k
    cases hg : (indexRow s r).connectionDictionary.get? k with
    | none => rfl
    | some l =>
      rw [hg] at h
      have := h.mp rfl
      rcases this with e | e | e
      · exact absurd e hs
      · exact absurd e ht
      · rw [hc k hk] at e
        exact absurd e (by simp)

theorem indexLoop_ordinary (rows : List CollinearityRecord) (s index : IndexState)
    (h : indexLoop s rows = some index)
    (hb : ∀ k, k ∈ objectPrototypeNames → s.blockDictionary.get? k = none)
    (hc : ∀ k, k ∈ objectPrototypeNames → s.connectionDictionary.get? k = none) :
    ∀ r ∈ rows, r.ordinary = true := by
  induction rows generalizing s with
  | nil => intro r hr; cases hr
  | cons r rest ih =>
    simp only [indexLoop] at h
    cases hr : indexRecord s r with
    | none => rw [hr] at h; exact absurd h (by simp)
    | some s' =>
      rw [hr] at h
      simp only at h
      have hord := indexRecord_ordinary s s' r hr hb hc
      have hs' := indexRecord_eq_some s s' r hr
      subst hs'
      obtain ⟨hb', hc'⟩ := indexRow_ordinary_keys s r hord hb hc
      intro x hx
      rcases List.mem_cons.mp hx with rfl | hx'
      · exact hord
      · exact ih _ h hb' hc' x hx'

/-- The loop of lines 219-296 returns exactly on the inputs whose identifiers are ordinary
names: a block or chromosome called by a name inherited from `Object.prototype` makes it
raise. -/
theorem indexCollinearity_isSome_iff (rows : List CollinearityRecord) :
    (indexCollinearity rows).isSome = true ↔ ∀ r ∈ rows, r.ordinary = true := by
  constructor
  · intro h
    cases hi : indexCollinearity rows with
    | none => rw [hi] at h; exact absurd h (by simp)
    | some index =>
      exact indexLoop_ordinary rows _ index hi (fun _ _ => rfl) (fun _ _ => rfl)
  · intro h
    rw [indexCollinearity_of_ordinary rows h]
    rfl

/-- Claim C29: for every collinearity input whose identifiers are ordinary names (for a
name inherited from `Object.prototype` the test `in` of lines 247 and 252 is true, no array
is created and `.push` raises a `TypeError`) the loop of `generateData` returns, and in its
connection index every list `connectionDictionary[A]` holds at most one entry per partner
(the `connection` fields of its entries are pairwise distinct), and every chromosome
occurring as source or target of a row is a key of the index; the index has no other key. -/
theorem connectionDictionary_keys (collinearity : List CollinearityRecord)
    (hnames : ∀ r ∈ collinearity, r.ordinary = true) :
    ∃ index, indexCollinearity collinearity = some index ∧
    (∀ A l, index.connectionDictionary.get? A = some l →
      (l.map (fun e => e.connection)).Nodup) ∧
    (∀ r ∈ collinearity,
      r.sourceChromosome ∈ index.connectionDictionary.keys ∧
      r.targetChromosome ∈ index.connectionDictionary.keys) ∧
    (∀ A, A ∈ index.connectionDictionary.keys ↔
      ∃ r ∈ collinearity, r.sourceChromosome = A ∨ r.targetChromosome = A) := by
  have hkeys : ∀ A, A ∈ (indexRows collinearity).connectionDictionary.keys ↔
      ∃ r ∈ collinearity, r.sourceChromosome = A ∨ r.targetChromosome = A := by
    intro A
    rw [Dict.mem_keys_iff, connectionDictionary_isSome]
  refine ⟨indexRows collinearity, indexCollinearity_of_ordinary collinearity hnames,
    ?_, ?_, hkeys⟩
  · intro A l hl
    rw [← connectionsOf_of_get? hl]
    exact nodup_connectionsOf collinearity A
  · intro r hr
    exact ⟨(hkeys _).mpr ⟨r, hr, Or.inl rfl⟩, (hkeys _).mpr ⟨r, hr, Or.inr rfl⟩⟩

/-- The claim C29 at the two example rows: the loop returns and the keys of the connection
index are `Chr1` and `Chr2`; a row whose source chromosome is called `constructor` makes the
loop raise. -/
theorem connectionDictionary_keys_witness :
    (∀ r ∈ [exampleRow "0", exampleRow "1"], r.ordinary = true) ∧
    (∃ index, indexCollinearity [exampleRow "0", exampleRow "1"] = some index ∧
      ∀ r ∈ [exampleRow "0", exampleRow "1"],
        r.sourceChromosome ∈ index.connectionDictionary.keys ∧
        r.targetChromosome ∈ index.connectionDictionary.keys) ∧
    exampleIndex.connectionDictionary.keys = ["Chr1", "Chr2"] ∧
    indexCollinearity [{ exampleRow "0" with sourceChromosome := "constructor" }] = none :=
  ⟨by decide,
    match connectionDictionary_keys [exampleRow "0", exampleRow "1"] (by decide) with
    | ⟨index, hidx, _, h, _⟩ => ⟨index, hidx, h⟩,
    by decide, by decide⟩

/-! ## The two filter modes -/

/-- In a well-formed state a block of `blockKeys` is emitted exactly when it passes the
inclusion test and the filter. -/
theorem emitted_iff_pass (fix : Connection → SourceTarget) (st : ViewState)
    (hwf : st.WellFormed) :
    ∃ out, generatePathGenomeView fix st = some out ∧
      ∀ b ∈ st.blockKeys, ∀ blk first,
        st.blockDictionary.get? b = some blk → blk.entries.head? = some first →
        ((∃ c ∈ out.dataChords, c.source.value.id = b) ↔
          (inclusion st (fix first).source (fix first).target = true ∧
           filterCondition st blk.entries.length = true)) := by
  obtain ⟨out, hout, hmem⟩ := generatePathGenomeView_spec fix st hwf
  refine ⟨out, hout, ?_⟩
  intro b hb blk first hblk hfirst
  constructor
  · rintro ⟨c, hc, hid⟩
    obtain ⟨k, _, hd⟩ := (hmem c).mp hc
    obtain ⟨blk', first', _, _, _, hblk', hfirst', _, hi, hfc, _, _, hceq⟩ :=
      deriveChord_some fix st k c hd
    have hkb : k = b := by rw [← hid, hceq]
    subst hkb
    rw [hblk] at hblk'
    cases hblk'
    rw [hfirst] at hfirst'
    cases hfirst'
    exact ⟨hi, hfc⟩
  · rintro ⟨hi, hfc⟩
    obtain ⟨c, hd, hid⟩ := deriveChord_of_pass fix st hwf b hb blk first hblk hfirst hi hfc
    exact ⟨c, (hmem c).mpr ⟨b, hb, hd⟩, hid⟩

/-- Claim C30: for a fixed well-formed state and threshold `N`, every block satisfying the
inclusion rule is emitted under `At Least N` or under `At Most N`; a block is emitted under
both exactly when it satisfies the inclusion rule and has exactly `N` entries; and under
`At Least 1` every block satisfying the inclusion rule is emitted, a block having at least
one entry. -/
theorem filter_modes_cover (fix : Connection → SourceTarget) (st : ViewState)
    (hwf : st.WellFormed) (N : Int) :
    ∃ least most one,
      generatePathGenomeView fix { st with filterSelect := "At Least", filterValue := N } =
        some least ∧
      generatePathGenomeView fix { st with filterSelect := "At Most", filterValue := N } =
        some most ∧
      generatePathGenomeView fix { st with filterSelect := "At Least", filterValue := 1 } =
        some one ∧
      ∀ b ∈ st.blockKeys, ∀ blk first,
        st.blockDictionary.get? b = some blk → blk.entries.head? = some first →
        (((if st.selectedCheckbox.length = 1 ∧ st.showAllChromosomes = true then
             (fix first).source ∈ st.selectedCheckbox ∨ (fix first).target ∈ st.selectedCheckbox
           else
             (fix first).source ∈ st.selectedCheckbox ∧
             (fix first).target ∈ st.selectedCheckbox) →
          ((∃ c ∈ least.dataChords, c.source.value.id = b) ∨
           (∃ c ∈ most.dataChords, c.source.value.id = b))) ∧
         (((∃ c ∈ least.dataChords, c.source.value.id = b) ∧
           (∃ c ∈ most.dataChords, c.source.value.id = b)) ↔
          ((if st.selectedCheckbox.length = 1 ∧ st.showAllChromosomes = true then
              (fix first).source ∈ st.selectedCheckbox ∨
              (fix first).target ∈ st.selectedCheckbox
            else
              (fix first).source ∈ st.selectedCheckbox ∧
              (fix first).target ∈ st.selectedCheckbox) ∧
           (blk.entries.length : Int) = N)) ∧
         ((∃ c ∈ one.dataChords, c.source.value.id = b) ↔
          (if st.selectedCheckbox.length = 1 ∧ st.showAllChromosomes = true then
             (fix first).source ∈ st.selectedCheckbox ∨ (fix first).target ∈ st.selectedCheckbox
           else
             (fix first).source ∈ st.selectedCheckbox ∧
             (fix first).target ∈ st.selectedCheckbox)) ∧
         1 ≤ blk.entries.length) := by
  obtain ⟨least, hleast, hl⟩ := emitted_iff_pass fix _ (wellFormed_filter st "At Least" N hwf)
  obtain ⟨most, hmost, hm⟩ := emitted_iff_pass fix _ (wellFormed_filter st "At Most" N hwf)
  obtain ⟨one, hone, ho⟩ := emitted_iff_pass fix _ (wellFormed_filter st "At Least" 1 hwf)
  refine ⟨least, most, one, hleast, hmost, hone, ?_⟩
  intro b hb blk first hblk hfirst
  have hlen : 1 ≤ blk.entries.length := by
    cases he : blk.entries with
    | nil => rw [he] at hfirst; simp at hfirst
    | cons a l => simp
  have hl' := hl b hb blk first hblk hfirst
  have hm' := hm b hb blk first hblk hfirst
  have ho' := ho b hb blk first hblk hfirst
  rw [filterCondition_iff] at hl' hm' ho'
  have hincl : ∀ sel v,
      (inclusion { st with filterSelect := sel, filterValue := v } (fix first).source
        (fix first).target = true) ↔
      (if st.selectedCheckbox.length = 1 ∧ st.showAllChromosomes = true then
         (fix first).source ∈ st.selectedCheckbox ∨ (fix first).target ∈ st.selectedCheckbox
       else
         (fix first).source ∈ st.selectedCheckbox ∧
         (fix first).target ∈ st.selectedCheckbox) :=
    fun sel v => inclusion_iff { st with filterSelect := sel, filterValue := v } _ _
  rw [hincl] at hl' hm' ho'
  dsimp only at hl' hm' ho'
  have hne : ¬ ("At Least" = "At Most") := by decide
  have hne' : ¬ ("At Most" = "At Least") := by decide
  simp only [hne, hne', true_and, false_and, or_false, false_or] at hl' hm' ho'
  refine ⟨?_, ?_, ?_, hlen⟩
  · intro hi
    by_cases hN : (blk.entries.length : Int) ≥ N
    · exact Or.inl (hl'.mpr ⟨hi, hN⟩)
    · exact Or.inr (hm'.mpr ⟨hi, by omega⟩)
  · rw [hl', hm']
    constructor
    · rintro ⟨⟨hi, h1⟩, _, h2⟩
      exact ⟨hi, by omega⟩
    · rintro ⟨hi, h⟩
      exact ⟨⟨hi, by omega⟩, hi, by omega⟩
  · rw [ho']
    constructor
    · exact fun h => h.1
    · intro hi
      exact ⟨hi, by omega⟩

/-- The claim C30 at the example view, whose block `b1` has two entries: with threshold 2
it is emitted under both modes, and it is emitted under `At Least 1`. -/
theorem filter_modes_cover_witness :
    (exampleView ["Chr1", "Chr2"] [] true "At Least" 1).WellFormed ∧
    ∃ least most one,
      generatePathGenomeView fixSourceTargetCollinearity
        { exampleView ["Chr1", "Chr2"] [] true "At Least" 1 with
          filterSelect := "At Least", filterValue := 2 } = some least ∧
      generatePathGenomeView fixSourceTargetCollinearity
        { exampleView ["Chr1", "Chr2"] [] true "At Least" 1 with
          filterSelect := "At Most", filterValue := 2 } = some most ∧
      generatePathGenomeView fixSourceTargetCollinearity
        { exampleView ["Chr1", "Chr2"] [] true "At Least" 1 with
          filterSelect := "At Least", filterValue := 1 } = some one ∧
      ((∃ c ∈ least.dataChords, c.source.value.id = "b1") ∧
        (∃ c ∈ most.dataChords, c.source.value.id = "b1")) ∧
      (∃ c ∈ one.dataChords, c.source.value.id = "b1") :=
  ⟨⟨by decide, by decide⟩,
    match filter_modes_cover fixSourceTargetCollinearity
        (exampleView ["Chr1", "Chr2"] [] true "At Least" 1) ⟨by decide, by decide⟩ 2 with
    | ⟨least, most, one, h₁, h₂, h₃, h⟩ =>
      ⟨least, most, one, h₁, h₂, h₃,
        (h "b1" (by decide) _ _ rfl rfl).2.1.mpr ⟨by decide, by decide⟩,
        (h "b1" (by decide) _ _ rfl rfl).2.2.1.mpr (by decide)⟩⟩

end Accusyn
